import Mathlib

/-!
# Baccarat simulator (`game.go`, `player.go`): shallow embedding and verified properties

Conventions of the embedding.

* Go slices are modelled by `List`; the slices of the program are never
  aliased (the shoe, the decks and the hands each have one owner).
* A Go runtime panic (index out of range in `Shoe.Draw`, nil game pointer)
  is the value `none` of an `Option` result.
* Go `int` is modelled by `Int`.  The money arithmetic of `player.go`
  (bet doubling, bankroll debit and credit) goes through `i64`, the 64-bit
  two's complement wrap-around.  Event counters and hand totals are left
  unwrapped: a counter grows by one per round, and a hand total by one pip
  value per card, so for the cards of `NewDeck` (pip values 1..10) they stay
  far below the 64-bit range.  Statements about scores are made for cards
  with pip values in 1..10, where the unwrapped total is the Go total.
* The three sources of nondeterminism are explicit parameters: the
  iteration order of the Go map in `NewDeck` (`iter`), the raw random
  numbers consumed by `rand.Shuffle` (`rnd`) and by `Guess` (`guess`).
-/

namespace Venture

/-! ## Integers -/

/-- Go `%` on `int`: the remainder of the division truncated towards zero. -/
def goMod (a b : Int) : Int := Int.tmod a b

/-- Wrap-around of a mathematical integer into the range of a 64-bit Go `int`. -/
def i64 (x : Int) : Int := (x + 2 ^ 63) % 2 ^ 64 - 2 ^ 63

/-- The integer is representable as a 64-bit Go `int`. -/
def fits64 (x : Int) : Prop := -(2 ^ 63) ≤ x ∧ x < 2 ^ 63

instance (x : Int) : Decidable (fits64 x) :=
  inferInstanceAs (Decidable (-(2 ^ 63) ≤ x ∧ x < 2 ^ 63))

/-! ## Cards, decks, shoe (`game.go` lines 9-138) -/

/-- Suit constants: `Spades Suit = iota`, `Hearts`, `Diamonds`, `Clubs`. -/
def Spades : Int := 0
def Hearts : Int := 1
def Diamonds : Int := 2
def Clubs : Int := 3

/-- A single card: `type Card struct { Suit; Value; Name }`. -/
structure Card where
  Suit : Int
  Value : Int
  Name : String
  deriving DecidableEq, Repr

/-- A deck of cards: `type Deck struct { Cards []Card }`. -/
structure Deck where
  Cards : List Card
  deriving DecidableEq, Repr

/-- A shoe of several decks: `type Shoe struct { Decks []Deck }`. -/
structure Shoe where
  Decks : List Deck
  deriving DecidableEq, Repr

/-- Go `SuitFromString`. -/
def SuitFromString (s : String) : Int :=
  if s = "Spades" then Spades
  else if s = "Diamonds" then Diamonds
  else if s = "Hearts" then Hearts
  else if s = "Clubs" then Clubs
  else -1

/-- The slice `cardSuits` of `NewDeck`. -/
def cardSuits : List String := ["Spades", "Diamonds", "Hearts", "Clubs"]

/-- The entries of the map `cardValues` of `NewDeck`, in the order of the literal. -/
def cardValues : List (String × Int) :=
  [("Ace", 1), ("Two", 2), ("Three", 3), ("Four", 4), ("Five", 5), ("Six", 6),
   ("Seven", 7), ("Eight", 8), ("Nine", 9), ("Ten", 10), ("Jack", 10),
   ("Queen", 10), ("King", 10)]

/-- A legal iteration order of the map `cardValues`: every entry exactly once. -/
def MapOrder (l : List (String × Int)) : Prop := List.Perm l cardValues

/-- The card appended by the inner loop body of `NewDeck`. -/
def mkCard (suit : String) (e : String × Int) : Card :=
  { Suit := SuitFromString suit, Value := e.2, Name := e.1 ++ " of " ++ suit }

/-- The outer loop of `NewDeck` over the suits still to visit; `iter k` is the
order in which the `k`-th `range cardValues` visits the map. -/
def newDeckLoop (iter : Nat → List (String × Int)) : Nat → List String → List Card → List Card
  | _, [], cards => cards
  | k, suit :: rest, cards =>
    newDeckLoop iter (k + 1) rest (cards ++ (iter k).map (mkCard suit))

/-- Go `NewDeck`. -/
def NewDeck (iter : Nat → List (String × Int)) : Deck :=
  { Cards := newDeckLoop iter 0 cardSuits [] }

/-- The loop of `NewShoe`: `todo` iterations left, `i` the loop counter. -/
def newShoeLoop (iter : Nat → Nat → List (String × Int)) : Nat → Nat → List Deck → List Deck
  | 0, _, decks => decks
  | todo + 1, i, decks => newShoeLoop iter todo (i + 1) (decks ++ [NewDeck (iter i)])

/-- Go `NewShoe`; `iter i k` is the map order of the `k`-th suit of deck `i`. -/
def NewShoe (numDecks : Int) (iter : Nat → Nat → List (String × Int)) : Shoe :=
  { Decks := newShoeLoop iter numDecks.toNat 0 [] }

/-- The swap closure passed to `rand.Shuffle`: `a[i], a[j] = a[j], a[i]`
(both indices are in range whenever `rand.Shuffle` calls it). -/
def swapCards (l : List Card) (i j : Nat) : List Card :=
  match l[i]?, l[j]? with
  | some a, some b => (l.set i b).set j a
  | _, _ => l

/-- The loop of `rand.Shuffle`: `for ; i > 0; i-- { j := r.int31n(i+1); swap(i, j) }`.
The raw random number of iteration `i` is `rnd i`; it is reduced to `[0, i]`. -/
def shuffleLoop (rnd : Nat → Nat) : Nat → List Card → List Card
  | 0, l => l
  | i + 1, l => shuffleLoop rnd i (swapCards l (i + 1) (rnd (i + 1) % (i + 2)))

/-- Go `r.Shuffle(n, swap)` on a slice of `n` cards (`i` starts at `n - 1`). -/
def randShuffle (rnd : Nat → Nat) (l : List Card) : List Card :=
  shuffleLoop rnd (l.length - 1) l

/-- Go builtin `copy(dst, src)`: overwrites the first `min (len dst) (len src)` slots. -/
def goCopy (dst src : List Card) : List Card :=
  src.take dst.length ++ dst.drop src.length

/-- The loop of `Shoe.Shuffle` that collects all cards into one slice. -/
def collectCards : List Deck → List Card → List Card
  | [], allCards => allCards
  | deck :: rest, allCards => collectCards rest (allCards ++ deck.Cards)

/-- The loop of `Shoe.Shuffle` that distributes the shuffled cards back. -/
def distributeCards (allCards : List Card) : List Deck → Nat → List Deck
  | [], _ => []
  | deck :: rest, cardIndex =>
    let deckSize := deck.Cards.length
    { Cards := goCopy deck.Cards ((allCards.drop cardIndex).take deckSize) }
      :: distributeCards allCards rest (cardIndex + deckSize)

/-- Go `(*Shoe).Shuffle`. -/
def Shoe.Shuffle (s : Shoe) (rnd : Nat → Nat) : Shoe :=
  let allCards := randShuffle rnd (collectCards s.Decks [])
  { Decks := distributeCards allCards s.Decks 0 }

/-- Go `(*Shoe).Draw`; `none` is the index-out-of-range panic on a shoe without
decks or with an empty first deck. -/
def Shoe.Draw (s : Shoe) : Option (Card × Shoe) :=
  match s.Decks with
  | [] => none
  | deck :: rest =>
    match deck.Cards with
    | [] => none
    | topCard :: cards =>
      if cards.length = 0 then some (topCard, { Decks := rest })
      else some (topCard, { Decks := { Cards := cards } :: rest })

/-- All cards of the shoe in drawing order. -/
def Shoe.cards (s : Shoe) : List Card := (s.Decks.map Deck.Cards).flatten

/-! ## Game state and statistics (`game.go` lines 146-337) -/

/-- Game-level statistics: `type Stat struct`. -/
structure Stat where
  TotalHandsPlayed : Int
  PlayerWinCount : Int
  BankerWinCount : Int
  TieCount : Int
  PlayerMaxWinStreak : Int
  PlayerCurrentStreak : Int
  BankerMaxWinStreak : Int
  BankerCurrentStreak : Int
  TieMaxStreak : Int
  TieCurrentStreak : Int
  PlayerWonLastHand : Bool
  BankerWonLastHand : Bool
  LastGameWasTied : Bool
  deriving DecidableEq, Repr

/-- Outcome constants: `PlayerWins = iota`, `BankerWins`, `Tie`. -/
def PlayerWins : Int := 0
def BankerWins : Int := 1
def Tie : Int := 2

/-- The game: `type BaccaratGame struct`. -/
structure BaccaratGame where
  Shoe : Shoe
  Player : List Card
  Banker : List Card
  Statistics : Stat
  canContinue : Bool
  deriving DecidableEq, Repr

/-- The zero value of `Stat`, as built by the literal in `NewBaccaratGame`. -/
def newStat : Stat :=
  { TotalHandsPlayed := 0, PlayerWinCount := 0, BankerWinCount := 0, TieCount := 0,
    PlayerMaxWinStreak := 0, PlayerCurrentStreak := 0, BankerMaxWinStreak := 0,
    BankerCurrentStreak := 0, TieMaxStreak := 0, TieCurrentStreak := 0,
    PlayerWonLastHand := false, BankerWonLastHand := false, LastGameWasTied := false }

/-- The burn loop of `NewBaccaratGame`: `n` further calls of `shoe.Draw()`. -/
def burnLoop : Nat → Shoe → Option Shoe
  | 0, shoe => some shoe
  | n + 1, shoe =>
    match shoe.Draw with
    | none => none
    | some (_, shoe1) => burnLoop n shoe1

/-- Go `NewBaccaratGame`. -/
def NewBaccaratGame (numDecks : Int) (iter : Nat → Nat → List (String × Int))
    (rnd : Nat → Nat) : Option BaccaratGame :=
  let shoe := (NewShoe numDecks iter).Shuffle rnd
  match shoe.Draw with
  | none => none
  | some (topCard, shoe1) =>
    match burnLoop topCard.Value.toNat shoe1 with
    | none => none
    | some shoe2 =>
      some { Shoe := shoe2, Player := [], Banker := [], Statistics := newStat,
             canContinue := true }

/-- Go `(*BaccaratGame).DealHands`. -/
def BaccaratGame.DealHands (g : BaccaratGame) : Option BaccaratGame :=
  if g.Shoe.Decks.length = 1 then some { g with canContinue := false }
  else
    match g.Shoe.Draw with
    | none => none
    | some (c1, s1) =>
      let g1 := { g with Shoe := s1, Player := g.Player ++ [c1] }
      match g1.Shoe.Draw with
      | none => none
      | some (c2, s2) =>
        let g2 := { g1 with Shoe := s2, Banker := g1.Banker ++ [c2] }
        match g2.Shoe.Draw with
        | none => none
        | some (c3, s3) =>
          let g3 := { g2 with Shoe := s3, Player := g2.Player ++ [c3] }
          match g3.Shoe.Draw with
          | none => none
          | some (c4, s4) =>
            some { g3 with Shoe := s4, Banker := g3.Banker ++ [c4] }

/-- Go `EvaluateHand`.  The total is the exact sum; it is the total of the Go
loop whenever that fits in 64 bits, as it does for cards with pip values in
1..10. -/
def EvaluateHand (hand : List Card) : Int :=
  goMod (hand.foldl (fun total card => total + card.Value) 0) 10

/-- Go `(*BaccaratGame).EvaluateGameResults`: the pair `(who, score)` and the
game with its statistics updated. -/
def BaccaratGame.EvaluateGameResults (g : BaccaratGame) : (Int × Int) × BaccaratGame :=
  let playerScore := EvaluateHand g.Player
  let bankerScore := EvaluateHand g.Banker
  let st := g.Statistics
  if playerScore > bankerScore then
    let st := { st with PlayerWinCount := st.PlayerWinCount + 1 }
    if st.PlayerWonLastHand then
      let st := { st with PlayerCurrentStreak := st.PlayerCurrentStreak + 1 }
      let st := if st.PlayerCurrentStreak > st.PlayerMaxWinStreak
                then { st with PlayerMaxWinStreak := st.PlayerCurrentStreak } else st
      ((PlayerWins, playerScore), { g with Statistics := st })
    else
      let st := { st with PlayerCurrentStreak := 1, PlayerWonLastHand := true,
                          BankerWonLastHand := false, LastGameWasTied := false,
                          BankerCurrentStreak := 0, TieCurrentStreak := 0 }
      ((PlayerWins, playerScore), { g with Statistics := st })
  else if bankerScore > playerScore then
    let st := { st with BankerWinCount := st.BankerWinCount + 1 }
    if st.BankerWonLastHand then
      let st := { st with BankerCurrentStreak := st.BankerCurrentStreak + 1 }
      let st := if st.BankerCurrentStreak > st.BankerMaxWinStreak
                then { st with BankerMaxWinStreak := st.BankerCurrentStreak } else st
      ((BankerWins, bankerScore), { g with Statistics := st })
    else
      let st := { st with BankerCurrentStreak := 1, PlayerWonLastHand := false,
                          BankerWonLastHand := true, LastGameWasTied := false,
                          PlayerCurrentStreak := 0, TieCurrentStreak := 0 }
      ((BankerWins, bankerScore), { g with Statistics := st })
  else
    let st := { st with TieCount := st.TieCount + 1 }
    if st.LastGameWasTied then
      let st := { st with TieCurrentStreak := st.TieCurrentStreak + 1 }
      let st := if st.TieCurrentStreak > st.TieMaxStreak
                then { st with TieMaxStreak := st.TieCurrentStreak } else st
      ((Tie, playerScore), { g with Statistics := st })
    else
      let st := { st with BankerCurrentStreak := 0, PlayerWonLastHand := false,
                          BankerWonLastHand := false, LastGameWasTied := true,
                          PlayerCurrentStreak := 0, TieCurrentStreak := 1 }
      ((Tie, playerScore), { g with Statistics := st })

/-- The "Player draws rules" block of `PlayGame` (lines 262-271): the game
after the block and the locals `playerDraws`, `playerDrew`. -/
def BaccaratGame.playerDrawStep (g : BaccaratGame) (playerScore : Int) :
    Option (BaccaratGame × Bool × Int) :=
  if playerScore ≤ 5 then
    match g.Shoe.Draw with
    | none => none
    | some (c, s1) =>
      let g1 := { g with Shoe := s1, Player := g.Player ++ [c] }
      match g1.Player.getLast? with
      | none => none
      | some last => some (g1, true, last.Value)
  else some (g, false, -1)

/-- The condition of the Banker's `if` in `PlayGame` (line 273). -/
def bankerDrawCond (bankerScore : Int) (playerDraws : Bool) (playerDrew : Int) : Bool :=
  decide (bankerScore ≤ 2)
    || (decide (bankerScore = 3) && playerDraws && decide (playerDrew ≠ 8))
    || (decide (bankerScore = 4) && playerDraws && decide (playerDrew ≥ 2) && decide (playerDrew ≤ 7))
    || (decide (bankerScore = 5) && playerDraws && decide (playerDrew ≥ 4) && decide (playerDrew ≤ 7))
    || (decide (bankerScore = 6) && playerDraws && decide (playerDrew ≥ 6) && decide (playerDrew ≤ 7))

/-- The Banker's draw block of `PlayGame` (lines 273-275). -/
def BaccaratGame.bankerDrawStep (g : BaccaratGame) (bankerScore : Int) (playerDraws : Bool)
    (playerDrew : Int) : Option BaccaratGame :=
  if bankerDrawCond bankerScore playerDraws playerDrew then
    match g.Shoe.Draw with
    | none => none
    | some (c, s1) => some { g with Shoe := s1, Banker := g.Banker ++ [c] }
  else some g

/-- The result triple of `PlayGame`: `(who, score, err)`; `err = none` is Go `nil`. -/
abbrev GameResult := Int × Int × Option String

/-- Lines 250-278 of `PlayGame`: everything after the call of `DealHands`. -/
def BaccaratGame.playDealt (g1 : BaccaratGame) : Option (GameResult × BaccaratGame) :=
  let playerScore := EvaluateHand g1.Player
  let bankerScore := EvaluateHand g1.Banker
  if playerScore = 8 ∨ playerScore = 9 ∨ bankerScore = 8 ∨ bankerScore = 9 then
    let r := g1.EvaluateGameResults
    some ((r.1.1, r.1.2, none), r.2)
  else
    match g1.playerDrawStep playerScore with
    | none => none
    | some (g2, playerDraws, playerDrew) =>
      match g2.bankerDrawStep bankerScore playerDraws playerDrew with
      | none => none
      | some g3 =>
        let r := g3.EvaluateGameResults
        some ((r.1.1, r.1.2, none), r.2)

/-- Go `(*BaccaratGame).PlayGame`. -/
def BaccaratGame.PlayGame (g : BaccaratGame) : Option (GameResult × BaccaratGame) :=
  if !g.canContinue then some ((-1, -1, some "the shoe is empty"), g)
  else
    let g0 := { g with Statistics :=
      { g.Statistics with TotalHandsPlayed := g.Statistics.TotalHandsPlayed + 1 } }
    match g0.DealHands with
    | none => none
    | some g1 => g1.playDealt

/-! ## The betting player (`player.go`) -/

/-- Bet-level statistics: `type PlayerStats struct`. -/
structure PlayerStats where
  TotalHandsPlayed : Int
  WinCount : Int
  LossCount : Int
  TieCount : Int
  MaxBet : Int
  CurrentWinStreak : Int
  CurrentLossStreak : Int
  CurrentTieStreak : Int
  MaxWinStreak : Int
  MaxLossStreak : Int
  MaxTieStreak : Int
  deriving DecidableEq, Repr

/-- Go `(*PlayerStats).ResetStats`. -/
def PlayerStats.ResetStats (s : PlayerStats) : PlayerStats :=
  { s with CurrentLossStreak := 0, CurrentWinStreak := 0, CurrentTieStreak := 0,
           TotalHandsPlayed := 0, WinCount := 0, LossCount := 0, TieCount := 0,
           MaxWinStreak := 0, MaxLossStreak := 0, MaxTieStreak := 0, MaxBet := 0 }

/-- The betting player: `type Player struct`.  The game pointer may be nil
(`none`); the statistics pointer is allocated by `NewPlayer` and never nil. -/
structure Player where
  BaccaratGame : Option BaccaratGame
  InitialInvestment : Int
  CurrentBankroll : Int
  MinimumBet : Int
  CurrentBet : Int
  WonLastHand : Bool
  TiedLastHand : Bool
  MaxBet : Int
  Stats : PlayerStats
  deriving DecidableEq, Repr

/-- Go `NewPlayer`. -/
def NewPlayer (game : Option BaccaratGame) (initialInvestment minimumBet maxBet : Int) : Player :=
  { BaccaratGame := game, InitialInvestment := initialInvestment,
    CurrentBankroll := initialInvestment, MinimumBet := minimumBet, MaxBet := maxBet,
    CurrentBet := minimumBet, WonLastHand := true, TiedLastHand := false,
    Stats := { TotalHandsPlayed := 0, WinCount := 0, LossCount := 0, TieCount := 0,
               MaxBet := 0, CurrentWinStreak := 0, CurrentLossStreak := 0,
               CurrentTieStreak := 0, MaxWinStreak := 0, MaxLossStreak := 0,
               MaxTieStreak := 0 } }

/-- Go `(*Player).StartNewGame`. -/
def Player.StartNewGame (p : Player) (game : Option Venture.BaccaratGame)
    (startWithMinimumBet : Bool) : Player :=
  let p1 := { p with BaccaratGame := game, Stats := p.Stats.ResetStats }
  if startWithMinimumBet then { p1 with WonLastHand := true } else p1

/-- Go `(*Player).Guess`: `r.Intn(2)` on the raw random number `raw`. -/
def Guess (raw : Nat) : Int := ((raw % 2 : Nat) : Int)

/-- Lines 139-165 of `PlayTheGame`: choose the bet, clamp it, record the
largest bet, debit the bankroll, count the hand. -/
def Player.placeBet (p : Player) : Player :=
  let p1 := if p.WonLastHand then { p with CurrentBet := p.MinimumBet }
            else if p.TiedLastHand then p
            else { p with CurrentBet := i64 (p.CurrentBet * 2) }
  let p2 := if p1.CurrentBet > p1.MaxBet then { p1 with CurrentBet := p1.MaxBet } else p1
  let p3 := if p2.CurrentBet > p2.CurrentBankroll
            then { p2 with CurrentBet := p2.CurrentBankroll } else p2
  let p4 := if p3.CurrentBet > p3.Stats.MaxBet
            then { p3 with Stats := { p3.Stats with MaxBet := p3.CurrentBet } } else p3
  let p5 := { p4 with CurrentBankroll := i64 (p4.CurrentBankroll - p4.CurrentBet) }
  { p5 with Stats := { p5.Stats with TotalHandsPlayed := p5.Stats.TotalHandsPlayed + 1 } }

/-- Lines 171-206 of `PlayTheGame`: settle the bet against the result `res`. -/
def Player.resolve (p : Player) (res playerGuess : Int) : Player :=
  if res = playerGuess then
    let p1 : Player :=
      { p with CurrentBankroll := i64 (p.CurrentBankroll + i64 (p.CurrentBet * 2)),
               WonLastHand := true, TiedLastHand := false }
    let st : PlayerStats :=
      { p1.Stats with WinCount := p1.Stats.WinCount + 1,
                      CurrentWinStreak := p1.Stats.CurrentWinStreak + 1 }
    let st := if st.CurrentWinStreak > st.MaxWinStreak
              then { st with MaxWinStreak := st.CurrentWinStreak } else st
    { p1 with Stats := { st with CurrentLossStreak := 0, CurrentTieStreak := 0 } }
  else if res = Tie then
    let p1 : Player :=
      { p with CurrentBankroll := i64 (p.CurrentBankroll + p.CurrentBet),
               WonLastHand := false, TiedLastHand := true }
    let st : PlayerStats :=
      { p1.Stats with TieCount := p1.Stats.TieCount + 1,
                      CurrentTieStreak := p1.Stats.CurrentTieStreak + 1 }
    let st := if st.CurrentTieStreak > st.MaxTieStreak
              then { st with MaxTieStreak := st.CurrentTieStreak } else st
    { p1 with Stats := st }
  else
    let p1 : Player := { p with WonLastHand := false, TiedLastHand := false }
    let st : PlayerStats :=
      { p1.Stats with LossCount := p1.Stats.LossCount + 1,
                      CurrentLossStreak := p1.Stats.CurrentLossStreak + 1 }
    let st := if st.CurrentLossStreak > st.MaxLossStreak
              then { st with MaxLossStreak := st.CurrentLossStreak } else st
    { p1 with Stats := { st with CurrentWinStreak := 0, CurrentTieStreak := 0 } }

/-- One iteration of the loop of `PlayTheGame` after its two `break` tests
(lines 139-206), on the game `g` the player points to. -/
def Player.playRound (p : Player) (g : Venture.BaccaratGame) (raw : Nat) : Option Player :=
  let p1 := p.placeBet
  let playerGuess := Guess raw
  match g.PlayGame with
  | none => none
  | some (r, g1) => some ({ p1 with BaccaratGame := some g1 }.resolve r.1 playerGuess)

/-- How a run of the loop of `PlayTheGame` ends. -/
inductive LoopResult where
  | done (p : Player)
  | panicked
  | outOfFuel
  deriving DecidableEq, Repr

/-- Go `(*Player).PlayTheGame`, with at most `fuel` iterations; `guess i` is
the raw random number behind the guess of iteration `i`. -/
def Player.PlayTheGame (guess : Nat → Nat) : Nat → Nat → Player → LoopResult
  | 0, _, _ => LoopResult.outOfFuel
  | fuel + 1, i, p =>
    match p.BaccaratGame with
    | none => LoopResult.panicked
    | some g =>
      if !g.canContinue then LoopResult.done p
      else if p.CurrentBankroll < p.MinimumBet then LoopResult.done p
      else
        match p.playRound g (guess i) with
        | none => LoopResult.panicked
        | some p1 => Player.PlayTheGame guess fuel (i + 1) p1

/-! ## Auxiliary notions used in the statements -/

/-- No deck of the shoe is empty (`Shoe.Draw` removes a deck it empties). -/
def NoEmptyDeck (s : Shoe) : Prop := ∀ d ∈ s.Decks, d.Cards ≠ []

instance (s : Shoe) : Decidable (NoEmptyDeck s) :=
  inferInstanceAs (Decidable (∀ d ∈ s.Decks, d.Cards ≠ []))

/-- The game as `PlayGame` holds it once the hand is counted and dealt:
`TotalHandsPlayed` incremented, the given shoe and hands. -/
def BaccaratGame.dealt (g : BaccaratGame) (shoe : Venture.Shoe) (player banker : List Card) :
    BaccaratGame :=
  { g with Shoe := shoe, Player := player, Banker := banker,
           Statistics := { g.Statistics with
             TotalHandsPlayed := g.Statistics.TotalHandsPlayed + 1 } }

/-- Every deck behind the first one still holds the 52 cards of a full deck. -/
def TailFull (s : Shoe) : Prop := ∀ d ∈ s.Decks.tail, d.Cards.length = 52

instance (s : Shoe) : Decidable (TailFull s) :=
  inferInstanceAs (Decidable (∀ d ∈ s.Decks.tail, d.Cards.length = 52))

/-- Successive calls of `PlayGame` (`k` of them), with the results in order. -/
def BaccaratGame.playGames : Nat → BaccaratGame → Option (List GameResult × BaccaratGame)
  | 0, g => some ([], g)
  | k + 1, g =>
    match g.PlayGame with
    | none => none
    | some (r, g1) =>
      match BaccaratGame.playGames k g1 with
      | none => none
      | some (rs, g2) => some (r :: rs, g2)

/-! ## Example cards and states -/

def aceOfSpades : Card := { Suit := Spades, Value := 1, Name := "Ace of Spades" }
def twoOfHearts : Card := { Suit := Hearts, Value := 2, Name := "Two of Hearts" }
def threeOfClubs : Card := { Suit := Clubs, Value := 3, Name := "Three of Clubs" }
def fiveOfHearts : Card := { Suit := Hearts, Value := 5, Name := "Five of Hearts" }
def sixOfDiamonds : Card := { Suit := Diamonds, Value := 6, Name := "Six of Diamonds" }
def kingOfClubs : Card := { Suit := Clubs, Value := 10, Name := "King of Clubs" }

/-- A game about to deal: the Player gets two aces (score 2), the Banker a
two and a three (score 5), and the next card of the shoe is a six. -/
def drawingGame : BaccaratGame :=
  { Shoe := { Decks := [{ Cards := [aceOfSpades, twoOfHearts, aceOfSpades] },
                        { Cards := [threeOfClubs, sixOfDiamonds, kingOfClubs] }] },
    Player := [], Banker := [], Statistics := newStat, canContinue := true }

/-- A game about to deal a natural 8 to the Player (three and five). -/
def naturalGame : BaccaratGame :=
  { Shoe := { Decks := [{ Cards := [threeOfClubs, twoOfHearts, fiveOfHearts] },
                        { Cards := [kingOfClubs, sixOfDiamonds, aceOfSpades] }] },
    Player := [], Banker := [], Statistics := newStat, canContinue := true }

/-- The map order that visits `cardValues` in the order of the literal, for
every deck and every suit. -/
def canonicalOrder : Nat → Nat → List (String × Int) := fun _ _ => cardValues

/-- The random source whose every raw number is 0. -/
def zeroRnd : Nat → Nat := fun _ => 0

/-- A card as `NewDeck` builds it: the pip value lies in 1..10. -/
def ValidCard (c : Card) : Prop := 1 ≤ c.Value ∧ c.Value ≤ 10

instance (c : Card) : Decidable (ValidCard c) :=
  inferInstanceAs (Decidable (1 ≤ c.Value ∧ c.Value ≤ 10))

/-- A deck as `NewDeck` builds it and `Shuffle` keeps it: 52 valid cards. -/
def FullDeck (d : Deck) : Prop := d.Cards.length = 52 ∧ ∀ c ∈ d.Cards, ValidCard c

/-- The invariant that keeps `Draw` away from an empty shoe: while the game
can continue, no deck is empty, the decks behind the first are full, and at
least two cards are left. -/
def SafeGame (g : BaccaratGame) : Prop :=
  g.canContinue = true → NoEmptyDeck g.Shoe ∧ TailFull g.Shoe ∧ 2 ≤ g.Shoe.cards.length

/-! ## Recording a sequence of outcomes -/

/-- The rounds recorded one after the other by `EvaluateGameResults`: each
element of the list is the pair of final hands (Player, Banker) of a round;
the result is the list of outcomes in order and the game afterwards. -/
def BaccaratGame.recordRounds (g : BaccaratGame) :
    List (List Card × List Card) → List Int × BaccaratGame
  | [] => ([], g)
  | h :: rest =>
    let r := BaccaratGame.EvaluateGameResults { g with Player := h.1, Banker := h.2 }
    let rr := BaccaratGame.recordRounds r.2 rest
    (r.1.1 :: rr.1, rr.2)

/-- The outcomes of the calls of `PlayGame` that were not refused. -/
def playedOutcomes (rs : List GameResult) : List Int :=
  (rs.filter (fun r => r.2.2.isNone)).map (fun r => r.1)

/-- Length of the run of identical outcomes that ends the sequence. -/
def trailingRun (outs : List Int) : Nat :=
  match outs.reverse with
  | [] => 0
  | o :: rest => 1 + (rest.takeWhile (fun x => decide (x = o))).length

/-- The state of the game-level streak counters after the outcomes `hist`:
before any outcome no flag is set; afterwards exactly the flag of the latest
outcome is set, its current streak is the trailing run, the other two are 0. -/
def StreakInv (st : Stat) (hist : List Int) : Prop :=
  match hist.getLast? with
  | none =>
    st.PlayerWonLastHand = false ∧ st.BankerWonLastHand = false ∧ st.LastGameWasTied = false
  | some o =>
    (o = PlayerWins ∧ st.PlayerWonLastHand = true ∧ st.BankerWonLastHand = false
        ∧ st.LastGameWasTied = false ∧ st.PlayerCurrentStreak = trailingRun hist
        ∧ st.BankerCurrentStreak = 0 ∧ st.TieCurrentStreak = 0)
    ∨ (o = BankerWins ∧ st.PlayerWonLastHand = false ∧ st.BankerWonLastHand = true
        ∧ st.LastGameWasTied = false ∧ st.BankerCurrentStreak = trailingRun hist
        ∧ st.PlayerCurrentStreak = 0 ∧ st.TieCurrentStreak = 0)
    ∨ (o = Tie ∧ st.PlayerWonLastHand = false ∧ st.BankerWonLastHand = false
        ∧ st.LastGameWasTied = true ∧ st.TieCurrentStreak = trailingRun hist
        ∧ st.PlayerCurrentStreak = 0 ∧ st.BankerCurrentStreak = 0)

/-- Final hands of four rounds with the outcomes Banker, Banker, Tie, Banker. -/
def bankerBankerTieBanker : List (List Card × List Card) :=
  [([aceOfSpades], [twoOfHearts]), ([aceOfSpades], [twoOfHearts]),
   ([aceOfSpades], [aceOfSpades]), ([aceOfSpades], [twoOfHearts])]

/-! ## Recording a sequence of bet results -/

/-- The three categories of a bet result. -/
inductive BetResult where
  | win
  | loss
  | tie
  deriving DecidableEq, Repr

/-- The branch of lines 171-206 of `PlayTheGame` taken for the game result
`res` and the guess `playerGuess`. -/
def betResult (res playerGuess : Int) : BetResult :=
  if res = playerGuess then BetResult.win
  else if res = Tie then BetResult.tie
  else BetResult.loss

/-- The bets of successive rounds of `PlayTheGame` resolved one after the
other: each element is the result `res` of `PlayGame` and the raw random
number behind the guess of that round. -/
def Player.recordResults (p : Player) : List (Int × Nat) → Player
  | [] => p
  | r :: rest => Player.recordResults (p.placeBet.resolve r.1 (Guess r.2)) rest

/-- Number of results of category `c` at the end of the sequence. -/
def trailingCount (c : BetResult) (l : List BetResult) : Nat :=
  (l.reverse.takeWhile (fun x => decide (x = c))).length

/-- The sequence of bet results without its ties. -/
def withoutTies (l : List BetResult) : List BetResult :=
  l.filter (fun x => decide (x ≠ BetResult.tie))

/-- The bet-level streak counters after the bet results `hist`: the tie
streak is the run of ties that ends the sequence; the win and loss streaks
are the runs of wins and of losses that end the sequence without its ties. -/
def BetStreakInv (st : PlayerStats) (hist : List BetResult) : Prop :=
  st.CurrentTieStreak = trailingCount BetResult.tie hist
    ∧ st.CurrentWinStreak = trailingCount BetResult.win (withoutTies hist)
    ∧ st.CurrentLossStreak = trailingCount BetResult.loss (withoutTies hist)

/-- The player a finished run of the loop ends with. -/
def LoopResult.final : LoopResult → Option Player
  | LoopResult.done p => some p
  | LoopResult.panicked => none
  | LoopResult.outOfFuel => none

/-- Raw guesses that match every decided result of the rounds played on
`NewBaccaratGame 2 canonicalOrder zeroRnd`, whose results are
Banker, Banker, Player, Banker, Banker, Player, Tie, Banker, Player, ... -/
def matchingGuesses (i : Nat) : Nat :=
  [1, 1, 0, 1, 1, 0, 0, 1, 0, 0, 0, 0, 0].getD i 0

/-! ## Termination measure of the betting loop -/

/-- What is left to play: the number of cards in the shoe plus one while the
game can continue, nothing once it cannot. -/
def gameMeasure (g : BaccaratGame) : Nat :=
  if g.canContinue then g.Shoe.cards.length + 1 else 0

/-! ## Count consistency -/

/-- The game-level counts add up: every hand played has exactly one outcome. -/
def CountInv (st : Stat) : Prop :=
  st.TotalHandsPlayed = st.PlayerWinCount + st.BankerWinCount + st.TieCount

/-- The bet-level counts add up and agree with the game the player points to. -/
def BetCountInv (p : Player) : Prop :=
  p.Stats.TotalHandsPlayed = p.Stats.WinCount + p.Stats.LossCount + p.Stats.TieCount
    ∧ ∃ g, p.BaccaratGame = some g ∧ CountInv g.Statistics
        ∧ g.Statistics.TotalHandsPlayed = p.Stats.TotalHandsPlayed

/-! ## A record of the rounds played by the betting loop -/

/-- What one round of the loop of `PlayTheGame` did: the player at the top of
the round (both `break` tests passed), the result `res` returned by
`PlayGame`, the guess, and the player at the end of the round. -/
structure RoundRecord where
  before : Player
  result : Int
  playerGuess : Int
  after : Player
  deriving DecidableEq, Repr

/-- The bet placed in a recorded round: `CurrentBet` once lines 139-153 have
run on the player at the top of the round. -/
def RoundRecord.bet (r : RoundRecord) : Int := r.before.placeBet.CurrentBet

/-- The loop of `PlayTheGame` (same tests, same round), which also returns
the record of every round it played, in order. -/
def Player.PlayTheGameLog (guess : Nat → Nat) :
    Nat → Nat → Player → LoopResult × List RoundRecord
  | 0, _, _ => (LoopResult.outOfFuel, [])
  | fuel + 1, i, p =>
    match p.BaccaratGame with
    | none => (LoopResult.panicked, [])
    | some g =>
      if !g.canContinue then (LoopResult.done p, [])
      else if p.CurrentBankroll < p.MinimumBet then (LoopResult.done p, [])
      else
        match g.PlayGame with
        | none => (LoopResult.panicked, [])
        | some (r, g1) =>
          let p1 := { p.placeBet with BaccaratGame := some g1 }.resolve r.1 (Guess (guess i))
          let rest := Player.PlayTheGameLog guess fuel (i + 1) p1
          (rest.1, { before := p, result := r.1, playerGuess := Guess (guess i),
                     after := p1 } :: rest.2)

/-- The largest of the bets placed so far (0 before the first bet). -/
def largestBet (bets : List Int) : Int := bets.foldl max 0

/-- The bet that the next round chooses before clamping, as an exact integer. -/
def nextBet (p : Player) : Int :=
  if p.WonLastHand then p.MinimumBet
  else if p.TiedLastHand then p.CurrentBet
  else p.CurrentBet * 2

/-- The invariant of the money at the top of the betting loop: limits that
are not negative, a bankroll that is a 64-bit value, a current bet that is not
negative and, when the bankroll allows another round, a next bet small enough
for its doubling to fit in 64 bits. -/
def BetInv (p : Player) : Prop :=
  0 ≤ p.MinimumBet ∧ 0 ≤ p.MaxBet
    ∧ -(2 ^ 63) ≤ p.CurrentBankroll ∧ p.CurrentBankroll < 2 ^ 63
    ∧ 0 ≤ p.CurrentBet
    ∧ (p.MinimumBet ≤ p.CurrentBankroll →
        nextBet p + p.CurrentBankroll ≤ 2 ^ 63 - 1 + p.MinimumBet)

/-- The player the loop is at after the rounds `hist`, when it started at
`p0`: the player at the end of the last round, or `p0` before the first. -/
def playerAfter (p0 : Player) (hist : List RoundRecord) : Player :=
  (hist.getLast?.map RoundRecord.after).getD p0

/-- Guesses that are always 0 (the Player side). -/
def alwaysPlayer : Nat → Nat := fun _ => 0

/-! ## Valid cards in a game -/

/-- Every card of the game, in the shoe or in a hand, has a pip value in
1..10. -/
def AllValid (g : BaccaratGame) : Prop :=
  (∀ c ∈ g.Shoe.cards, ValidCard c) ∧ (∀ c ∈ g.Player, ValidCard c)
    ∧ (∀ c ∈ g.Banker, ValidCard c)

/-- A game at the end of a round: Player 3 + 5 = 8 against Banker 10 + 6 = 6. -/
def settledGame : BaccaratGame :=
  { drawingGame with Player := [threeOfClubs, fiveOfHearts],
                     Banker := [kingOfClubs, sixOfDiamonds] }

/-! ## Lemmas on the shoe -/

theorem Shoe.draw_of_cards {s : Shoe} {c : Card} {rest : List Card}
    (hne : NoEmptyDeck s) (hc : s.cards = c :: rest) :
    ∃ s1, s.Draw = some (c, s1) ∧ s1.cards = rest ∧ NoEmptyDeck s1
      ∧ (TailFull s → TailFull s1) := by
  obtain ⟨decks⟩ := s
  cases decks with
  | nil => simp [Shoe.cards] at hc
  | cons d ds =>
    obtain ⟨cs⟩ := d
    cases cs with
    | nil => exact absurd rfl (hne ⟨[]⟩ (by simp))
    | cons t cs =>
      simp only [Shoe.cards, List.map_cons, List.flatten_cons, List.cons_append,
        List.cons.injEq] at hc
      obtain ⟨rfl, hrest⟩ := hc
      cases cs with
      | nil =>
        refine ⟨{ Decks := ds }, by simp [Shoe.Draw], ?_, ?_, ?_⟩
        · simpa [Shoe.cards] using hrest
        · intro d hd
          exact hne d (by simp [hd])
        · intro ht d hd
          exact ht d (List.mem_of_mem_tail hd)
      | cons u cs =>
        refine ⟨{ Decks := { Cards := u :: cs } :: ds }, by simp [Shoe.Draw], ?_, ?_,
          fun ht => ht⟩
        · simpa [Shoe.cards] using hrest
        · intro d hd
          simp only [List.mem_cons] at hd
          rcases hd with rfl | hd
          · simp
          · exact hne d (by simp [hd])

/-! ## Lemmas on one round -/

theorem BaccaratGame.dealHands_of_cards {g : BaccaratGame} {c1 c2 c3 c4 : Card}
    {rest : List Card} (hlen : g.Shoe.Decks.length ≠ 1) (hne : NoEmptyDeck g.Shoe)
    (hc : g.Shoe.cards = c1 :: c2 :: c3 :: c4 :: rest) :
    ∃ s4, g.DealHands = some { g with Shoe := s4, Player := g.Player ++ [c1, c3],
                                      Banker := g.Banker ++ [c2, c4] }
      ∧ s4.cards = rest ∧ NoEmptyDeck s4 ∧ (TailFull g.Shoe → TailFull s4) := by
  obtain ⟨s1, h1, hc1, hne1, ht1⟩ := Shoe.draw_of_cards hne hc
  obtain ⟨s2, h2, hc2, hne2, ht2⟩ := Shoe.draw_of_cards hne1 hc1
  obtain ⟨s3, h3, hc3, hne3, ht3⟩ := Shoe.draw_of_cards hne2 hc2
  obtain ⟨s4, h4, hc4, hne4, ht4⟩ := Shoe.draw_of_cards hne3 hc3
  refine ⟨s4, ?_, hc4, hne4, fun ht => ht4 (ht3 (ht2 (ht1 ht)))⟩
  simp [BaccaratGame.DealHands, hlen, h1, h2, h3, h4]

theorem BaccaratGame.playGame_deal {g : BaccaratGame} {c1 c2 c3 c4 : Card}
    {rest : List Card} (hcont : g.canContinue = true) (hlen : g.Shoe.Decks.length ≠ 1)
    (hne : NoEmptyDeck g.Shoe) (hc : g.Shoe.cards = c1 :: c2 :: c3 :: c4 :: rest) :
    ∃ s4, s4.cards = rest ∧ NoEmptyDeck s4 ∧ (TailFull g.Shoe → TailFull s4) ∧
      g.PlayGame = (g.dealt s4 (g.Player ++ [c1, c3]) (g.Banker ++ [c2, c4])).playDealt := by
  obtain ⟨shoe, pl, bk, st, cc⟩ := g
  simp only at hcont hlen hne hc
  subst hcont
  obtain ⟨s4, hd, hc4, hne4, ht4⟩ := BaccaratGame.dealHands_of_cards
    (g := { Shoe := shoe, Player := pl, Banker := bk,
            Statistics := { st with TotalHandsPlayed := st.TotalHandsPlayed + 1 },
            canContinue := true }) hlen hne hc
  refine ⟨s4, hc4, hne4, ht4, ?_⟩
  simp only [BaccaratGame.PlayGame, BaccaratGame.dealt]
  simp only [hd]
  rfl

theorem BaccaratGame.playerDrawStep_of_cards {g : BaccaratGame} {c : Card} {rest : List Card}
    (playerScore : Int) (hne : NoEmptyDeck g.Shoe) (hc : g.Shoe.cards = c :: rest) :
    ∃ s1, s1.cards = rest ∧ NoEmptyDeck s1 ∧ (TailFull g.Shoe → TailFull s1) ∧
      g.playerDrawStep playerScore =
        if playerScore ≤ 5 then some ({ g with Shoe := s1, Player := g.Player ++ [c] }, true, c.Value)
        else some (g, false, -1) := by
  obtain ⟨s1, h1, hc1, hne1, ht1⟩ := Shoe.draw_of_cards hne hc
  refine ⟨s1, hc1, hne1, ht1, ?_⟩
  simp [BaccaratGame.playerDrawStep, h1]

theorem BaccaratGame.bankerDrawStep_of_cards {g : BaccaratGame} {c : Card} {rest : List Card}
    (bankerScore : Int) (playerDraws : Bool) (playerDrew : Int)
    (hne : NoEmptyDeck g.Shoe) (hc : g.Shoe.cards = c :: rest) :
    ∃ s1, s1.cards = rest ∧ NoEmptyDeck s1 ∧ (TailFull g.Shoe → TailFull s1) ∧
      g.bankerDrawStep bankerScore playerDraws playerDrew =
        if bankerDrawCond bankerScore playerDraws playerDrew = true
        then some { g with Shoe := s1, Banker := g.Banker ++ [c] }
        else some g := by
  obtain ⟨s1, h1, hc1, hne1, ht1⟩ := Shoe.draw_of_cards hne hc
  refine ⟨s1, hc1, hne1, ht1, ?_⟩
  simp [BaccaratGame.bankerDrawStep, h1]

theorem BaccaratGame.evaluateGameResults_frame (g : BaccaratGame) :
    g.EvaluateGameResults.2.Shoe = g.Shoe ∧ g.EvaluateGameResults.2.Player = g.Player
      ∧ g.EvaluateGameResults.2.Banker = g.Banker
      ∧ g.EvaluateGameResults.2.canContinue = g.canContinue := by
  unfold BaccaratGame.EvaluateGameResults
  simp only
  split_ifs <;> simp

theorem BaccaratGame.playDealt_natural (g1 : BaccaratGame)
    (hnat : EvaluateHand g1.Player = 8 ∨ EvaluateHand g1.Player = 9
      ∨ EvaluateHand g1.Banker = 8 ∨ EvaluateHand g1.Banker = 9) :
    g1.playDealt = some ((g1.EvaluateGameResults.1.1, g1.EvaluateGameResults.1.2, none),
      g1.EvaluateGameResults.2) := by
  simp only [BaccaratGame.playDealt, if_pos hnat]

theorem BaccaratGame.playDealt_no_natural_state (g1 : BaccaratGame) {c5 c6 : Card}
    {rest : List Card} (hne : NoEmptyDeck g1.Shoe) (hc : g1.Shoe.cards = c5 :: c6 :: rest)
    (hnn : ¬ (EvaluateHand g1.Player = 8 ∨ EvaluateHand g1.Player = 9
      ∨ EvaluateHand g1.Banker = 8 ∨ EvaluateHand g1.Banker = 9)) :
    ∃ s3 : Venture.Shoe, ∃ g3 : BaccaratGame,
      NoEmptyDeck s3 ∧ (TailFull g1.Shoe → TailFull s3)
      ∧ (s3.cards = c5 :: c6 :: rest ∨ s3.cards = c6 :: rest ∨ s3.cards = rest)
      ∧ g3 = { g1 with
        Shoe := s3
        Player := (if EvaluateHand g1.Player ≤ 5 then g1.Player ++ [c5] else g1.Player)
        Banker :=
          (if bankerDrawCond (EvaluateHand g1.Banker) (decide (EvaluateHand g1.Player ≤ 5))
                (if EvaluateHand g1.Player ≤ 5 then c5.Value else -1) = true
           then g1.Banker ++ [if EvaluateHand g1.Player ≤ 5 then c6 else c5]
           else g1.Banker) }
      ∧ g1.playDealt = some ((g3.EvaluateGameResults.1.1, g3.EvaluateGameResults.1.2, none),
          g3.EvaluateGameResults.2) := by
  by_cases hp : EvaluateHand g1.Player ≤ 5
  · obtain ⟨s5, hc5, hne5, ht5, hstep⟩ :=
      BaccaratGame.playerDrawStep_of_cards (EvaluateHand g1.Player) hne hc
    rw [if_pos hp] at hstep
    obtain ⟨s6, hc6, hne6, ht6, hb⟩ := BaccaratGame.bankerDrawStep_of_cards
      (g := { g1 with Shoe := s5, Player := g1.Player ++ [c5] })
      (EvaluateHand g1.Banker) true c5.Value hne5 hc5
    by_cases hcond : bankerDrawCond (EvaluateHand g1.Banker) true c5.Value = true
    · rw [if_pos hcond] at hb
      refine ⟨s6, _, hne6, fun ht => ht6 (ht5 ht), Or.inr (Or.inr hc6), rfl, ?_⟩
      simp only [BaccaratGame.playDealt, if_neg hnn, hstep, hb, hp, hcond, if_true,
        decide_True]
    · rw [if_neg hcond] at hb
      refine ⟨s5, _, hne5, ht5, Or.inr (Or.inl hc5), rfl, ?_⟩
      simp only [BaccaratGame.playDealt, if_neg hnn, hstep, hb, hp, hcond, if_true,
        decide_True]
      simp
  · obtain ⟨s5, hc5, hne5, ht5, hstep⟩ :=
      BaccaratGame.playerDrawStep_of_cards (EvaluateHand g1.Player) hne hc
    rw [if_neg hp] at hstep
    obtain ⟨s6, hc6, hne6, ht6, hb⟩ := BaccaratGame.bankerDrawStep_of_cards
      (EvaluateHand g1.Banker) false (-1) hne hc
    by_cases hcond : bankerDrawCond (EvaluateHand g1.Banker) false (-1) = true
    · rw [if_pos hcond] at hb
      refine ⟨s6, _, hne6, ht6, Or.inr (Or.inl hc6), rfl, ?_⟩
      simp only [BaccaratGame.playDealt, if_neg hnn, hstep, hb, hp, hcond, if_true,
        if_false, decide_False]
    · rw [if_neg hcond] at hb
      refine ⟨g1.Shoe, _, hne, id, Or.inl hc, rfl, ?_⟩
      simp only [BaccaratGame.playDealt, if_neg hnn, hstep, hb, hp, hcond, if_true,
        if_false, decide_False]
      simp

theorem bankerDrawCond_iff (b : Int) (pd : Bool) (v : Int) :
    bankerDrawCond b pd v = true ↔
      (b ≤ 2 ∨ (b = 3 ∧ pd = true ∧ v ≠ 8) ∨ (b = 4 ∧ pd = true ∧ 2 ≤ v ∧ v ≤ 7)
        ∨ (b = 5 ∧ pd = true ∧ 4 ≤ v ∧ v ≤ 7) ∨ (b = 6 ∧ pd = true ∧ 6 ≤ v ∧ v ≤ 7)) := by
  simp only [bankerDrawCond, Bool.or_eq_true, Bool.and_eq_true, decide_eq_true_eq, ge_iff_le]
  tauto

theorem BaccaratGame.playGame_no_natural {g : BaccaratGame} {c1 c2 c3 c4 c5 c6 : Card}
    {rest : List Card} (hcont : g.canContinue = true) (hlen : g.Shoe.Decks.length ≠ 1)
    (hne : NoEmptyDeck g.Shoe)
    (hc : g.Shoe.cards = c1 :: c2 :: c3 :: c4 :: c5 :: c6 :: rest)
    (hnn : ¬ (EvaluateHand (g.Player ++ [c1, c3]) = 8 ∨ EvaluateHand (g.Player ++ [c1, c3]) = 9
      ∨ EvaluateHand (g.Banker ++ [c2, c4]) = 8 ∨ EvaluateHand (g.Banker ++ [c2, c4]) = 9)) :
    ∃ r g3, g.PlayGame = some (r, g3) ∧ r.2.2 = none
      ∧ g3.Player = (if EvaluateHand (g.Player ++ [c1, c3]) ≤ 5
          then g.Player ++ [c1, c3] ++ [c5] else g.Player ++ [c1, c3])
      ∧ g3.Banker =
          (if bankerDrawCond (EvaluateHand (g.Banker ++ [c2, c4]))
                (decide (EvaluateHand (g.Player ++ [c1, c3]) ≤ 5))
                (if EvaluateHand (g.Player ++ [c1, c3]) ≤ 5 then c5.Value else -1) = true
           then g.Banker ++ [c2, c4] ++ [if EvaluateHand (g.Player ++ [c1, c3]) ≤ 5 then c6 else c5]
           else g.Banker ++ [c2, c4]) := by
  obtain ⟨s4, hc4, hne4, -, hplay⟩ := BaccaratGame.playGame_deal hcont hlen hne hc
  obtain ⟨s3, g3, -, -, -, hg3, hd⟩ := BaccaratGame.playDealt_no_natural_state
    (g.dealt s4 (g.Player ++ [c1, c3]) (g.Banker ++ [c2, c4])) hne4 hc4 hnn
  refine ⟨_, _, hplay.trans hd, rfl, ?_, ?_⟩
  · rw [(BaccaratGame.evaluateGameResults_frame g3).2.1, hg3]
    rfl
  · rw [(BaccaratGame.evaluateGameResults_frame g3).2.2.1, hg3]
    rfl

/-- C1: in a round of `PlayGame` that deals from empty hands (at least two
decks in the shoe) and has no natural, the Banker's hand ends with a third
card exactly when the Banker's two-card score is at most 2, or is 3 and the
Player drew a card of value other than 8, or is 4, 5, 6 and the Player drew a
card of value in [2,7], [4,7], [6,7] respectively; the Banker stands on 7,
and after a standing Player draws exactly on a score of at most 2. -/
theorem banker_third_card_rule (g : BaccaratGame) (c1 c2 c3 c4 c5 c6 : Card)
    (rest : List Card) (hcont : g.canContinue = true) (hP : g.Player = [])
    (hB : g.Banker = []) (hdecks : 2 ≤ g.Shoe.Decks.length) (hne : NoEmptyDeck g.Shoe)
    (hc : g.Shoe.cards = c1 :: c2 :: c3 :: c4 :: c5 :: c6 :: rest)
    (hnn : ¬ (EvaluateHand [c1, c3] = 8 ∨ EvaluateHand [c1, c3] = 9
      ∨ EvaluateHand [c2, c4] = 8 ∨ EvaluateHand [c2, c4] = 9)) :
    ∃ r g1, g.PlayGame = some (r, g1)
      ∧ (g1.Banker = [c2, c4] ∨ ∃ c, g1.Banker = [c2, c4, c])
      ∧ ((∃ c, g1.Banker = [c2, c4, c]) ↔
          (EvaluateHand [c2, c4] ≤ 2
            ∨ (EvaluateHand [c2, c4] = 3 ∧ ∃ d, g1.Player = [c1, c3, d] ∧ d.Value ≠ 8)
            ∨ (EvaluateHand [c2, c4] = 4
                ∧ ∃ d, g1.Player = [c1, c3, d] ∧ 2 ≤ d.Value ∧ d.Value ≤ 7)
            ∨ (EvaluateHand [c2, c4] = 5
                ∧ ∃ d, g1.Player = [c1, c3, d] ∧ 4 ≤ d.Value ∧ d.Value ≤ 7)
            ∨ (EvaluateHand [c2, c4] = 6
                ∧ ∃ d, g1.Player = [c1, c3, d] ∧ 6 ≤ d.Value ∧ d.Value ≤ 7)))
      ∧ (EvaluateHand [c2, c4] = 7 → g1.Banker = [c2, c4])
      ∧ (g1.Player = [c1, c3] → ((∃ c, g1.Banker = [c2, c4, c]) ↔ EvaluateHand [c2, c4] ≤ 2)) := by
  have hlen : g.Shoe.Decks.length ≠ 1 := by omega
  have hnn1 : ¬ (EvaluateHand (g.Player ++ [c1, c3]) = 8 ∨ EvaluateHand (g.Player ++ [c1, c3]) = 9
      ∨ EvaluateHand (g.Banker ++ [c2, c4]) = 8 ∨ EvaluateHand (g.Banker ++ [c2, c4]) = 9) := by
    simpa [hP, hB] using hnn
  obtain ⟨r, g1, hplay, -, hPl, hBk⟩ := BaccaratGame.playGame_no_natural hcont hlen hne hc hnn1
  simp only [hP, hB, List.nil_append, List.cons_append] at hPl hBk
  refine ⟨r, g1, hplay, ?_⟩
  generalize EvaluateHand [c2, c4] = b at hBk hnn ⊢
  by_cases hp : EvaluateHand [c1, c3] ≤ 5
  · simp only [hp, if_true, decide_True] at hPl hBk
    by_cases hcond : bankerDrawCond b true c5.Value = true
    · have hd := (bankerDrawCond_iff b true c5.Value).1 hcond
      simp only [hcond, if_true] at hBk
      simp only [hPl, hBk, List.cons.injEq, and_true, true_and, exists_eq_left', exists_eq',
        reduceCtorEq, and_false, false_or, iff_true, false_implies, true_or, or_true]
      refine ⟨?_, ?_⟩
      · simpa using hd
      · intro h7
        simp [h7] at hd
    · have hd := (bankerDrawCond_iff b true c5.Value).not.1 hcond
      simp only [hcond, if_false] at hBk
      simp only [hPl, hBk, List.cons.injEq, and_true, true_and, exists_eq_left', exists_eq',
        reduceCtorEq, and_false, false_or, iff_true, false_implies, true_or, or_true,
        exists_false, false_iff, implies_true, List.ne_cons_self]
      simpa using hd
  · simp only [hp, if_false, decide_False] at hPl hBk
    by_cases hcond : bankerDrawCond b false (-1) = true
    · have hd := (bankerDrawCond_iff b false (-1)).1 hcond
      simp only [hcond, if_true] at hBk
      simp at hd
      simp [hPl, hBk, hd]
      omega
    · have hd := (bankerDrawCond_iff b false (-1)).not.1 hcond
      simp only [hcond, if_false] at hBk
      simp at hd
      simp [hPl, hBk, hd]

theorem banker_third_card_rule_witness :
    ∃ r g1, drawingGame.PlayGame = some (r, g1)
      ∧ (g1.Banker = [twoOfHearts, threeOfClubs]
          ∨ ∃ c, g1.Banker = [twoOfHearts, threeOfClubs, c]) := by
  obtain ⟨r, g1, hplay, hshape, -⟩ :=
    banker_third_card_rule drawingGame aceOfSpades twoOfHearts aceOfSpades threeOfClubs
      sixOfDiamonds kingOfClubs [] rfl rfl rfl (by decide) (by decide) rfl (by decide)
  exact ⟨r, g1, hplay, hshape⟩

/-- C2: in a round of `PlayGame` that deals (the shoe does not hold exactly
one deck), if the Player's or the Banker's score after the four-card deal is
8 or 9, no third card is drawn: the hands are the dealt hands, the shoe lost
exactly its four front cards, and the returned result and state are those of
`EvaluateGameResults` on the dealt state, whatever the other side's score. -/
theorem natural_ends_round (g : BaccaratGame) (c1 c2 c3 c4 : Card) (rest : List Card)
    (hcont : g.canContinue = true) (hlen : g.Shoe.Decks.length ≠ 1)
    (hne : NoEmptyDeck g.Shoe) (hc : g.Shoe.cards = c1 :: c2 :: c3 :: c4 :: rest)
    (hnat : EvaluateHand (g.Player ++ [c1, c3]) = 8 ∨ EvaluateHand (g.Player ++ [c1, c3]) = 9
      ∨ EvaluateHand (g.Banker ++ [c2, c4]) = 8 ∨ EvaluateHand (g.Banker ++ [c2, c4]) = 9) :
    ∃ r g1, g.PlayGame = some (r, g1) ∧ r.2.2 = none
      ∧ g1.Player = g.Player ++ [c1, c3] ∧ g1.Banker = g.Banker ++ [c2, c4]
      ∧ g1.Shoe.cards = rest ∧ g.Shoe.cards = [c1, c2, c3, c4] ++ g1.Shoe.cards
      ∧ ∃ s4, ((r.1, r.2.1), g1)
          = (g.dealt s4 (g.Player ++ [c1, c3]) (g.Banker ++ [c2, c4])).EvaluateGameResults := by
  obtain ⟨s4, hc4, -, -, hplay⟩ := BaccaratGame.playGame_deal hcont hlen hne hc
  have hd := BaccaratGame.playDealt_natural
    (g.dealt s4 (g.Player ++ [c1, c3]) (g.Banker ++ [c2, c4])) hnat
  have hfr := BaccaratGame.evaluateGameResults_frame
    (g.dealt s4 (g.Player ++ [c1, c3]) (g.Banker ++ [c2, c4]))
  refine ⟨_, _, hplay.trans hd, rfl, hfr.2.1, hfr.2.2.1, ?_, ?_, s4, rfl⟩
  · rw [hfr.1]
    exact hc4
  · rw [hfr.1, hc]
    simp [BaccaratGame.dealt, hc4]

theorem natural_ends_round_witness :
    ∃ r g1, naturalGame.PlayGame = some (r, g1)
      ∧ g1.Player = [threeOfClubs, fiveOfHearts] ∧ g1.Banker = [twoOfHearts, kingOfClubs]
      ∧ g1.Shoe.cards = [sixOfDiamonds, aceOfSpades] := by
  obtain ⟨r, g1, hplay, -, hP, hB, hS, -⟩ :=
    natural_ends_round naturalGame threeOfClubs twoOfHearts fiveOfHearts kingOfClubs
      [sixOfDiamonds, aceOfSpades] rfl (by decide) (by decide) rfl (by decide)
  exact ⟨r, g1, hplay, hP, hB, hS⟩

/-- C3: in a round of `PlayGame` that deals and has no natural, the Player's
hand receives a third card (the next card `c5` of the shoe) exactly when the
Player's score after the deal is at most 5, and stays as dealt on 6 and 7;
when the Player draws, the Banker's decision is `bankerDrawCond` evaluated at
the pip value of that very card `c5`, and at "no draw" otherwise. -/
theorem player_third_card_rule (g : BaccaratGame) (c1 c2 c3 c4 c5 c6 : Card)
    (rest : List Card) (hcont : g.canContinue = true) (hlen : g.Shoe.Decks.length ≠ 1)
    (hne : NoEmptyDeck g.Shoe)
    (hc : g.Shoe.cards = c1 :: c2 :: c3 :: c4 :: c5 :: c6 :: rest)
    (hnn : ¬ (EvaluateHand (g.Player ++ [c1, c3]) = 8 ∨ EvaluateHand (g.Player ++ [c1, c3]) = 9
      ∨ EvaluateHand (g.Banker ++ [c2, c4]) = 8 ∨ EvaluateHand (g.Banker ++ [c2, c4]) = 9)) :
    ∃ r g1, g.PlayGame = some (r, g1)
      ∧ (g1.Player = g.Player ++ [c1, c3] ++ [c5] ↔ EvaluateHand (g.Player ++ [c1, c3]) ≤ 5)
      ∧ (g1.Player = g.Player ++ [c1, c3] ↔ 6 ≤ EvaluateHand (g.Player ++ [c1, c3]))
      ∧ (EvaluateHand (g.Player ++ [c1, c3]) ≤ 5 →
          g1.Banker =
            if bankerDrawCond (EvaluateHand (g.Banker ++ [c2, c4])) true c5.Value = true
            then g.Banker ++ [c2, c4] ++ [c6] else g.Banker ++ [c2, c4])
      ∧ (6 ≤ EvaluateHand (g.Player ++ [c1, c3]) →
          g1.Banker =
            if bankerDrawCond (EvaluateHand (g.Banker ++ [c2, c4])) false (-1) = true
            then g.Banker ++ [c2, c4] ++ [c5] else g.Banker ++ [c2, c4]) := by
  obtain ⟨r, g1, hplay, -, hPl, hBk⟩ := BaccaratGame.playGame_no_natural hcont hlen hne hc hnn
  refine ⟨r, g1, hplay, ?_⟩
  have hneq : g.Player ++ [c1, c3] ++ [c5] ≠ g.Player ++ [c1, c3] := by
    intro h
    have := congrArg List.length h
    simp at this
  by_cases hp : EvaluateHand (g.Player ++ [c1, c3]) ≤ 5
  · have h6 : ¬ 6 ≤ EvaluateHand (g.Player ++ [c1, c3]) := by omega
    simp only [hp, if_true, decide_True] at hPl hBk
    simp only [hPl, hBk, hp, h6, hneq, true_iff, iff_false, not_false_eq_true, forall_true_left,
      false_implies, and_self, iff_true]
  · have h6 : 6 ≤ EvaluateHand (g.Player ++ [c1, c3]) := by omega
    simp only [hp, if_false, decide_False] at hPl hBk
    simp only [hPl, hBk, hp, h6, hneq.symm, true_iff, iff_false, not_false_eq_true,
      forall_true_left, false_implies, and_self, iff_true]

theorem player_third_card_rule_witness :
    ∃ r g1, drawingGame.PlayGame = some (r, g1)
      ∧ (g1.Player = [] ++ [aceOfSpades, aceOfSpades] ++ [sixOfDiamonds]
          ↔ EvaluateHand ([] ++ [aceOfSpades, aceOfSpades]) ≤ 5) := by
  obtain ⟨r, g1, hplay, hiff, -⟩ :=
    player_third_card_rule drawingGame aceOfSpades twoOfHearts aceOfSpades threeOfClubs
      sixOfDiamonds kingOfClubs [] rfl (by decide) (by decide) rfl (by decide)
  exact ⟨r, g1, hplay, hiff⟩

/-! ## Settlement -/

theorem handTotal_nonneg (hand : List Card) (hval : ∀ c ∈ hand, 0 ≤ c.Value) (acc : Int)
    (hacc : 0 ≤ acc) : 0 ≤ hand.foldl (fun total card => total + card.Value) acc := by
  induction hand generalizing acc with
  | nil => simpa using hacc
  | cons c cs ih =>
    simp only [List.foldl_cons]
    apply ih
    · intro d hd
      exact hval d (by simp [hd])
    · have := hval c (by simp)
      omega

theorem evaluateHand_range (hand : List Card) (hval : ∀ c ∈ hand, 0 ≤ c.Value) :
    0 ≤ EvaluateHand hand ∧ EvaluateHand hand ≤ 9 := by
  have h0 := handTotal_nonneg hand hval 0 (le_refl 0)
  unfold EvaluateHand goMod
  constructor
  · exact Int.tmod_nonneg 10 h0
  · have := Int.tmod_lt_of_pos (hand.foldl (fun total card => total + card.Value) 0)
      (show (0 : Int) < 10 by decide)
    omega

theorem BaccaratGame.evaluateGameResults_result (g : BaccaratGame) :
    (EvaluateHand g.Player > EvaluateHand g.Banker →
        g.EvaluateGameResults.1 = (PlayerWins, EvaluateHand g.Player))
    ∧ (EvaluateHand g.Banker > EvaluateHand g.Player →
        g.EvaluateGameResults.1 = (BankerWins, EvaluateHand g.Banker))
    ∧ (EvaluateHand g.Player = EvaluateHand g.Banker →
        g.EvaluateGameResults.1 = (Tie, EvaluateHand g.Player)) := by
  refine ⟨fun h => ?_, fun h => ?_, fun h => ?_⟩
  · unfold BaccaratGame.EvaluateGameResults
    simp only [h, if_true]
    split_ifs <;> rfl
  · have h1 : ¬ EvaluateHand g.Player > EvaluateHand g.Banker := by omega
    unfold BaccaratGame.EvaluateGameResults
    simp only [h, h1, if_true, if_false]
    split_ifs <;> rfl
  · have h1 : ¬ EvaluateHand g.Player > EvaluateHand g.Banker := by omega
    have h2 : ¬ EvaluateHand g.Banker > EvaluateHand g.Player := by omega
    unfold BaccaratGame.EvaluateGameResults
    simp only [h1, h2, if_false]
    split_ifs <;> rfl

theorem BaccaratGame.dealHands_statistics {g g1 : BaccaratGame} (h : g.DealHands = some g1) :
    g1.Statistics = g.Statistics := by
  unfold BaccaratGame.DealHands at h
  split_ifs at h
  · simp only [Option.some.injEq] at h
    rw [← h]
  · cases h1 : g.Shoe.Draw with
    | none => simp [h1] at h
    | some x1 =>
      simp only [h1] at h
      cases h2 : x1.2.Draw with
      | none => simp [h2] at h
      | some x2 =>
        simp only [h2] at h
        cases h3 : x2.2.Draw with
        | none => simp [h3] at h
        | some x3 =>
          simp only [h3] at h
          cases h4 : x3.2.Draw with
          | none => simp [h4] at h
          | some x4 =>
            simp only [h4, Option.some.injEq] at h
            rw [← h]

theorem BaccaratGame.playerDrawStep_statistics {g g2 : BaccaratGame} {playerScore : Int}
    {pd : Bool} {pv : Int} (h : g.playerDrawStep playerScore = some (g2, pd, pv)) :
    g2.Statistics = g.Statistics := by
  unfold BaccaratGame.playerDrawStep at h
  split_ifs at h
  · cases h1 : g.Shoe.Draw with
    | none => simp [h1] at h
    | some x1 =>
      simp only [h1, List.getLast?_concat, Option.some.injEq, Prod.mk.injEq] at h
      rw [← h.1]
  · simp only [Option.some.injEq, Prod.mk.injEq] at h
    rw [← h.1]

theorem BaccaratGame.bankerDrawStep_statistics {g g2 : BaccaratGame} {bankerScore : Int}
    {pd : Bool} {pv : Int} (h : g.bankerDrawStep bankerScore pd pv = some g2) :
    g2.Statistics = g.Statistics := by
  unfold BaccaratGame.bankerDrawStep at h
  split_ifs at h
  · cases h1 : g.Shoe.Draw with
    | none => simp [h1] at h
    | some x1 =>
      simp only [h1, Option.some.injEq] at h
      rw [← h]
  · simp only [Option.some.injEq] at h
    rw [← h]

theorem BaccaratGame.playDealt_returns_settlement {g1 g2 : BaccaratGame} {r : GameResult}
    (h : g1.playDealt = some (r, g2)) :
    ∃ g3 : BaccaratGame, g3.Player = g2.Player ∧ g3.Banker = g2.Banker
      ∧ r = (g3.EvaluateGameResults.1.1, g3.EvaluateGameResults.1.2, none)
      ∧ g2 = g3.EvaluateGameResults.2 ∧ g3.Statistics = g1.Statistics := by
  unfold BaccaratGame.playDealt at h
  simp only at h
  split_ifs at h with hnat
  · simp only [Option.some.injEq, Prod.mk.injEq] at h
    obtain ⟨hr, hg⟩ := h
    refine ⟨g1, ?_, ?_, hr.symm, hg.symm, rfl⟩
    · rw [← hg]; exact (BaccaratGame.evaluateGameResults_frame g1).2.1.symm
    · rw [← hg]; exact (BaccaratGame.evaluateGameResults_frame g1).2.2.1.symm
  · cases hps : g1.playerDrawStep (EvaluateHand g1.Player) with
    | none => simp [hps] at h
    | some x =>
      obtain ⟨g2a, pd, pv⟩ := x
      simp only [hps] at h
      cases hbs : g2a.bankerDrawStep (EvaluateHand g1.Banker) pd pv with
      | none => simp [hbs] at h
      | some g3 =>
        simp only [hbs, Option.some.injEq, Prod.mk.injEq] at h
        obtain ⟨hr, hg⟩ := h
        refine ⟨g3, ?_, ?_, hr.symm, hg.symm, ?_⟩
        · rw [← hg]; exact (BaccaratGame.evaluateGameResults_frame g3).2.1.symm
        · rw [← hg]; exact (BaccaratGame.evaluateGameResults_frame g3).2.2.1.symm
        · rw [BaccaratGame.bankerDrawStep_statistics hbs,
            BaccaratGame.playerDrawStep_statistics hps]

theorem BaccaratGame.playGame_eq (g : BaccaratGame) (hcont : g.canContinue = true) :
    g.PlayGame = (BaccaratGame.DealHands { g with Statistics := { g.Statistics with
      TotalHandsPlayed := g.Statistics.TotalHandsPlayed + 1 } }).bind
        BaccaratGame.playDealt := by
  unfold BaccaratGame.PlayGame
  simp only [hcont, Bool.not_true, Bool.false_eq_true, if_false]
  generalize BaccaratGame.DealHands _ = d
  cases d <;> rfl

theorem BaccaratGame.playGame_returns_settlement {g g2 : BaccaratGame} {r : GameResult}
    (hcont : g.canContinue = true) (h : g.PlayGame = some (r, g2)) :
    ∃ g3 : BaccaratGame, g3.Player = g2.Player ∧ g3.Banker = g2.Banker
      ∧ r = (g3.EvaluateGameResults.1.1, g3.EvaluateGameResults.1.2, none)
      ∧ g2 = g3.EvaluateGameResults.2
      ∧ g3.Statistics = { g.Statistics with
          TotalHandsPlayed := g.Statistics.TotalHandsPlayed + 1 } := by
  rw [BaccaratGame.playGame_eq g hcont] at h
  obtain ⟨g1, hd, hp⟩ := Option.bind_eq_some.1 h
  obtain ⟨g3, h1, h2, h3, h4, h5⟩ := BaccaratGame.playDealt_returns_settlement hp
  refine ⟨g3, h1, h2, h3, h4, ?_⟩
  rw [h5, BaccaratGame.dealHands_statistics hd]

/-! ## Hands across rounds, and the round played on the last deck -/

theorem BaccaratGame.playerDrawStep_hands {g g2 : BaccaratGame} {playerScore : Int}
    {pd : Bool} {pv : Int} (h : g.playerDrawStep playerScore = some (g2, pd, pv)) :
    g.Player <+: g2.Player ∧ g2.Banker = g.Banker := by
  unfold BaccaratGame.playerDrawStep at h
  split_ifs at h
  · cases h1 : g.Shoe.Draw with
    | none => simp [h1] at h
    | some x1 =>
      simp only [h1, List.getLast?_concat, Option.some.injEq, Prod.mk.injEq] at h
      rw [← h.1]
      exact ⟨List.prefix_append _ _, rfl⟩
  · simp only [Option.some.injEq, Prod.mk.injEq] at h
    rw [← h.1]
    exact ⟨List.prefix_refl _, rfl⟩

theorem BaccaratGame.bankerDrawStep_hands {g g2 : BaccaratGame} {bankerScore : Int}
    {pd : Bool} {pv : Int} (h : g.bankerDrawStep bankerScore pd pv = some g2) :
    g2.Player = g.Player ∧ g.Banker <+: g2.Banker := by
  unfold BaccaratGame.bankerDrawStep at h
  split_ifs at h
  · cases h1 : g.Shoe.Draw with
    | none => simp [h1] at h
    | some x1 =>
      simp only [h1, Option.some.injEq] at h
      rw [← h]
      exact ⟨rfl, List.prefix_append _ _⟩
  · simp only [Option.some.injEq] at h
    rw [← h]
    exact ⟨rfl, List.prefix_refl _⟩

theorem BaccaratGame.playDealt_hands {g1 g2 : BaccaratGame} {r : GameResult}
    (h : g1.playDealt = some (r, g2)) :
    g1.Player <+: g2.Player ∧ g1.Banker <+: g2.Banker := by
  unfold BaccaratGame.playDealt at h
  simp only at h
  split_ifs at h with hnat
  · simp only [Option.some.injEq, Prod.mk.injEq] at h
    rw [← h.2, (BaccaratGame.evaluateGameResults_frame g1).2.1,
      (BaccaratGame.evaluateGameResults_frame g1).2.2.1]
    exact ⟨List.prefix_refl _, List.prefix_refl _⟩
  · cases hps : g1.playerDrawStep (EvaluateHand g1.Player) with
    | none => simp [hps] at h
    | some x =>
      obtain ⟨g2a, pd, pv⟩ := x
      simp only [hps] at h
      cases hbs : g2a.bankerDrawStep (EvaluateHand g1.Banker) pd pv with
      | none => simp [hbs] at h
      | some g3 =>
        simp only [hbs, Option.some.injEq, Prod.mk.injEq] at h
        rw [← h.2, (BaccaratGame.evaluateGameResults_frame g3).2.1,
          (BaccaratGame.evaluateGameResults_frame g3).2.2.1]
        obtain ⟨hp1, hb1⟩ := BaccaratGame.playerDrawStep_hands hps
        obtain ⟨hp2, hb2⟩ := BaccaratGame.bankerDrawStep_hands hbs
        rw [hp2]
        rw [hb1] at hb2
        exact ⟨hp1, hb2⟩

theorem BaccaratGame.evaluateGameResults_total (g : BaccaratGame) :
    g.EvaluateGameResults.2.Statistics.TotalHandsPlayed = g.Statistics.TotalHandsPlayed := by
  unfold BaccaratGame.EvaluateGameResults
  simp only
  split_ifs <;> rfl

set_option maxRecDepth 100000 in
/-- C5 fails on the code: `PlayGame` never empties the hands.  Every round
that deals keeps the hands it finds and appends the four dealt cards to them.
On the game `NewBaccaratGame(2)` (canonical map order, all random numbers 0)
the second round deals onto the three and two cards left from the first
round: after it the Player holds six cards and the Banker four, and the
returned score 4 is the Banker's total over all four of its cards (with fresh
hands the second round would end Banker 2, Player 1). -/
theorem hands_accumulate_across_rounds :
    ((NewBaccaratGame 2 canonicalOrder zeroRnd).bind (BaccaratGame.playGames 1)).map
        (fun x => (x.2.Player.map Card.Value, x.2.Banker.map Card.Value))
      = some ([5, 7, 9], [6, 8])
    ∧ ((NewBaccaratGame 2 canonicalOrder zeroRnd).bind (BaccaratGame.playGames 2)).map
        (fun x => (x.2.Player.map Card.Value, x.2.Banker.map Card.Value))
      = some ([5, 7, 9, 10, 10, 1], [6, 8, 10, 10])
    ∧ ((NewBaccaratGame 2 canonicalOrder zeroRnd).bind (BaccaratGame.playGames 2)).map
        (fun x => x.1)
      = some [(1, 4, none), (1, 4, none)]
    ∧ (∀ (g g1 : BaccaratGame) (r : GameResult) (c1 c2 c3 c4 : Card) (rest : List Card),
        g.canContinue = true → g.Shoe.Decks.length ≠ 1 → NoEmptyDeck g.Shoe →
        g.Shoe.cards = c1 :: c2 :: c3 :: c4 :: rest → g.PlayGame = some (r, g1) →
        g.Player ++ [c1, c3] <+: g1.Player ∧ g.Banker ++ [c2, c4] <+: g1.Banker) := by
  refine ⟨by decide, by decide, by decide, ?_⟩
  intro g g1 r c1 c2 c3 c4 rest hcont hlen hne hc hplay
  obtain ⟨s4, -, -, -, hdeal⟩ := BaccaratGame.playGame_deal hcont hlen hne hc
  rw [hdeal] at hplay
  exact BaccaratGame.playDealt_hands hplay

set_option maxRecDepth 100000 in
/-- C6 fails on the code: a call of `PlayGame` on a game whose `canContinue`
is still true never returns the error, also when the shoe holds one deck: it
counts the hand and settles.  On the game `NewBaccaratGame(1)` (one deck, 49
cards after the burn) the first call returns `(BankerWins, 6, nil)`, draws
two cards from the shoe without any initial deal and counts one hand and one
Banker win.  Only the second call returns the error. -/
theorem last_deck_round_is_played :
    (NewBaccaratGame 1 canonicalOrder zeroRnd).map
        (fun g => (g.Shoe.Decks.length, g.Shoe.cards.length, g.canContinue))
      = some (1, 49, true)
    ∧ ((NewBaccaratGame 1 canonicalOrder zeroRnd).bind BaccaratGame.PlayGame).map
        (fun x => x.1) = some (1, 6, none)
    ∧ ((NewBaccaratGame 1 canonicalOrder zeroRnd).bind BaccaratGame.PlayGame).map
        (fun x => (x.2.Player.map Card.Value, x.2.Banker.map Card.Value))
      = some ([5], [6])
    ∧ ((NewBaccaratGame 1 canonicalOrder zeroRnd).bind BaccaratGame.PlayGame).map
        (fun x => (x.2.Shoe.cards.length, x.2.canContinue)) = some (47, false)
    ∧ ((NewBaccaratGame 1 canonicalOrder zeroRnd).bind BaccaratGame.PlayGame).map
        (fun x => (x.2.Statistics.TotalHandsPlayed, x.2.Statistics.BankerWinCount))
      = some (1, 1)
    ∧ ((NewBaccaratGame 1 canonicalOrder zeroRnd).bind (BaccaratGame.playGames 2)).map
        (fun x => x.1)
      = some [(1, 6, none), (-1, -1, some "the shoe is empty")]
    ∧ (∀ (g g1 : BaccaratGame) (r : GameResult),
        g.canContinue = true → g.Shoe.Decks.length = 1 → g.PlayGame = some (r, g1) →
        r.2.2 = none
          ∧ g1.Statistics.TotalHandsPlayed = g.Statistics.TotalHandsPlayed + 1) := by
  refine ⟨by decide, by decide, by decide, by decide, by decide, by decide, ?_⟩
  intro g g1 r hcont _ hplay
  obtain ⟨g3, -, -, hr, hg, hst⟩ := BaccaratGame.playGame_returns_settlement hcont hplay
  refine ⟨by rw [hr], ?_⟩
  rw [hg, BaccaratGame.evaluateGameResults_total, hst]

/-! ## Building and shuffling the shoe -/

theorem cardValues_valid : ∀ e ∈ cardValues, 1 ≤ e.2 ∧ e.2 ≤ 10 := by
  simp [cardValues]

theorem mapOrder_length {l : List (String × Int)} (h : MapOrder l) : l.length = 13 := by
  have := List.Perm.length_eq h
  simpa [cardValues] using this

theorem mapOrder_valid {l : List (String × Int)} (h : MapOrder l) :
    ∀ e ∈ l, 1 ≤ e.2 ∧ e.2 ≤ 10 :=
  fun e he => cardValues_valid e ((List.Perm.mem_iff h).1 he)

theorem newDeckLoop_length (iter : Nat → List (String × Int)) (hiter : ∀ k, MapOrder (iter k)) :
    ∀ (suits : List String) (k : Nat) (cards : List Card),
      (newDeckLoop iter k suits cards).length = cards.length + 13 * suits.length := by
  intro suits
  induction suits with
  | nil => intro k cards; simp [newDeckLoop]
  | cons suit rest ih =>
    intro k cards
    simp only [newDeckLoop, ih, List.length_append, List.length_map, mapOrder_length (hiter k),
      List.length_cons]
    omega

theorem newDeckLoop_valid (iter : Nat → List (String × Int)) (hiter : ∀ k, MapOrder (iter k)) :
    ∀ (suits : List String) (k : Nat) (cards : List Card),
      (∀ c ∈ cards, ValidCard c) → ∀ c ∈ newDeckLoop iter k suits cards, ValidCard c := by
  intro suits
  induction suits with
  | nil => intro k cards h; simpa [newDeckLoop] using h
  | cons suit rest ih =>
    intro k cards h
    simp only [newDeckLoop]
    apply ih
    intro c hc
    rcases List.mem_append.1 hc with hc | hc
    · exact h c hc
    · obtain ⟨e, he, rfl⟩ := List.mem_map.1 hc
      exact mapOrder_valid (hiter k) e he

theorem newDeck_full (iter : Nat → List (String × Int)) (hiter : ∀ k, MapOrder (iter k)) :
    FullDeck (NewDeck iter) := by
  constructor
  · simp [NewDeck, newDeckLoop_length iter hiter, cardSuits]
  · exact newDeckLoop_valid iter hiter cardSuits 0 [] (by simp)

theorem newShoeLoop_full (iter : Nat → Nat → List (String × Int))
    (hiter : ∀ i k, MapOrder (iter i k)) :
    ∀ (todo i : Nat) (decks : List Deck), (∀ d ∈ decks, FullDeck d) →
      (∀ d ∈ newShoeLoop iter todo i decks, FullDeck d)
        ∧ (newShoeLoop iter todo i decks).length = decks.length + todo := by
  intro todo
  induction todo with
  | zero => intro i decks h; exact ⟨by simpa [newShoeLoop] using h, by simp [newShoeLoop]⟩
  | succ n ih =>
    intro i decks h
    have h1 : ∀ d ∈ decks ++ [NewDeck (iter i)], FullDeck d := by
      intro d hd
      rcases List.mem_append.1 hd with hd | hd
      · exact h d hd
      · rw [List.mem_singleton.1 hd]
        exact newDeck_full (iter i) (hiter i)
    obtain ⟨hf, hl⟩ := ih (i + 1) _ h1
    refine ⟨by simpa [newShoeLoop] using hf, ?_⟩
    simp only [newShoeLoop, hl, List.length_append, List.length_singleton]
    omega

theorem swapCards_length (l : List Card) (i j : Nat) : (swapCards l i j).length = l.length := by
  unfold swapCards
  split <;> simp

theorem swapCards_mem (l : List Card) (i j : Nat) : ∀ c ∈ swapCards l i j, c ∈ l := by
  intro c hc
  unfold swapCards at hc
  split at hc
  · rename_i a b ha hb
    rcases List.mem_or_eq_of_mem_set hc with h | h
    · rcases List.mem_or_eq_of_mem_set h with h | h
      · exact h
      · rw [h]; exact List.getElem?_mem hb
    · rw [h]; exact List.getElem?_mem ha
  · exact hc

theorem shuffleLoop_length (rnd : Nat → Nat) :
    ∀ (i : Nat) (l : List Card), (shuffleLoop rnd i l).length = l.length := by
  intro i
  induction i with
  | zero => intro l; rfl
  | succ n ih => intro l; simp [shuffleLoop, ih, swapCards_length]

theorem shuffleLoop_mem (rnd : Nat → Nat) :
    ∀ (i : Nat) (l : List Card), ∀ c ∈ shuffleLoop rnd i l, c ∈ l := by
  intro i
  induction i with
  | zero => intro l c hc; exact hc
  | succ n ih =>
    intro l c hc
    exact swapCards_mem l _ _ c (ih _ c hc)

theorem collectCards_eq :
    ∀ (decks : List Deck) (acc : List Card),
      collectCards decks acc = acc ++ (decks.map Deck.Cards).flatten := by
  intro decks
  induction decks with
  | nil => intro acc; simp [collectCards]
  | cons d ds ih => intro acc; simp [collectCards, ih]

theorem goCopy_length (dst src : List Card) : (goCopy dst src).length = dst.length := by
  simp only [goCopy, List.length_append, List.length_take, List.length_drop]
  omega

theorem goCopy_mem (dst src : List Card) : ∀ c ∈ goCopy dst src, c ∈ src ∨ c ∈ dst := by
  intro c hc
  rcases List.mem_append.1 hc with h | h
  · exact Or.inl (List.mem_of_mem_take h)
  · exact Or.inr (List.mem_of_mem_drop h)

theorem distributeCards_full (allCards : List Card) (hall : ∀ c ∈ allCards, ValidCard c) :
    ∀ (decks : List Deck) (cardIndex : Nat), (∀ d ∈ decks, FullDeck d) →
      (∀ d ∈ distributeCards allCards decks cardIndex, FullDeck d)
        ∧ (distributeCards allCards decks cardIndex).length = decks.length := by
  intro decks
  induction decks with
  | nil => intro cardIndex _; simp [distributeCards]
  | cons d ds ih =>
    intro cardIndex h
    obtain ⟨hf, hl⟩ := ih (cardIndex + d.Cards.length) (fun x hx => h x (by simp [hx]))
    have hd := h d (by simp)
    refine ⟨?_, by simp [distributeCards, hl]⟩
    intro x hx
    simp only [distributeCards, List.mem_cons] at hx
    rcases hx with rfl | hx
    · refine ⟨by simp [goCopy_length, hd.1], ?_⟩
      intro c hc
      rcases goCopy_mem _ _ c hc with hc | hc
      · exact hall c (List.mem_of_mem_drop (List.mem_of_mem_take hc))
      · exact hd.2 c hc
    · exact hf x hx

theorem Shoe.shuffle_full (s : Shoe) (rnd : Nat → Nat) (h : ∀ d ∈ s.Decks, FullDeck d) :
    (∀ d ∈ (s.Shuffle rnd).Decks, FullDeck d)
      ∧ (s.Shuffle rnd).Decks.length = s.Decks.length := by
  have hall : ∀ c ∈ randShuffle rnd (collectCards s.Decks []), ValidCard c := by
    intro c hc
    have hc1 := shuffleLoop_mem rnd _ _ c hc
    rw [collectCards_eq, List.nil_append] at hc1
    obtain ⟨l, hl, hcl⟩ := List.mem_flatten.1 hc1
    obtain ⟨d, hd, rfl⟩ := List.mem_map.1 hl
    exact (h d hd).2 c hcl
  exact distributeCards_full _ hall s.Decks 0 h

/-! ## The shoe never runs empty -/

theorem Shoe.noEmpty_of_full (s : Shoe) (h : ∀ d ∈ s.Decks, FullDeck d) : NoEmptyDeck s := by
  intro d hd hnil
  have := (h d hd).1
  rw [hnil] at this
  simp at this

theorem Shoe.tailFull_of_full (s : Shoe) (h : ∀ d ∈ s.Decks, FullDeck d) : TailFull s :=
  fun d hd => (h d (List.mem_of_mem_tail hd)).1

theorem flatten_length_of_full :
    ∀ decks : List Deck, (∀ d ∈ decks, FullDeck d) →
      ((decks.map Deck.Cards).flatten).length = 52 * decks.length := by
  intro decks
  induction decks with
  | nil => intro _; simp
  | cons d ds ih =>
    intro h
    have hd := (h d (by simp)).1
    have := ih (fun x hx => h x (by simp [hx]))
    simp only [List.map_cons, List.flatten_cons, List.length_append, List.length_cons, this, hd]
    omega

theorem Shoe.cards_valid_of_full (s : Shoe) (h : ∀ d ∈ s.Decks, FullDeck d) :
    ∀ c ∈ s.cards, ValidCard c := by
  intro c hc
  obtain ⟨l, hl, hcl⟩ := List.mem_flatten.1 hc
  obtain ⟨d, hd, rfl⟩ := List.mem_map.1 hl
  exact (h d hd).2 c hcl

theorem burnLoop_of_cards :
    ∀ (n : Nat) (s : Shoe), NoEmptyDeck s → n ≤ s.cards.length →
      ∃ s1, burnLoop n s = some s1 ∧ s1.cards = s.cards.drop n ∧ NoEmptyDeck s1
        ∧ (TailFull s → TailFull s1) := by
  intro n
  induction n with
  | zero => intro s hne _; exact ⟨s, rfl, by simp, hne, id⟩
  | succ k ih =>
    intro s hne hlen
    cases hcs : s.cards with
    | nil => rw [hcs] at hlen; simp at hlen
    | cons c rest =>
      obtain ⟨s1, hdraw, hc1, hne1, ht1⟩ := Shoe.draw_of_cards hne hcs
      have hk : k ≤ s1.cards.length := by
        rw [hcs] at hlen
        rw [hc1]
        simpa using hlen
      obtain ⟨s2, hb, hc2, hne2, ht2⟩ := ih s1 hne1 hk
      refine ⟨s2, ?_, ?_, hne2, fun ht => ht2 (ht1 ht)⟩
      · simp [burnLoop, hdraw, hb]
      · rw [hc2, hc1]
        simp

theorem Shoe.cards_length_of_tailFull (s : Shoe) (hne : NoEmptyDeck s) (ht : TailFull s)
    (hlen : s.Decks.length ≠ 1) (hcards : s.cards ≠ []) : 53 ≤ s.cards.length := by
  obtain ⟨decks⟩ := s
  cases decks with
  | nil => simp [Shoe.cards] at hcards
  | cons d0 ds =>
    cases ds with
    | nil => simp at hlen
    | cons d1 ds =>
      have h0 : d0.Cards ≠ [] := hne d0 (by simp)
      have h0l : 1 ≤ d0.Cards.length := by
        cases hd : d0.Cards with
        | nil => exact absurd hd h0
        | cons a l => simp
      have h1 : d1.Cards.length = 52 := ht d1 (by simp)
      simp only [Shoe.cards, List.map_cons, List.flatten_cons, List.length_append]
      omega

theorem newBaccaratGame_spec (N : Nat) (hN : 1 ≤ N) (iter : Nat → Nat → List (String × Int))
    (hiter : ∀ i k, MapOrder (iter i k)) (rnd : Nat → Nat) :
    ∃ g, NewBaccaratGame (N : Int) iter rnd = some g ∧ g.canContinue = true
      ∧ NoEmptyDeck g.Shoe ∧ TailFull g.Shoe ∧ 41 ≤ g.Shoe.cards.length
      ∧ g.Player = [] ∧ g.Banker = [] ∧ g.Statistics = newStat := by
  have hfull0 := newShoeLoop_full iter hiter N 0 [] (by simp)
  have hfull := Shoe.shuffle_full (NewShoe (N : Int) iter) rnd
    (by simpa [NewShoe] using hfull0.1)
  have hdecks : ((NewShoe (N : Int) iter).Shuffle rnd).Decks.length = N := by
    rw [hfull.2]
    simpa [NewShoe] using hfull0.2
  have hne := Shoe.noEmpty_of_full _ hfull.1
  have htf := Shoe.tailFull_of_full _ hfull.1
  have hlen : ((NewShoe (N : Int) iter).Shuffle rnd).cards.length = 52 * N := by
    rw [Shoe.cards, flatten_length_of_full _ hfull.1, hdecks]
  have hvalid := Shoe.cards_valid_of_full _ hfull.1
  cases hcs : ((NewShoe (N : Int) iter).Shuffle rnd).cards with
  | nil => rw [hcs] at hlen; simp at hlen; omega
  | cons topCard rest =>
    obtain ⟨s1, hdraw, hc1, hne1, ht1⟩ := Shoe.draw_of_cards hne hcs
    have htop : ValidCard topCard := hvalid topCard (by rw [hcs]; simp)
    have hrest : rest.length + 1 = 52 * N := by
      rw [hcs] at hlen
      simpa using hlen
    have hk : topCard.Value.toNat ≤ s1.cards.length := by
      rw [hc1]
      have := htop.2
      omega
    obtain ⟨s2, hb, hc2, hne2, ht2⟩ := burnLoop_of_cards _ s1 hne1 hk
    refine ⟨{ Shoe := s2, Player := [], Banker := [], Statistics := newStat,
              canContinue := true }, ?_, rfl, hne2, ht2 (ht1 htf), ?_, rfl, rfl, rfl⟩
    · simp only [NewBaccaratGame, hdraw, hb]
    · rw [hc2, hc1, List.length_drop]
      have := htop.2
      omega

theorem exists_two_of_length {l : List Card} (h : 2 ≤ l.length) :
    ∃ c1 c2 rest, l = c1 :: c2 :: rest := by
  rcases l with _ | ⟨c1, _ | ⟨c2, rest⟩⟩
  · simp at h
  · simp at h
  · exact ⟨c1, c2, rest, rfl⟩

theorem exists_four_of_length {l : List Card} (h : 4 ≤ l.length) :
    ∃ c1 c2 c3 c4 rest, l = c1 :: c2 :: c3 :: c4 :: rest := by
  rcases l with _ | ⟨c1, _ | ⟨c2, _ | ⟨c3, _ | ⟨c4, rest⟩⟩⟩⟩
  · simp at h
  · simp at h
  · simp at h
  · simp at h
  · exact ⟨c1, c2, c3, c4, rest, rfl⟩

theorem BaccaratGame.playDealt_total (g1 : BaccaratGame) (hne : NoEmptyDeck g1.Shoe)
    (h2 : 2 ≤ g1.Shoe.cards.length) :
    ∃ r g2, g1.playDealt = some (r, g2) ∧ NoEmptyDeck g2.Shoe
      ∧ (TailFull g1.Shoe → TailFull g2.Shoe)
      ∧ g1.Shoe.cards.length ≤ g2.Shoe.cards.length + 2
      ∧ g2.canContinue = g1.canContinue := by
  by_cases hnat : EvaluateHand g1.Player = 8 ∨ EvaluateHand g1.Player = 9
      ∨ EvaluateHand g1.Banker = 8 ∨ EvaluateHand g1.Banker = 9
  · have hfr := BaccaratGame.evaluateGameResults_frame g1
    refine ⟨_, _, BaccaratGame.playDealt_natural g1 hnat, ?_, ?_, ?_, hfr.2.2.2⟩
    · rw [hfr.1]; exact hne
    · rw [hfr.1]; exact id
    · rw [hfr.1]; omega
  · obtain ⟨c5, c6, rest, hc⟩ := exists_two_of_length h2
    obtain ⟨s3, g3, hne3, ht3, hc3, hg3, hd⟩ :=
      BaccaratGame.playDealt_no_natural_state g1 hne hc hnat
    have hfr := BaccaratGame.evaluateGameResults_frame g3
    have hs : g3.Shoe = s3 := by rw [hg3]
    have hcc : g3.canContinue = g1.canContinue := by rw [hg3]
    refine ⟨_, _, hd, ?_, ?_, ?_, ?_⟩
    · rw [hfr.1, hs]; exact hne3
    · rw [hfr.1, hs]; exact ht3
    · rw [hfr.1, hs, hc]
      rcases hc3 with h | h | h <;> rw [h] <;> simp
    · rw [hfr.2.2.2, hcc]

theorem BaccaratGame.playGame_total (g : BaccaratGame) (h : SafeGame g) :
    ∃ r g2, g.PlayGame = some (r, g2) ∧ SafeGame g2 := by
  by_cases hcont : g.canContinue = true
  · obtain ⟨hne, htf, h2⟩ := h hcont
    by_cases hlen : g.Shoe.Decks.length = 1
    · obtain ⟨r, g2, hplay, -, -, -, hcc⟩ := BaccaratGame.playDealt_total
        { g with Statistics := { g.Statistics with
                   TotalHandsPlayed := g.Statistics.TotalHandsPlayed + 1 },
                 canContinue := false } hne h2
      refine ⟨r, g2, ?_, ?_⟩
      · rw [← hplay]
        simp [BaccaratGame.PlayGame, hcont, BaccaratGame.DealHands, hlen]
      · intro hc2
        rw [hcc] at hc2
        simp at hc2
    · have hcards : g.Shoe.cards ≠ [] := by
        intro hnil
        rw [hnil] at h2
        simp at h2
      have h53 := Shoe.cards_length_of_tailFull g.Shoe hne htf hlen hcards
      obtain ⟨c1, c2, c3, c4, rest, hc⟩ := exists_four_of_length (l := g.Shoe.cards) (by omega)
      obtain ⟨s4, hc4, hne4, ht4, hplay⟩ := BaccaratGame.playGame_deal hcont hlen hne hc
      have hrest : 49 ≤ rest.length := by
        rw [hc] at h53
        simp at h53
        omega
      obtain ⟨r, g2, hd, hne2, ht2, hl2, -⟩ := BaccaratGame.playDealt_total
        (g.dealt s4 (g.Player ++ [c1, c3]) (g.Banker ++ [c2, c4])) hne4
        (by show 2 ≤ s4.cards.length; rw [hc4]; omega)
      refine ⟨r, g2, hplay.trans hd, fun _ => ⟨hne2, ht2 (ht4 htf), ?_⟩⟩
      have : (g.dealt s4 (g.Player ++ [c1, c3]) (g.Banker ++ [c2, c4])).Shoe.cards.length
          = rest.length := by
        show s4.cards.length = rest.length
        rw [hc4]
      omega
  · refine ⟨(-1, -1, some "the shoe is empty"), g, ?_, h⟩
    simp [BaccaratGame.PlayGame, hcont]

theorem BaccaratGame.playGames_total :
    ∀ (k : Nat) (g : BaccaratGame), SafeGame g →
      ∃ rs g2, g.playGames k = some (rs, g2) ∧ rs.length = k ∧ SafeGame g2 := by
  intro k
  induction k with
  | zero => intro g h; exact ⟨[], g, rfl, rfl, h⟩
  | succ n ih =>
    intro g h
    obtain ⟨r, g1, hplay, h1⟩ := BaccaratGame.playGame_total g h
    obtain ⟨rs, g2, hrest, hl, h2⟩ := ih g1 h1
    exact ⟨r :: rs, g2, by simp [BaccaratGame.playGames, hplay, hrest], by simp [hl], h2⟩

/-- C7: for every number of decks `N >= 1`, every map order, every shuffle
and every number `k` of successive `PlayGame` calls, `NewBaccaratGame(N)`
returns a game (the burn never draws from an empty shoe) and the `k` calls
all return: no call of `Draw`, in the burn or in any round, the round that
detects the last deck included, meets a shoe without a card. -/
theorem draw_never_on_empty_shoe (N : Nat) (hN : 1 ≤ N)
    (iter : Nat → Nat → List (String × Int)) (hiter : ∀ i k, MapOrder (iter i k))
    (rnd : Nat → Nat) (k : Nat) :
    ∃ g, NewBaccaratGame (N : Int) iter rnd = some g
      ∧ ∃ rs g2, g.playGames k = some (rs, g2) ∧ rs.length = k := by
  obtain ⟨g, hnew, hcont, hne, htf, h41, -, -, -⟩ := newBaccaratGame_spec N hN iter hiter rnd
  obtain ⟨rs, g2, hplay, hl, -⟩ :=
    BaccaratGame.playGames_total k g (fun _ => ⟨hne, htf, by omega⟩)
  exact ⟨g, hnew, rs, g2, hplay, hl⟩

theorem draw_never_on_empty_shoe_witness :
    ∃ g, NewBaccaratGame ((6 : Nat) : Int) canonicalOrder zeroRnd = some g
      ∧ ∃ rs g2, g.playGames 100 = some (rs, g2) ∧ rs.length = 100 :=
  draw_never_on_empty_shoe 6 (by decide) canonicalOrder (fun _ _ => List.Perm.refl _)
    zeroRnd 100

/-! ## The betting loop: one round -/

theorem i64_of_fits {x : Int} (h : fits64 x) : i64 x = x := by
  unfold fits64 at h
  unfold i64
  omega

theorem i64_credit_win (r b : Int) : i64 (i64 (r - b) + i64 (b * 2)) = i64 (r + b) := by
  unfold i64
  omega

theorem i64_credit_push (r b : Int) : i64 (i64 (r - b) + b) = i64 r := by
  unfold i64
  omega

theorem guess_range (raw : Nat) : Guess raw = 0 ∨ Guess raw = 1 := by
  unfold Guess
  omega

theorem Player.placeBet_currentBet (p : Player) :
    p.placeBet.CurrentBet
      = min (min (if p.WonLastHand = true then p.MinimumBet
                  else if p.TiedLastHand = true then p.CurrentBet
                  else i64 (p.CurrentBet * 2)) p.MaxBet) p.CurrentBankroll := by
  unfold Player.placeBet
  simp only [min_def]
  split_ifs <;> simp_all <;> omega

theorem Player.placeBet_bankroll (p : Player) :
    p.placeBet.CurrentBankroll = i64 (p.CurrentBankroll - p.placeBet.CurrentBet) := by
  unfold Player.placeBet
  simp only
  split_ifs <;> rfl

theorem Player.resolve_frame (p : Player) (res playerGuess : Int) :
    (p.resolve res playerGuess).CurrentBet = p.CurrentBet
      ∧ (p.resolve res playerGuess).MinimumBet = p.MinimumBet
      ∧ (p.resolve res playerGuess).MaxBet = p.MaxBet
      ∧ (p.resolve res playerGuess).WonLastHand = decide (res = playerGuess)
      ∧ (p.resolve res playerGuess).TiedLastHand
          = (!decide (res = playerGuess) && decide (res = Tie)) := by
  by_cases h1 : res = playerGuess
  · simp [Player.resolve, h1]
  · by_cases h2 : res = Tie
    · subst h2
      simp [Player.resolve, h1]
    · simp [Player.resolve, h1, h2]

theorem Player.placeBet_counts (p : Player) :
    p.placeBet.Stats.WinCount = p.Stats.WinCount
      ∧ p.placeBet.Stats.LossCount = p.Stats.LossCount
      ∧ p.placeBet.Stats.TieCount = p.Stats.TieCount := by
  unfold Player.placeBet
  simp only
  split_ifs <;> simp

/-! ## Game-level streaks -/

theorem trailingRun_append (hist : List Int) (o : Int) :
    trailingRun (hist ++ [o])
      = if hist.getLast? = some o then trailingRun hist + 1 else 1 := by
  unfold trailingRun
  rw [List.getLast?_eq_head?_reverse]
  simp only [List.reverse_append, List.reverse_cons, List.reverse_nil, List.nil_append,
    List.singleton_append]
  cases hist.reverse with
  | nil => simp
  | cons a l =>
    by_cases h : a = o
    · simp [h]
      omega
    · simp [h]

theorem BaccaratGame.evaluateGameResults_streak (g : BaccaratGame) (hist : List Int)
    (h : StreakInv g.Statistics hist) :
    StreakInv g.EvaluateGameResults.2.Statistics (hist ++ [g.EvaluateGameResults.1.1]) := by
  have key := trailingRun_append hist
  unfold StreakInv at h ⊢
  rw [List.getLast?_concat]
  simp only
  cases hl : hist.getLast? with
  | none =>
    rw [hl] at h
    simp only at h
    obtain ⟨h1, h2, h3⟩ := h
    simp only [hl] at key
    unfold BaccaratGame.EvaluateGameResults
    simp only [h1, h2, h3, Bool.false_eq_true, if_false]
    split_ifs <;> simp [key, PlayerWins, BankerWins, Tie]
  | some o =>
    rw [hl] at h
    simp only at h
    simp only [hl] at key
    unfold BaccaratGame.EvaluateGameResults
    rcases h with ⟨rfl, h1, h2, h3, h4, h5, h6⟩ | ⟨rfl, h1, h2, h3, h4, h5, h6⟩
      | ⟨rfl, h1, h2, h3, h4, h5, h6⟩
    · simp only [h1, h2, h3, Bool.false_eq_true, if_false, if_true]
      split_ifs <;> simp [key, PlayerWins, BankerWins, Tie, h4, h5, h6]
    · simp only [h1, h2, h3, Bool.false_eq_true, if_false, if_true]
      split_ifs <;> simp [key, PlayerWins, BankerWins, Tie, h4, h5, h6]
    · simp only [h1, h2, h3, Bool.false_eq_true, if_false, if_true]
      split_ifs <;> simp [key, PlayerWins, BankerWins, Tie, h4, h5, h6]

theorem BaccaratGame.recordRounds_length :
    ∀ (hands : List (List Card × List Card)) (g : BaccaratGame),
      (g.recordRounds hands).1.length = hands.length := by
  intro hands
  induction hands with
  | nil => intro g; rfl
  | cons h rest ih => intro g; simp [BaccaratGame.recordRounds, ih]

theorem BaccaratGame.recordRounds_streak :
    ∀ (hands : List (List Card × List Card)) (g : BaccaratGame) (hist : List Int),
      StreakInv g.Statistics hist →
      StreakInv (g.recordRounds hands).2.Statistics (hist ++ (g.recordRounds hands).1) := by
  intro hands
  induction hands with
  | nil => intro g hist h; simpa [BaccaratGame.recordRounds] using h
  | cons hd rest ih =>
    intro g hist h
    have hstep := BaccaratGame.evaluateGameResults_streak
      { g with Player := hd.1, Banker := hd.2 } hist h
    have := ih _ _ hstep
    simpa [BaccaratGame.recordRounds] using this

theorem streakInv_of_counted (st : Stat) (n : Int) (hist : List Int) (h : StreakInv st hist) :
    StreakInv { st with TotalHandsPlayed := n } hist := h

theorem BaccaratGame.playGames_streak :
    ∀ (k : Nat) (g g2 : BaccaratGame) (rs : List GameResult) (hist : List Int),
      StreakInv g.Statistics hist → g.playGames k = some (rs, g2) →
      StreakInv g2.Statistics (hist ++ playedOutcomes rs) := by
  intro k
  induction k with
  | zero =>
    intro g g2 rs hist h hp
    simp only [BaccaratGame.playGames, Option.some.injEq, Prod.mk.injEq] at hp
    obtain ⟨rfl, rfl⟩ := hp
    simpa [playedOutcomes] using h
  | succ n ih =>
    intro g g2 rs hist h hp
    unfold BaccaratGame.playGames at hp
    cases h1 : g.PlayGame with
    | none => simp [h1] at hp
    | some x =>
      obtain ⟨r, g1⟩ := x
      simp only [h1] at hp
      cases h2 : BaccaratGame.playGames n g1 with
      | none => simp [h2] at hp
      | some y =>
        obtain ⟨rs1, g2a⟩ := y
        simp only [h2, Option.some.injEq, Prod.mk.injEq] at hp
        obtain ⟨rfl, rfl⟩ := hp
        by_cases hcont : g.canContinue = true
        · obtain ⟨g3, -, -, hr, hg, hst⟩ := BaccaratGame.playGame_returns_settlement hcont h1
          have hinv3 : StreakInv g3.Statistics hist := by
            rw [hst]
            exact streakInv_of_counted _ _ _ h
          have hstep := BaccaratGame.evaluateGameResults_streak g3 hist hinv3
          rw [← hg] at hstep
          have := ih g1 g2a rs1 _ hstep h2
          rw [hr]
          simpa [playedOutcomes] using this
        · have hp1 : g.PlayGame = some ((-1, -1, some "the shoe is empty"), g) := by
            simp [BaccaratGame.PlayGame, hcont]
          rw [hp1] at h1
          simp only [Option.some.injEq, Prod.mk.injEq] at h1
          obtain ⟨rfl, rfl⟩ := h1
          have := ih g g2a rs1 hist h h2
          simpa [playedOutcomes] using this

/-- C10: after any non-empty sequence of rounds recorded by
`EvaluateGameResults` on the statistics of a new game, the current streak of
the category of the latest outcome equals the length of the trailing run of
identical outcomes, and the current streaks of the other two categories are
0; the same holds (as `StreakInv`) after any number of `PlayGame` calls, for
the outcomes of the calls that were not refused. -/
theorem current_streak_is_trailing_run (g : BaccaratGame)
    (hands : List (List Card × List Card)) (hnew : g.Statistics = newStat)
    (hne : hands ≠ []) :
    (∃ o, (g.recordRounds hands).1.getLast? = some o
      ∧ ((o = PlayerWins
            ∧ (g.recordRounds hands).2.Statistics.PlayerCurrentStreak
                = trailingRun (g.recordRounds hands).1
            ∧ (g.recordRounds hands).2.Statistics.BankerCurrentStreak = 0
            ∧ (g.recordRounds hands).2.Statistics.TieCurrentStreak = 0)
        ∨ (o = BankerWins
            ∧ (g.recordRounds hands).2.Statistics.BankerCurrentStreak
                = trailingRun (g.recordRounds hands).1
            ∧ (g.recordRounds hands).2.Statistics.PlayerCurrentStreak = 0
            ∧ (g.recordRounds hands).2.Statistics.TieCurrentStreak = 0)
        ∨ (o = Tie
            ∧ (g.recordRounds hands).2.Statistics.TieCurrentStreak
                = trailingRun (g.recordRounds hands).1
            ∧ (g.recordRounds hands).2.Statistics.PlayerCurrentStreak = 0
            ∧ (g.recordRounds hands).2.Statistics.BankerCurrentStreak = 0)))
      ∧ ∀ (k : Nat) (rs : List GameResult) (g2 : BaccaratGame),
          g.playGames k = some (rs, g2) → StreakInv g2.Statistics (playedOutcomes rs) := by
  have h0 : StreakInv g.Statistics [] := by
    simp [StreakInv, hnew, newStat]
  refine ⟨?_, fun k rs g2 hp => by
    simpa using BaccaratGame.playGames_streak k g g2 rs [] h0 hp⟩
  have h := BaccaratGame.recordRounds_streak hands g [] h0
  rw [List.nil_append] at h
  have hlen := BaccaratGame.recordRounds_length hands g
  unfold StreakInv at h
  cases hl : (g.recordRounds hands).1.getLast? with
  | none =>
    rw [List.getLast?_eq_none_iff] at hl
    rw [hl] at hlen
    exact absurd (List.length_eq_zero.1 hlen.symm) hne
  | some o =>
    rw [hl] at h
    simp only at h
    refine ⟨o, rfl, ?_⟩
    rcases h with ⟨ho, -, -, -, h4, h5, h6⟩ | ⟨ho, -, -, -, h4, h5, h6⟩
      | ⟨ho, -, -, -, h4, h5, h6⟩
    · exact Or.inl ⟨ho, h4, h5, h6⟩
    · exact Or.inr (Or.inl ⟨ho, h4, h5, h6⟩)
    · exact Or.inr (Or.inr ⟨ho, h4, h5, h6⟩)

set_option maxRecDepth 100000 in
theorem current_streak_is_trailing_run_witness :
    (drawingGame.recordRounds bankerBankerTieBanker).1 = [BankerWins, BankerWins, Tie, BankerWins]
      ∧ (drawingGame.recordRounds bankerBankerTieBanker).2.Statistics.BankerCurrentStreak = 1
      ∧ ∃ o, (drawingGame.recordRounds bankerBankerTieBanker).1.getLast? = some o
        ∧ ((o = PlayerWins
              ∧ (drawingGame.recordRounds bankerBankerTieBanker).2.Statistics.PlayerCurrentStreak
                  = trailingRun (drawingGame.recordRounds bankerBankerTieBanker).1
              ∧ (drawingGame.recordRounds bankerBankerTieBanker).2.Statistics.BankerCurrentStreak = 0
              ∧ (drawingGame.recordRounds bankerBankerTieBanker).2.Statistics.TieCurrentStreak = 0)
          ∨ (o = BankerWins
              ∧ (drawingGame.recordRounds bankerBankerTieBanker).2.Statistics.BankerCurrentStreak
                  = trailingRun (drawingGame.recordRounds bankerBankerTieBanker).1
              ∧ (drawingGame.recordRounds bankerBankerTieBanker).2.Statistics.PlayerCurrentStreak = 0
              ∧ (drawingGame.recordRounds bankerBankerTieBanker).2.Statistics.TieCurrentStreak = 0)
          ∨ (o = Tie
              ∧ (drawingGame.recordRounds bankerBankerTieBanker).2.Statistics.TieCurrentStreak
                  = trailingRun (drawingGame.recordRounds bankerBankerTieBanker).1
              ∧ (drawingGame.recordRounds bankerBankerTieBanker).2.Statistics.PlayerCurrentStreak = 0
              ∧ (drawingGame.recordRounds bankerBankerTieBanker).2.Statistics.BankerCurrentStreak = 0)) :=
  ⟨by decide, by decide,
    (current_streak_is_trailing_run drawingGame bankerBankerTieBanker rfl (by decide)).1⟩

/-! ## Hand evaluation, deal order and draw order -/

theorem handTotal_eq_sum (hand : List Card) (acc : Int) :
    hand.foldl (fun total card => total + card.Value) acc = acc + (hand.map Card.Value).sum := by
  induction hand generalizing acc with
  | nil => simp
  | cons c cs ih =>
    simp only [List.foldl_cons, ih, List.map_cons, List.sum_cons]
    omega

/-- C16: for every hand whose cards have pip values in 1..10 (the empty hand
included), `EvaluateHand` returns the sum of the pip values modulo 10, a
number in 0..9. -/
theorem evaluateHand_sum_mod (hand : List Card)
    (hval : ∀ c ∈ hand, 1 ≤ c.Value ∧ c.Value ≤ 10) :
    EvaluateHand hand = (hand.map Card.Value).sum % 10
      ∧ 0 ≤ EvaluateHand hand ∧ EvaluateHand hand ≤ 9 := by
  have hnn : ∀ c ∈ hand, 0 ≤ c.Value := fun c hc => by
    have := (hval c hc).1
    omega
  refine ⟨?_, evaluateHand_range hand hnn⟩
  have h0 := handTotal_nonneg hand hnn 0 (le_refl 0)
  unfold EvaluateHand goMod
  rw [Int.tmod_eq_emod h0 (by decide), handTotal_eq_sum, Int.zero_add]

theorem evaluateHand_sum_mod_witness :
    EvaluateHand [threeOfClubs, fiveOfHearts, kingOfClubs]
        = ([threeOfClubs, fiveOfHearts, kingOfClubs].map Card.Value).sum % 10
      ∧ 0 ≤ EvaluateHand [threeOfClubs, fiveOfHearts, kingOfClubs]
      ∧ EvaluateHand [threeOfClubs, fiveOfHearts, kingOfClubs] ≤ 9 :=
  evaluateHand_sum_mod [threeOfClubs, fiveOfHearts, kingOfClubs] (by decide)

/-- C17: for every game whose shoe has at least two decks (none of them
empty) and whose front cards are `c1, c2, c3, c4`, `DealHands` returns the
game with `c1` then `c3` appended to the Player's hand, `c2` then `c4`
appended to the Banker's hand and a shoe that holds the previous cards
without exactly these four front cards; nothing else changes. -/
theorem dealHands_order (g : BaccaratGame) (c1 c2 c3 c4 : Card) (rest : List Card)
    (hdecks : 2 ≤ g.Shoe.Decks.length) (hne : NoEmptyDeck g.Shoe)
    (hc : g.Shoe.cards = c1 :: c2 :: c3 :: c4 :: rest) :
    ∃ g1, g.DealHands = some g1
      ∧ g1.Player = g.Player ++ [c1] ++ [c3] ∧ g1.Banker = g.Banker ++ [c2] ++ [c4]
      ∧ g1.Shoe.cards = rest ∧ g.Shoe.cards = [c1, c2, c3, c4] ++ g1.Shoe.cards
      ∧ NoEmptyDeck g1.Shoe
      ∧ g1.Statistics = g.Statistics ∧ g1.canContinue = g.canContinue := by
  have hlen : g.Shoe.Decks.length ≠ 1 := by omega
  obtain ⟨s4, hd, hc4, hne4, -⟩ := BaccaratGame.dealHands_of_cards hlen hne hc
  refine ⟨_, hd, by simp, by simp, hc4, ?_, hne4, rfl, rfl⟩
  rw [hc]
  simp [hc4]

theorem dealHands_order_witness :
    ∃ g1, drawingGame.DealHands = some g1
      ∧ g1.Player = [] ++ [aceOfSpades] ++ [aceOfSpades]
      ∧ g1.Banker = [] ++ [twoOfHearts] ++ [threeOfClubs]
      ∧ g1.Shoe.cards = [sixOfDiamonds, kingOfClubs] := by
  obtain ⟨g1, h, hP, hB, hS, -⟩ :=
    dealHands_order drawingGame aceOfSpades twoOfHearts aceOfSpades threeOfClubs
      [sixOfDiamonds, kingOfClubs] (by decide) (by decide) rfl
  exact ⟨g1, h, hP, hB, hS⟩

/-- C18: on a shoe with at least one card and no empty deck, `Draw` returns
the first card of the concatenation of the decks; the concatenation of the
decks afterwards is the previous one without that first card, in the same
order, and no deck of the shoe is empty afterwards. -/
theorem draw_takes_front (s : Shoe) (hne : NoEmptyDeck s) (hcards : s.cards ≠ []) :
    ∃ c s1, s.Draw = some (c, s1) ∧ s.cards.head? = some c
      ∧ s.cards = c :: s1.cards ∧ s1.cards = s.cards.tail ∧ NoEmptyDeck s1 := by
  cases hcs : s.cards with
  | nil => exact absurd hcs hcards
  | cons c rest =>
    obtain ⟨s1, hdraw, hc1, hne1, -⟩ := Shoe.draw_of_cards hne hcs
    exact ⟨c, s1, hdraw, rfl, by rw [hc1], by simp [hc1], hne1⟩

theorem draw_takes_front_witness :
    ∃ c s1, drawingGame.Shoe.Draw = some (c, s1)
      ∧ drawingGame.Shoe.cards.head? = some c
      ∧ drawingGame.Shoe.cards = c :: s1.cards := by
  obtain ⟨c, s1, h1, h2, h3, -⟩ :=
    draw_takes_front drawingGame.Shoe (by decide) (by decide)
  exact ⟨c, s1, h1, h2, h3⟩
/-! ## Shuffle is a permutation; the burn -/

theorem count_set_add (c : Card) :
    ∀ (l : List Card) (i : Nat) (x old : Card), l[i]? = some old →
      (l.set i x).count c + (if old = c then 1 else 0)
        = l.count c + (if x = c then 1 else 0) := by
  intro l
  induction l with
  | nil => intro i x old h; simp at h
  | cons y ys ih =>
    intro i x old h
    cases i with
    | zero =>
      simp only [List.getElem?_cons_zero, Option.some.injEq] at h
      subst h
      simp only [List.set_cons_zero, List.count_cons, beq_iff_eq]
      omega
    | succ n =>
      simp only [List.getElem?_cons_succ] at h
      have := ih n x old h
      simp only [List.set_cons_succ, List.count_cons, beq_iff_eq]
      omega

theorem swapCards_perm (l : List Card) (i j : Nat) : List.Perm (swapCards l i j) l := by
  unfold swapCards
  split
  · rename_i a b ha hb
    rw [List.perm_iff_count]
    intro c
    have h1 := count_set_add c l i b a ha
    have hj : (l.set i b)[j]? = some b := by
      rw [List.getElem?_set]
      split
      · rename_i hij
        have hi : i < l.length := by
          rcases List.getElem?_eq_some_iff.1 ha with ⟨hi, -⟩
          exact hi
        simp [hi]
      · exact hb
    have h2 := count_set_add c (l.set i b) j a b hj
    omega
  · exact List.Perm.refl _

theorem shuffleLoop_perm (rnd : Nat → Nat) :
    ∀ (i : Nat) (l : List Card), List.Perm (shuffleLoop rnd i l) l := by
  intro i
  induction i with
  | zero => intro l; exact List.Perm.refl _
  | succ n ih => intro l; exact (ih _).trans (swapCards_perm l _ _)

theorem randShuffle_perm (rnd : Nat → Nat) (l : List Card) :
    List.Perm (randShuffle rnd l) l :=
  shuffleLoop_perm rnd _ l

theorem randShuffle_length (rnd : Nat → Nat) (l : List Card) :
    (randShuffle rnd l).length = l.length :=
  shuffleLoop_length rnd _ l

theorem goCopy_of_length (dst src : List Card) (h : src.length = dst.length) :
    goCopy dst src = src := by
  unfold goCopy
  rw [← h, List.take_length, List.drop_of_length_le (by omega), List.append_nil]

theorem distributeCards_cards (allCards : List Card) :
    ∀ (decks : List Deck) (cardIndex : Nat),
      cardIndex + ((decks.map Deck.Cards).flatten).length ≤ allCards.length →
      ((distributeCards allCards decks cardIndex).map Deck.Cards).flatten
        = (allCards.drop cardIndex).take ((decks.map Deck.Cards).flatten).length := by
  intro decks
  induction decks with
  | nil => intro cardIndex _; simp [distributeCards]
  | cons d ds ih =>
    intro cardIndex h
    simp only [List.map_cons, List.flatten_cons, List.length_append] at h
    have hsrc : ((allCards.drop cardIndex).take d.Cards.length).length = d.Cards.length := by
      rw [List.length_take, List.length_drop]
      omega
    have hrest := ih (cardIndex + d.Cards.length) (by omega)
    simp only [distributeCards, List.map_cons, List.flatten_cons, List.length_append,
      goCopy_of_length _ _ hsrc, hrest]
    rw [List.take_add, List.drop_drop]

theorem distributeCards_sizes (allCards : List Card) :
    ∀ (decks : List Deck) (cardIndex : Nat),
      (distributeCards allCards decks cardIndex).map (fun d => d.Cards.length)
        = decks.map (fun d => d.Cards.length) := by
  intro decks
  induction decks with
  | nil => intro cardIndex; simp [distributeCards]
  | cons d ds ih =>
    intro cardIndex
    simp [distributeCards, goCopy_length, ih]

theorem Shoe.shuffle_cards (s : Shoe) (rnd : Nat → Nat) :
    (s.Shuffle rnd).cards = randShuffle rnd s.cards := by
  have hcol : collectCards s.Decks [] = s.cards := by
    rw [collectCards_eq, List.nil_append]
    rfl
  unfold Shoe.Shuffle Shoe.cards
  simp only
  rw [distributeCards_cards _ s.Decks 0 (by
    rw [randShuffle_length, hcol]
    simp [Shoe.cards])]
  rw [List.drop_zero, hcol]
  have : ((s.Decks.map Deck.Cards).flatten).length = (randShuffle rnd s.cards).length := by
    rw [randShuffle_length]
    rfl
  rw [this, List.take_length]
  rfl

/-- C15: for every shoe and every sequence of random numbers, the cards of
the shoe after `Shuffle` are a permutation of the cards before (the same
multiset: every card occurs the same number of times); the number of decks
and the size of each deck are unchanged. -/
theorem shuffle_is_permutation (s : Shoe) (rnd : Nat → Nat) :
    List.Perm (s.Shuffle rnd).cards s.cards
      ∧ (∀ c : Card, (s.Shuffle rnd).cards.count c = s.cards.count c)
      ∧ (s.Shuffle rnd).Decks.length = s.Decks.length
      ∧ (s.Shuffle rnd).Decks.map (fun d => d.Cards.length)
          = s.Decks.map (fun d => d.Cards.length) := by
  have hp : List.Perm (s.Shuffle rnd).cards s.cards := by
    rw [Shoe.shuffle_cards]
    exact randShuffle_perm rnd s.cards
  have hs := distributeCards_sizes (randShuffle rnd (collectCards s.Decks [])) s.Decks 0
  refine ⟨hp, fun c => List.Perm.count_eq hp c, ?_, hs⟩
  have := congrArg List.length hs
  simpa [Shoe.Shuffle] using this

/-! ## The burn -/

theorem newShoe_full (N : Nat) (iter : Nat → Nat → List (String × Int))
    (hiter : ∀ i k, MapOrder (iter i k)) :
    (∀ d ∈ (NewShoe (N : Int) iter).Decks, FullDeck d)
      ∧ (NewShoe (N : Int) iter).Decks.length = N := by
  have h := newShoeLoop_full iter hiter N 0 [] (by simp)
  exact ⟨by simpa [NewShoe] using h.1, by simpa [NewShoe] using h.2⟩

theorem newBaccaratGame_burn (N : Nat) (hN : 1 ≤ N)
    (iter : Nat → Nat → List (String × Int)) (hiter : ∀ i k, MapOrder (iter i k))
    (rnd : Nat → Nat) :
    (NewShoe (N : Int) iter).cards.length = 52 * N
      ∧ ((NewShoe (N : Int) iter).Shuffle rnd).cards.length = 52 * N
      ∧ ∃ topCard rest g,
          ((NewShoe (N : Int) iter).Shuffle rnd).cards = topCard :: rest
          ∧ 1 ≤ topCard.Value ∧ topCard.Value ≤ 10
          ∧ NewBaccaratGame (N : Int) iter rnd = some g
          ∧ g.Shoe.cards
              = ((NewShoe (N : Int) iter).Shuffle rnd).cards.drop (topCard.Value.toNat + 1)
          ∧ (g.Shoe.cards.length : Int) = 52 * (N : Int) - 1 - topCard.Value := by
  obtain ⟨hfull0, hdecks0⟩ := newShoe_full N iter hiter
  have hlen0 : (NewShoe (N : Int) iter).cards.length = 52 * N := by
    rw [Shoe.cards, flatten_length_of_full _ hfull0, hdecks0]
  have hfull := Shoe.shuffle_full (NewShoe (N : Int) iter) rnd hfull0
  have hne := Shoe.noEmpty_of_full _ hfull.1
  have hlen : ((NewShoe (N : Int) iter).Shuffle rnd).cards.length = 52 * N := by
    rw [Shoe.shuffle_cards, randShuffle_length, hlen0]
  have hvalid := Shoe.cards_valid_of_full _ hfull.1
  refine ⟨hlen0, hlen, ?_⟩
  cases hcs : ((NewShoe (N : Int) iter).Shuffle rnd).cards with
  | nil => rw [hcs] at hlen; simp at hlen; omega
  | cons topCard rest =>
    obtain ⟨s1, hdraw, hc1, hne1, -⟩ := Shoe.draw_of_cards hne hcs
    have htop : ValidCard topCard := hvalid topCard (by rw [hcs]; simp)
    have hrest : rest.length + 1 = 52 * N := by
      rw [hcs] at hlen
      simpa using hlen
    have hk : topCard.Value.toNat ≤ s1.cards.length := by
      rw [hc1]
      have := htop.2
      omega
    obtain ⟨s2, hb, hc2, -, -⟩ := burnLoop_of_cards _ s1 hne1 hk
    refine ⟨topCard, rest, ⟨s2, [], [], newStat, true⟩, rfl, htop.1, htop.2, ?_, ?_, ?_⟩
    · simp only [NewBaccaratGame, hdraw, hb]
    · show s2.cards = _
      rw [hc2, hc1]
      simp
    · show (s2.cards.length : Int) = _
      rw [hc2, hc1, List.length_drop]
      have h1 := htop.1
      have h2 := htop.2
      omega

/-- C14: for every `N >= 1`, every map order and every shuffle, `NewShoe(N)`
holds exactly `52 * N` cards (and so does the shuffled shoe), and
`NewBaccaratGame(N)` returns a game whose shoe holds the shuffled sequence
without its first `K + 1` cards, that is `52 * N - 1 - K` cards, where `K`
(between 1 and 10) is the pip value of the first card of the shuffled shoe. -/
theorem burn_leaves_shuffled_suffix (N : Nat) (hN : 1 ≤ N)
    (iter : Nat → Nat → List (String × Int)) (hiter : ∀ i k, MapOrder (iter i k))
    (rnd : Nat → Nat) :
    (NewShoe (N : Int) iter).cards.length = 52 * N
      ∧ ((NewShoe (N : Int) iter).Shuffle rnd).cards.length = 52 * N
      ∧ ∃ topCard rest g,
          ((NewShoe (N : Int) iter).Shuffle rnd).cards = topCard :: rest
          ∧ 1 ≤ topCard.Value ∧ topCard.Value ≤ 10
          ∧ NewBaccaratGame (N : Int) iter rnd = some g
          ∧ g.Shoe.cards
              = ((NewShoe (N : Int) iter).Shuffle rnd).cards.drop (topCard.Value.toNat + 1)
          ∧ (g.Shoe.cards.length : Int) = 52 * (N : Int) - 1 - topCard.Value :=
  newBaccaratGame_burn N hN iter hiter rnd

theorem burn_leaves_shuffled_suffix_witness :
    (NewShoe ((6 : Nat) : Int) canonicalOrder).cards.length = 52 * 6 :=
  (burn_leaves_shuffled_suffix 6 (by decide) canonicalOrder (fun _ _ => List.Perm.refl _)
    zeroRnd).1

/-! ## Maximum streaks at game level -/

set_option maxRecDepth 100000 in
/-- C11 fails on the code: `EvaluateGameResults` raises a maximum streak only
when it extends a streak, never when a streak starts at 1.  After the first
round of `NewBaccaratGame(2)` (a Banker win) the Banker's current streak is 1
and its maximum streak is 0; after [BANKER, BANKER, TIE, BANKER] the Banker's
maximum is 2 but the Tie maximum is 0 although one tie occurred; and after
any single recorded round all three maxima are 0 while one current streak
is 1. -/
theorem max_streak_misses_runs_of_one :
    ((NewBaccaratGame 2 canonicalOrder zeroRnd).bind BaccaratGame.PlayGame).map
        (fun x => (x.1.1, x.2.Statistics.BankerCurrentStreak,
          x.2.Statistics.BankerMaxWinStreak))
      = some (BankerWins, 1, 0)
    ∧ (drawingGame.recordRounds bankerBankerTieBanker).1
        = [BankerWins, BankerWins, Tie, BankerWins]
    ∧ (drawingGame.recordRounds bankerBankerTieBanker).2.Statistics.BankerMaxWinStreak = 2
    ∧ (drawingGame.recordRounds bankerBankerTieBanker).2.Statistics.TieMaxStreak = 0
    ∧ (∀ (g : BaccaratGame) (pl bk : List Card), g.Statistics = newStat →
        (BaccaratGame.EvaluateGameResults
            { g with Player := pl, Banker := bk }).2.Statistics.PlayerMaxWinStreak = 0
        ∧ (BaccaratGame.EvaluateGameResults
            { g with Player := pl, Banker := bk }).2.Statistics.BankerMaxWinStreak = 0
        ∧ (BaccaratGame.EvaluateGameResults
            { g with Player := pl, Banker := bk }).2.Statistics.TieMaxStreak = 0
        ∧ (BaccaratGame.EvaluateGameResults
            { g with Player := pl, Banker := bk }).2.Statistics.PlayerCurrentStreak
          + (BaccaratGame.EvaluateGameResults
            { g with Player := pl, Banker := bk }).2.Statistics.BankerCurrentStreak
          + (BaccaratGame.EvaluateGameResults
            { g with Player := pl, Banker := bk }).2.Statistics.TieCurrentStreak = 1) := by
  refine ⟨by decide, by decide, by decide, by decide, ?_⟩
  intro g pl bk hnew
  unfold BaccaratGame.EvaluateGameResults
  simp only [hnew, newStat, Bool.false_eq_true, if_false]
  split_ifs <;> simp

/-! ## Streaks at bet level -/

theorem Player.placeBet_streaks (p : Player) :
    p.placeBet.Stats.CurrentWinStreak = p.Stats.CurrentWinStreak
      ∧ p.placeBet.Stats.CurrentLossStreak = p.Stats.CurrentLossStreak
      ∧ p.placeBet.Stats.CurrentTieStreak = p.Stats.CurrentTieStreak := by
  unfold Player.placeBet
  simp only
  split_ifs <;> simp

theorem Player.resolve_streaks (p : Player) (res playerGuess : Int) :
    (betResult res playerGuess = BetResult.win →
        (p.resolve res playerGuess).Stats.CurrentWinStreak = p.Stats.CurrentWinStreak + 1
        ∧ (p.resolve res playerGuess).Stats.CurrentLossStreak = 0
        ∧ (p.resolve res playerGuess).Stats.CurrentTieStreak = 0)
    ∧ (betResult res playerGuess = BetResult.loss →
        (p.resolve res playerGuess).Stats.CurrentLossStreak = p.Stats.CurrentLossStreak + 1
        ∧ (p.resolve res playerGuess).Stats.CurrentWinStreak = 0
        ∧ (p.resolve res playerGuess).Stats.CurrentTieStreak = 0)
    ∧ (betResult res playerGuess = BetResult.tie →
        (p.resolve res playerGuess).Stats.CurrentTieStreak = p.Stats.CurrentTieStreak + 1
        ∧ (p.resolve res playerGuess).Stats.CurrentWinStreak = p.Stats.CurrentWinStreak
        ∧ (p.resolve res playerGuess).Stats.CurrentLossStreak = p.Stats.CurrentLossStreak) := by
  by_cases h1 : res = playerGuess
  · simp only [betResult, Player.resolve, h1, if_true]
    refine ⟨fun _ => ?_, fun h => by simp at h, fun h => by simp at h⟩
    split_ifs <;> simp
  · by_cases h2 : res = Tie
    · subst h2
      simp only [betResult, Player.resolve, h1, if_true, if_false]
      refine ⟨fun h => by simp at h, fun h => by simp at h, fun _ => ?_⟩
      split_ifs <;> simp
    · simp only [betResult, Player.resolve, h1, h2, if_false]
      refine ⟨fun h => by simp at h, fun _ => ?_, fun h => by simp at h⟩
      split_ifs <;> simp

theorem trailingCount_append (c x : BetResult) (l : List BetResult) :
    trailingCount c (l ++ [x]) = if x = c then trailingCount c l + 1 else 0 := by
  unfold trailingCount
  simp only [List.reverse_append, List.reverse_cons, List.reverse_nil, List.nil_append,
    List.singleton_append]
  by_cases h : x = c
  · simp [h]
  · simp [h]

theorem withoutTies_append (x : BetResult) (l : List BetResult) :
    withoutTies (l ++ [x])
      = if x = BetResult.tie then withoutTies l else withoutTies l ++ [x] := by
  unfold withoutTies
  by_cases h : x = BetResult.tie
  · simp [h]
  · simp [h, List.filter_append]

theorem Player.recordResults_streaks :
    ∀ (rs : List (Int × Nat)) (p : Player) (hist : List BetResult),
      BetStreakInv p.Stats hist →
      BetStreakInv (p.recordResults rs).Stats
        (hist ++ rs.map (fun r => betResult r.1 (Guess r.2))) := by
  intro rs
  induction rs with
  | nil => intro p hist h; simpa [Player.recordResults] using h
  | cons r rest ih =>
    intro p hist h
    obtain ⟨hT, hW, hL⟩ := h
    obtain ⟨pW, pL, pT⟩ := Player.placeBet_streaks p
    obtain ⟨sW, sL, sT⟩ := Player.resolve_streaks p.placeBet r.1 (Guess r.2)
    have hstep : BetStreakInv (p.placeBet.resolve r.1 (Guess r.2)).Stats
        (hist ++ [betResult r.1 (Guess r.2)]) := by
      unfold BetStreakInv
      cases hb : betResult r.1 (Guess r.2) with
      | win =>
        obtain ⟨h1, h2, h3⟩ := sW hb
        simp [trailingCount_append, withoutTies_append, h1, h2, h3, pW, hW]
      | loss =>
        obtain ⟨h1, h2, h3⟩ := sL hb
        simp [trailingCount_append, withoutTies_append, h1, h2, h3, pL, hL]
      | tie =>
        obtain ⟨h1, h2, h3⟩ := sT hb
        simp [trailingCount_append, withoutTies_append, h1, h2, h3, pT, pW, pL, hT, hW, hL]
    have := ih _ _ hstep
    simpa [Player.recordResults] using this

set_option maxRecDepth 100000 in
/-- C12 fails on the code: the tie branch of `PlayTheGame` does not reset the
current win streak or the current loss streak, while the win branch and the
loss branch next to it, and the tie branch of `EvaluateGameResults`, clear
the other categories.  After the results win, tie the current win streak is
still 1 (not 0), and after win, tie, win it is 2 (not 1).  The same happens in
`PlayTheGame` itself: on `NewBaccaratGame 2` with guesses that match every
decided result, the 13 rounds are 12 wins and one tie (the seventh round) and
the loop ends with a current win streak of 12, not 6. -/
theorem tie_keeps_win_streak :
    ((NewPlayer none 500000 10 5000000).recordResults [(0, 0), (2, 0)]).Stats.CurrentWinStreak
        = 1
    ∧ ¬ ((NewPlayer none 500000 10 5000000).recordResults
          [(0, 0), (2, 0)]).Stats.CurrentWinStreak = 0
    ∧ ((NewPlayer none 500000 10 5000000).recordResults
          [(0, 0), (2, 0), (0, 0)]).Stats.CurrentWinStreak = 2
    ∧ ((NewBaccaratGame 2 canonicalOrder zeroRnd).bind (fun g =>
          (Player.PlayTheGame matchingGuesses 20 0
            (NewPlayer (some g) 500000 10 5000000)).final)).map
        (fun p => (p.Stats.WinCount, p.Stats.TieCount, p.Stats.CurrentWinStreak))
      = some (12, 1, 12) := by
  refine ⟨by decide, by decide, by decide, by decide⟩

/-- The bet-level streaks as the code computes them: a win adds 1 to the
current win streak and clears the loss and tie streaks, a loss adds 1 to the
current loss streak and clears the win and tie streaks, a tie adds 1 to the
current tie streak and touches neither the win nor the loss streak.  So from
reset streaks the current tie streak is the run of ties that ends the
sequence, and the current win (loss) streak is the run of wins (losses) that
ends the sequence once its ties are left out. -/
theorem Player.recordResults_streaks_from_reset (p : Player) (rs : List (Int × Nat))
    (hreset : p.Stats.CurrentWinStreak = 0 ∧ p.Stats.CurrentLossStreak = 0
      ∧ p.Stats.CurrentTieStreak = 0) :
    (p.recordResults rs).Stats.CurrentTieStreak
        = trailingCount BetResult.tie (rs.map (fun r => betResult r.1 (Guess r.2)))
    ∧ (p.recordResults rs).Stats.CurrentWinStreak
        = trailingCount BetResult.win
            (withoutTies (rs.map (fun r => betResult r.1 (Guess r.2))))
    ∧ (p.recordResults rs).Stats.CurrentLossStreak
        = trailingCount BetResult.loss
            (withoutTies (rs.map (fun r => betResult r.1 (Guess r.2))))
    ∧ (∀ (q : Player) (res : Int) (raw : Nat),
        (betResult res (Guess raw) = BetResult.win →
          (q.placeBet.resolve res (Guess raw)).Stats.CurrentWinStreak
              = q.Stats.CurrentWinStreak + 1
          ∧ (q.placeBet.resolve res (Guess raw)).Stats.CurrentLossStreak = 0
          ∧ (q.placeBet.resolve res (Guess raw)).Stats.CurrentTieStreak = 0)
        ∧ (betResult res (Guess raw) = BetResult.loss →
          (q.placeBet.resolve res (Guess raw)).Stats.CurrentLossStreak
              = q.Stats.CurrentLossStreak + 1
          ∧ (q.placeBet.resolve res (Guess raw)).Stats.CurrentWinStreak = 0
          ∧ (q.placeBet.resolve res (Guess raw)).Stats.CurrentTieStreak = 0)
        ∧ (betResult res (Guess raw) = BetResult.tie →
          (q.placeBet.resolve res (Guess raw)).Stats.CurrentTieStreak
              = q.Stats.CurrentTieStreak + 1
          ∧ (q.placeBet.resolve res (Guess raw)).Stats.CurrentWinStreak
              = q.Stats.CurrentWinStreak
          ∧ (q.placeBet.resolve res (Guess raw)).Stats.CurrentLossStreak
              = q.Stats.CurrentLossStreak)) := by
  have h0 : BetStreakInv p.Stats [] := by
    simp [BetStreakInv, trailingCount, withoutTies, hreset.1, hreset.2.1, hreset.2.2]
  have h := Player.recordResults_streaks rs p [] h0
  rw [List.nil_append] at h
  refine ⟨h.1, h.2.1, h.2.2, ?_⟩
  intro q res raw
  obtain ⟨pW, pL, pT⟩ := Player.placeBet_streaks q
  obtain ⟨sW, sL, sT⟩ := Player.resolve_streaks q.placeBet res (Guess raw)
  refine ⟨fun hb => ?_, fun hb => ?_, fun hb => ?_⟩
  · rw [← pW]; exact sW hb
  · rw [← pL]; exact sL hb
  · rw [← pT, ← pW, ← pL]; exact sT hb

/-! ## Termination of the betting loop -/

theorem Shoe.draw_cards {s s1 : Shoe} {c : Card} (h : s.Draw = some (c, s1)) :
    s.cards = c :: s1.cards := by
  obtain ⟨decks⟩ := s
  cases decks with
  | nil => simp [Shoe.Draw] at h
  | cons d ds =>
    obtain ⟨cs⟩ := d
    cases cs with
    | nil => simp [Shoe.Draw] at h
    | cons t cs =>
      cases cs with
      | nil =>
        simp only [Shoe.Draw, List.length_nil, if_true, Option.some.injEq, Prod.mk.injEq] at h
        obtain ⟨rfl, rfl⟩ := h
        simp [Shoe.cards]
      | cons u cs =>
        simp only [Shoe.Draw, List.length_cons, Nat.add_one_ne_zero, if_false,
          Option.some.injEq, Prod.mk.injEq] at h
        obtain ⟨rfl, rfl⟩ := h
        simp [Shoe.cards]

theorem BaccaratGame.dealHands_cases {g g1 : BaccaratGame} (h : g.DealHands = some g1) :
    (g.Shoe.Decks.length = 1 ∧ g1 = { g with canContinue := false })
      ∨ (g.Shoe.Decks.length ≠ 1 ∧ g1.canContinue = g.canContinue
          ∧ g1.Shoe.cards.length + 4 = g.Shoe.cards.length) := by
  unfold BaccaratGame.DealHands at h
  split_ifs at h with hlen
  · simp only [Option.some.injEq] at h
    exact Or.inl ⟨hlen, h.symm⟩
  · right
    cases h1 : g.Shoe.Draw with
    | none => simp [h1] at h
    | some x1 =>
      simp only [h1] at h
      cases h2 : x1.2.Draw with
      | none => simp [h2] at h
      | some x2 =>
        simp only [h2] at h
        cases h3 : x2.2.Draw with
        | none => simp [h3] at h
        | some x3 =>
          simp only [h3] at h
          cases h4 : x3.2.Draw with
          | none => simp [h4] at h
          | some x4 =>
            simp only [h4, Option.some.injEq] at h
            have e1 := @Shoe.draw_cards _ x1.2 x1.1 h1
            have e2 := @Shoe.draw_cards _ x2.2 x2.1 h2
            have e3 := @Shoe.draw_cards _ x3.2 x3.1 h3
            have e4 := @Shoe.draw_cards _ x4.2 x4.1 h4
            refine ⟨hlen, by rw [← h], ?_⟩
            rw [← h, e1, e2, e3, e4]
            simp

theorem BaccaratGame.playerDrawStep_frame {g g2 : BaccaratGame} {playerScore : Int}
    {pd : Bool} {pv : Int} (h : g.playerDrawStep playerScore = some (g2, pd, pv)) :
    g2.canContinue = g.canContinue ∧ g2.Shoe.cards.length ≤ g.Shoe.cards.length := by
  unfold BaccaratGame.playerDrawStep at h
  split_ifs at h
  · cases h1 : g.Shoe.Draw with
    | none => simp [h1] at h
    | some x1 =>
      simp only [h1, List.getLast?_concat, Option.some.injEq, Prod.mk.injEq] at h
      have e1 := @Shoe.draw_cards _ x1.2 x1.1 h1
      rw [← h.1, e1]
      exact ⟨rfl, by simp⟩
  · simp only [Option.some.injEq, Prod.mk.injEq] at h
    rw [← h.1]
    exact ⟨rfl, le_refl _⟩

theorem BaccaratGame.bankerDrawStep_frame {g g2 : BaccaratGame} {bankerScore : Int}
    {pd : Bool} {pv : Int} (h : g.bankerDrawStep bankerScore pd pv = some g2) :
    g2.canContinue = g.canContinue ∧ g2.Shoe.cards.length ≤ g.Shoe.cards.length := by
  unfold BaccaratGame.bankerDrawStep at h
  split_ifs at h
  · cases h1 : g.Shoe.Draw with
    | none => simp [h1] at h
    | some x1 =>
      simp only [h1, Option.some.injEq] at h
      have e1 := @Shoe.draw_cards _ x1.2 x1.1 h1
      rw [← h, e1]
      exact ⟨rfl, by simp⟩
  · simp only [Option.some.injEq] at h
    rw [← h]
    exact ⟨rfl, le_refl _⟩

theorem BaccaratGame.playDealt_frame {g1 g2 : BaccaratGame} {r : GameResult}
    (h : g1.playDealt = some (r, g2)) :
    g2.canContinue = g1.canContinue ∧ g2.Shoe.cards.length ≤ g1.Shoe.cards.length := by
  unfold BaccaratGame.playDealt at h
  simp only at h
  split_ifs at h with hnat
  · simp only [Option.some.injEq, Prod.mk.injEq] at h
    rw [← h.2, (BaccaratGame.evaluateGameResults_frame g1).1,
      (BaccaratGame.evaluateGameResults_frame g1).2.2.2]
    exact ⟨rfl, le_refl _⟩
  · cases hps : g1.playerDrawStep (EvaluateHand g1.Player) with
    | none => simp [hps] at h
    | some x =>
      obtain ⟨g2a, pd, pv⟩ := x
      simp only [hps] at h
      cases hbs : g2a.bankerDrawStep (EvaluateHand g1.Banker) pd pv with
      | none => simp [hbs] at h
      | some g3 =>
        simp only [hbs, Option.some.injEq, Prod.mk.injEq] at h
        rw [← h.2, (BaccaratGame.evaluateGameResults_frame g3).1,
          (BaccaratGame.evaluateGameResults_frame g3).2.2.2]
        obtain ⟨hc1, hl1⟩ := BaccaratGame.playerDrawStep_frame hps
        obtain ⟨hc2, hl2⟩ := BaccaratGame.bankerDrawStep_frame hbs
        exact ⟨hc2.trans hc1, le_trans hl2 hl1⟩

theorem BaccaratGame.playGame_measure {g g2 : BaccaratGame} {r : GameResult}
    (hcont : g.canContinue = true) (h : g.PlayGame = some (r, g2)) :
    gameMeasure g2 < gameMeasure g
      ∧ (g2.canContinue = true → g2.Shoe.cards.length + 4 ≤ g.Shoe.cards.length) := by
  rw [BaccaratGame.playGame_eq g hcont] at h
  obtain ⟨g1, hd, hp⟩ := Option.bind_eq_some.1 h
  obtain ⟨hc2, hl2⟩ := BaccaratGame.playDealt_frame hp
  rcases BaccaratGame.dealHands_cases hd with ⟨-, hg1⟩ | ⟨-, hc1, hl1⟩
  · have hf : g2.canContinue = false := by rw [hc2, hg1]
    refine ⟨by simp [gameMeasure, hf, hcont], fun ht => ?_⟩
    rw [hf] at ht
    exact absurd ht (by simp)
  · have ht : g2.canContinue = true := by
      rw [hc2, hc1]
      exact hcont
    have hl : g2.Shoe.cards.length + 4 ≤ g.Shoe.cards.length := by
      have : g1.Shoe.cards.length + 4 = g.Shoe.cards.length := hl1
      omega
    refine ⟨?_, fun _ => hl⟩
    simp only [gameMeasure, ht, hcont, if_true]
    omega

theorem Player.resolve_game (p : Player) (res playerGuess : Int) :
    (p.resolve res playerGuess).BaccaratGame = p.BaccaratGame := by
  unfold Player.resolve
  simp only
  split_ifs <;> rfl

theorem Player.playTheGame_stop (guess : Nat → Nat) (i : Nat) (p : Player) (g : Venture.BaccaratGame)
    (hgame : p.BaccaratGame = some g)
    (hstop : g.canContinue = false ∨ p.CurrentBankroll < p.MinimumBet) :
    ∀ fuel, 1 ≤ fuel → Player.PlayTheGame guess fuel i p = LoopResult.done p := by
  intro fuel hf
  cases fuel with
  | zero => omega
  | succ f =>
    rcases hstop with h | h
    · simp [Player.PlayTheGame, hgame, h]
    · by_cases hc : g.canContinue = true
      · simp [Player.PlayTheGame, hgame, hc, h]
      · simp [Player.PlayTheGame, hgame, hc]

theorem Player.playTheGame_round (guess : Nat → Nat) (i fuel : Nat) (p : Player)
    (g g1 : Venture.BaccaratGame) (r : GameResult) (hgame : p.BaccaratGame = some g)
    (hcont : g.canContinue = true) (hb : ¬ p.CurrentBankroll < p.MinimumBet)
    (hplay : g.PlayGame = some (r, g1)) :
    Player.PlayTheGame guess (fuel + 1) i p
      = Player.PlayTheGame guess fuel (i + 1)
          ({ p.placeBet with BaccaratGame := some g1 }.resolve r.1 (Guess (guess i))) := by
  simp [Player.PlayTheGame, hgame, hcont, hb, Player.playRound, hplay]

theorem Player.playTheGame_terminates_with (guess : Nat → Nat) (Inv : Player → Prop)
    (hstep : ∀ (p : Player) (g g1 : Venture.BaccaratGame) (r : GameResult) (raw : Nat),
      Inv p → p.BaccaratGame = some g → g.canContinue = true →
      ¬ p.CurrentBankroll < p.MinimumBet → g.PlayGame = some (r, g1) →
      Inv ({ p.placeBet with BaccaratGame := some g1 }.resolve r.1 (Guess raw))) :
    ∀ (m i : Nat) (p : Player) (g : Venture.BaccaratGame),
      p.BaccaratGame = some g → SafeGame g → gameMeasure g ≤ m → Inv p →
      ∃ p1, Inv p1
        ∧ ∀ fuel, m + 1 ≤ fuel → Player.PlayTheGame guess fuel i p = LoopResult.done p1 := by
  intro m
  induction m with
  | zero =>
    intro i p g hgame _ hm hinv
    have hcc : g.canContinue = false := by
      by_cases hc : g.canContinue = true
      · simp [gameMeasure, hc] at hm
      · simpa using hc
    exact ⟨p, hinv, fun fuel hf =>
      Player.playTheGame_stop guess i p g hgame (Or.inl hcc) fuel (by omega)⟩
  | succ n ih =>
    intro i p g hgame hsafe hm hinv
    by_cases hcont : g.canContinue = true
    · by_cases hb : p.CurrentBankroll < p.MinimumBet
      · exact ⟨p, hinv, fun fuel hf =>
          Player.playTheGame_stop guess i p g hgame (Or.inr hb) fuel (by omega)⟩
      · obtain ⟨r, g1, hplay, hsafe1⟩ := BaccaratGame.playGame_total g hsafe
        have hlt := (BaccaratGame.playGame_measure hcont hplay).1
        have hinv1 := hstep p g g1 r (guess i) hinv hgame hcont hb hplay
        have hgame1 : ({ p.placeBet with BaccaratGame := some g1 }.resolve r.1
            (Guess (guess i))).BaccaratGame = some g1 := by
          rw [Player.resolve_game]
        obtain ⟨p1, hp1, hrun⟩ := ih (i + 1) _ g1 hgame1 hsafe1 (by omega) hinv1
        refine ⟨p1, hp1, fun fuel hf => ?_⟩
        cases fuel with
        | zero => omega
        | succ f =>
          rw [Player.playTheGame_round guess i f p g g1 r hgame hcont hb hplay]
          exact hrun f (by omega)
    · have hcc : g.canContinue = false := by simpa using hcont
      exact ⟨p, hinv, fun fuel hf =>
        Player.playTheGame_stop guess i p g hgame (Or.inl hcc) fuel (by omega)⟩

theorem newBaccaratGame_measure (N : Nat) (hN : 1 ≤ N)
    (iter : Nat → Nat → List (String × Int)) (hiter : ∀ i k, MapOrder (iter i k))
    (rnd : Nat → Nat) :
    ∃ g, NewBaccaratGame (N : Int) iter rnd = some g ∧ SafeGame g
      ∧ gameMeasure g + 1 ≤ 52 * N ∧ g.Statistics = newStat := by
  obtain ⟨g, hnew, hcont, hne, htf, h41, -, -, hst⟩ := newBaccaratGame_spec N hN iter hiter rnd
  obtain ⟨-, -, topCard, rest, g0, -, hk1, -, hnew0, -, hlen⟩ :=
    newBaccaratGame_burn N hN iter hiter rnd
  rw [hnew] at hnew0
  have hg : g = g0 := Option.some.inj hnew0
  subst hg
  refine ⟨g, hnew, fun _ => ⟨hne, htf, by omega⟩, ?_, hst⟩
  simp only [gameMeasure, hcont, if_true]
  omega

/-- C13: for every `N >= 1`, every map order and shuffle, every sequence of
guesses and every player who points to the game created by
`NewBaccaratGame(N)` (any bankroll, minimum bet and maximum bet), the betting
loop stops: with `52 * N` iterations of fuel or more, `PlayTheGame` returns
`done` with one and the same final player.  The reason is that every round
played from a game that can continue either ends with `canContinue` false or
removes at least four cards from the shoe. -/
theorem playTheGame_terminates (N : Nat) (hN : 1 ≤ N)
    (iter : Nat → Nat → List (String × Int)) (hiter : ∀ i k, MapOrder (iter i k))
    (rnd : Nat → Nat) (guess : Nat → Nat) :
    ∃ g, NewBaccaratGame (N : Int) iter rnd = some g
      ∧ (∀ (p : Player) (i : Nat), p.BaccaratGame = some g →
          ∃ p1, ∀ fuel, 52 * N ≤ fuel →
            Player.PlayTheGame guess fuel i p = LoopResult.done p1)
      ∧ (∀ (initialInvestment minimumBet maxBet : Int),
          ∃ p1, ∀ fuel, 52 * N ≤ fuel →
            Player.PlayTheGame guess fuel 0
              (NewPlayer (some g) initialInvestment minimumBet maxBet) = LoopResult.done p1)
      ∧ (∀ (g1 g2 : BaccaratGame) (r : GameResult),
          g1.canContinue = true → g1.PlayGame = some (r, g2) → g2.canContinue = true →
          g2.Shoe.cards.length + 4 ≤ g1.Shoe.cards.length) := by
  obtain ⟨g, hnew, hsafe, hm, -⟩ := newBaccaratGame_measure N hN iter hiter rnd
  have hall : ∀ (p : Player) (i : Nat), p.BaccaratGame = some g →
      ∃ p1, ∀ fuel, 52 * N ≤ fuel →
        Player.PlayTheGame guess fuel i p = LoopResult.done p1 := by
    intro p i hgame
    obtain ⟨p1, -, hrun⟩ := Player.playTheGame_terminates_with guess (fun _ => True)
      (fun _ _ _ _ _ _ _ _ _ _ => trivial) (gameMeasure g) i p g hgame hsafe (le_refl _)
      trivial
    exact ⟨p1, fun fuel hf => hrun fuel (by omega)⟩
  refine ⟨g, hnew, hall, fun a b c => hall _ 0 rfl, ?_⟩
  intro g1 g2 r hcont hplay hc2
  exact (BaccaratGame.playGame_measure hcont hplay).2 hc2

theorem playTheGame_terminates_witness :
    ∃ g, NewBaccaratGame ((6 : Nat) : Int) canonicalOrder zeroRnd = some g
      ∧ ∀ (initialInvestment minimumBet maxBet : Int),
          ∃ p1, ∀ fuel, 52 * 6 ≤ fuel →
            Player.PlayTheGame matchingGuesses fuel 0
              (NewPlayer (some g) initialInvestment minimumBet maxBet) = LoopResult.done p1 := by
  obtain ⟨g, hnew, -, hrun, -⟩ :=
    playTheGame_terminates 6 (by decide) canonicalOrder (fun _ _ => List.Perm.refl _)
      zeroRnd matchingGuesses
  exact ⟨g, hnew, hrun⟩

/-! ## Count consistency -/

theorem BaccaratGame.evaluateGameResults_counts (g : BaccaratGame) :
    g.EvaluateGameResults.2.Statistics.PlayerWinCount
        + g.EvaluateGameResults.2.Statistics.BankerWinCount
        + g.EvaluateGameResults.2.Statistics.TieCount
      = g.Statistics.PlayerWinCount + g.Statistics.BankerWinCount
        + g.Statistics.TieCount + 1 := by
  unfold BaccaratGame.EvaluateGameResults
  simp only
  split_ifs <;> simp <;> omega

theorem BaccaratGame.playGame_counts {g g2 : BaccaratGame} {r : GameResult}
    (hinv : CountInv g.Statistics) (h : g.PlayGame = some (r, g2)) :
    CountInv g2.Statistics
      ∧ (g.canContinue = true →
          g2.Statistics.TotalHandsPlayed = g.Statistics.TotalHandsPlayed + 1)
      ∧ (g.canContinue = false → g2 = g) := by
  by_cases hcont : g.canContinue = true
  · obtain ⟨g3, -, -, -, hg, hst⟩ := BaccaratGame.playGame_returns_settlement hcont h
    have ht := BaccaratGame.evaluateGameResults_total g3
    have hc := BaccaratGame.evaluateGameResults_counts g3
    rw [← hg] at ht hc
    have h3t : g3.Statistics.TotalHandsPlayed = g.Statistics.TotalHandsPlayed + 1 := by
      rw [hst]
    have h3p : g3.Statistics.PlayerWinCount = g.Statistics.PlayerWinCount := by rw [hst]
    have h3b : g3.Statistics.BankerWinCount = g.Statistics.BankerWinCount := by rw [hst]
    have h3c : g3.Statistics.TieCount = g.Statistics.TieCount := by rw [hst]
    unfold CountInv at hinv ⊢
    refine ⟨by omega, fun _ => by omega, fun hf => ?_⟩
    rw [hcont] at hf
    exact absurd hf (by simp)
  · have hp1 : g.PlayGame = some ((-1, -1, some "the shoe is empty"), g) := by
      simp [BaccaratGame.PlayGame, hcont]
    rw [hp1] at h
    simp only [Option.some.injEq, Prod.mk.injEq] at h
    rw [← h.2]
    exact ⟨hinv, fun ht => absurd ht hcont, fun _ => rfl⟩

theorem BaccaratGame.playGames_counts :
    ∀ (k : Nat) (g g2 : BaccaratGame) (rs : List GameResult),
      CountInv g.Statistics → g.playGames k = some (rs, g2) → CountInv g2.Statistics := by
  intro k
  induction k with
  | zero =>
    intro g g2 rs h hp
    simp only [BaccaratGame.playGames, Option.some.injEq, Prod.mk.injEq] at hp
    rw [← hp.2]
    exact h
  | succ n ih =>
    intro g g2 rs h hp
    unfold BaccaratGame.playGames at hp
    cases h1 : g.PlayGame with
    | none => simp [h1] at hp
    | some x =>
      obtain ⟨r, g1⟩ := x
      simp only [h1] at hp
      cases h2 : BaccaratGame.playGames n g1 with
      | none => simp [h2] at hp
      | some y =>
        obtain ⟨rs1, g2a⟩ := y
        simp only [h2, Option.some.injEq, Prod.mk.injEq] at hp
        rw [← hp.2]
        exact ih g1 g2a rs1 (BaccaratGame.playGame_counts h h1).1 h2

theorem Player.placeBet_total (p : Player) :
    p.placeBet.Stats.TotalHandsPlayed = p.Stats.TotalHandsPlayed + 1 := by
  unfold Player.placeBet
  simp only
  split_ifs <;> rfl

theorem Player.resolve_counts (p : Player) (res playerGuess : Int) :
    (p.resolve res playerGuess).Stats.TotalHandsPlayed = p.Stats.TotalHandsPlayed
      ∧ (p.resolve res playerGuess).Stats.WinCount + (p.resolve res playerGuess).Stats.LossCount
          + (p.resolve res playerGuess).Stats.TieCount
        = p.Stats.WinCount + p.Stats.LossCount + p.Stats.TieCount + 1 := by
  by_cases h1 : res = playerGuess
  · simp only [Player.resolve, h1, if_true]
    split_ifs <;> simp <;> omega
  · by_cases h2 : res = Tie
    · subst h2
      simp only [Player.resolve, h1, if_true, if_false]
      split_ifs <;> simp <;> omega
    · simp only [Player.resolve, h1, h2, if_false]
      split_ifs <;> simp <;> omega

theorem Player.round_counts (p : Player) (g g1 : Venture.BaccaratGame) (r : GameResult)
    (raw : Nat) (hinv : BetCountInv p) (hgame : p.BaccaratGame = some g)
    (hcont : g.canContinue = true) (hplay : g.PlayGame = some (r, g1)) :
    BetCountInv ({ p.placeBet with BaccaratGame := some g1 }.resolve r.1 (Guess raw)) := by
  obtain ⟨hsum, g0, hg0, hci, hgt⟩ := hinv
  rw [hgame] at hg0
  have hgg : g = g0 := Option.some.inj hg0
  subst hgg
  obtain ⟨hci1, ht1, -⟩ := BaccaratGame.playGame_counts hci hplay
  obtain ⟨rt, rc⟩ := Player.resolve_counts { p.placeBet with BaccaratGame := some g1 } r.1
    (Guess raw)
  obtain ⟨cw, cl, ct⟩ := Player.placeBet_counts p
  have pt := Player.placeBet_total p
  have e1 : ({ p.placeBet with BaccaratGame := some g1 } : Player).Stats = p.placeBet.Stats := rfl
  rw [e1] at rt rc
  refine ⟨by omega, g1, by rw [Player.resolve_game], hci1, ?_⟩
  have := ht1 hcont
  omega

/-- C20: the counts add up.  For every `N >= 1`, map order and shuffle,
after any number `k` of `PlayGame` calls on the game created by
`NewBaccaratGame(N)` (refused calls included) the game-level statistics
satisfy `TotalHandsPlayed = PlayerWinCount + BankerWinCount + TieCount`; and
for every player who points to that game with bet-level counts all 0,
`PlayTheGame` ends with `TotalHandsPlayed = WinCount + LossCount + TieCount`,
equal to the `TotalHandsPlayed` of the game, whose counts add up as well. -/
theorem count_consistency (N : Nat) (hN : 1 ≤ N)
    (iter : Nat → Nat → List (String × Int)) (hiter : ∀ i k, MapOrder (iter i k))
    (rnd : Nat → Nat) (guess : Nat → Nat) (k : Nat) :
    ∃ g, NewBaccaratGame (N : Int) iter rnd = some g
      ∧ (∃ rs g2, g.playGames k = some (rs, g2)
          ∧ g2.Statistics.TotalHandsPlayed
              = g2.Statistics.PlayerWinCount + g2.Statistics.BankerWinCount
                + g2.Statistics.TieCount)
      ∧ (∀ (p : Player) (i : Nat), p.BaccaratGame = some g →
          p.Stats.TotalHandsPlayed = 0 → p.Stats.WinCount = 0 → p.Stats.LossCount = 0 →
          p.Stats.TieCount = 0 →
          ∃ p1 g1, (∀ fuel, 52 * N ≤ fuel →
              Player.PlayTheGame guess fuel i p = LoopResult.done p1)
            ∧ p1.Stats.TotalHandsPlayed
                = p1.Stats.WinCount + p1.Stats.LossCount + p1.Stats.TieCount
            ∧ p1.BaccaratGame = some g1
            ∧ g1.Statistics.TotalHandsPlayed = p1.Stats.TotalHandsPlayed
            ∧ g1.Statistics.TotalHandsPlayed
                = g1.Statistics.PlayerWinCount + g1.Statistics.BankerWinCount
                  + g1.Statistics.TieCount) := by
  obtain ⟨g, hnew, hsafe, hm, hst⟩ := newBaccaratGame_measure N hN iter hiter rnd
  have hci : CountInv g.Statistics := by
    rw [hst]
    simp [CountInv, newStat]
  refine ⟨g, hnew, ?_, ?_⟩
  · obtain ⟨rs, g2, hplay, -, -⟩ := BaccaratGame.playGames_total k g hsafe
    exact ⟨rs, g2, hplay, BaccaratGame.playGames_counts k g g2 rs hci hplay⟩
  · intro p i hgame h0 hw hl ht
    have hinv : BetCountInv p := by
      refine ⟨by omega, g, hgame, hci, ?_⟩
      rw [hst, h0]
      rfl
    obtain ⟨p1, hp1, hrun⟩ := Player.playTheGame_terminates_with guess BetCountInv
      (fun q g0 g1 r raw hq hg0 hc _ hpl => Player.round_counts q g0 g1 r raw hq hg0 hc hpl)
      (gameMeasure g) i p g hgame hsafe (le_refl _) hinv
    obtain ⟨hsum, g1, hg1, hc1, ht1⟩ := hp1
    exact ⟨p1, g1, fun fuel hf => hrun fuel (by omega), hsum, hg1, ht1, hc1⟩

theorem count_consistency_witness :
    ∃ g, NewBaccaratGame ((6 : Nat) : Int) canonicalOrder zeroRnd = some g
      ∧ ∃ rs g2, g.playGames 100 = some (rs, g2)
          ∧ g2.Statistics.TotalHandsPlayed
              = g2.Statistics.PlayerWinCount + g2.Statistics.BankerWinCount
                + g2.Statistics.TieCount := by
  obtain ⟨g, hnew, hgame, -⟩ :=
    count_consistency 6 (by decide) canonicalOrder (fun _ _ => List.Perm.refl _)
      zeroRnd matchingGuesses 100
  exact ⟨g, hnew, hgame⟩

/-! ## The money of one round of the betting loop -/

theorem i64_eq_iff (x : Int) : i64 x = x ↔ fits64 x := by
  unfold i64 fits64
  constructor
  · intro h
    omega
  · intro h
    omega

theorem Player.placeBet_frame (p : Player) :
    p.placeBet.MinimumBet = p.MinimumBet ∧ p.placeBet.MaxBet = p.MaxBet
      ∧ p.placeBet.Stats.MaxBet
          = (if p.placeBet.CurrentBet > p.Stats.MaxBet then p.placeBet.CurrentBet
             else p.Stats.MaxBet) := by
  unfold Player.placeBet
  simp only
  split_ifs <;> simp_all

theorem Player.placeBet_maxBet (p : Player) :
    p.placeBet.Stats.MaxBet = max p.Stats.MaxBet p.placeBet.CurrentBet := by
  rw [(Player.placeBet_frame p).2.2]
  simp only [max_def]
  split_ifs <;> omega

theorem Player.resolve_money (p : Player) (res playerGuess : Int) :
    (p.resolve res playerGuess).CurrentBankroll
        = (if res = playerGuess then i64 (p.CurrentBankroll + i64 (p.CurrentBet * 2))
           else if res = Tie then i64 (p.CurrentBankroll + p.CurrentBet)
           else p.CurrentBankroll)
      ∧ (p.resolve res playerGuess).Stats.MaxBet = p.Stats.MaxBet := by
  by_cases h1 : res = playerGuess
  · simp only [Player.resolve, h1, if_true]
    split_ifs <;> simp
  · by_cases h2 : res = Tie
    · subst h2
      simp only [Player.resolve, h1, if_true, if_false]
      split_ifs <;> simp
    · simp only [Player.resolve, h1, h2, if_false]
      split_ifs <;> simp

theorem Player.nextBet_exact (p : Player) (hinv : BetInv p)
    (hguard : ¬ p.CurrentBankroll < p.MinimumBet) :
    (if p.WonLastHand = true then p.MinimumBet
      else if p.TiedLastHand = true then p.CurrentBet
      else i64 (p.CurrentBet * 2)) = nextBet p
    ∧ 0 ≤ nextBet p := by
  obtain ⟨h1, h2, h3, h4, h5, h6⟩ := hinv
  have h7 := h6 (by omega)
  unfold nextBet at h7 ⊢
  cases hw : p.WonLastHand with
  | true =>
    simp only [if_true]
    exact ⟨trivial, h1⟩
  | false =>
    cases ht : p.TiedLastHand with
    | true =>
      simp only [Bool.false_eq_true, if_true, if_false]
      exact ⟨trivial, h5⟩
    | false =>
      simp only [hw, ht, Bool.false_eq_true, if_false] at h7 ⊢
      have hfit : fits64 (p.CurrentBet * 2) := by
        unfold fits64
        constructor <;> omega
      rw [i64_of_fits hfit]
      exact ⟨rfl, by omega⟩

theorem Player.placeBet_bounds (p : Player) (hinv : BetInv p)
    (hguard : ¬ p.CurrentBankroll < p.MinimumBet) :
    p.placeBet.CurrentBet = min (min (nextBet p) p.MaxBet) p.CurrentBankroll
      ∧ 0 ≤ p.placeBet.CurrentBet
      ∧ p.placeBet.CurrentBet ≤ p.CurrentBankroll
      ∧ p.placeBet.CurrentBet ≤ nextBet p
      ∧ p.placeBet.CurrentBankroll = p.CurrentBankroll - p.placeBet.CurrentBet := by
  obtain ⟨hB, hBmin⟩ := Player.nextBet_exact p hinv hguard
  obtain ⟨h1, h2, h3, h4, h5, h6⟩ := hinv
  have hb := Player.placeBet_currentBet p
  rw [hB] at hb
  have hr := Player.placeBet_bankroll p
  have hbnd : 0 ≤ p.placeBet.CurrentBet
      ∧ p.placeBet.CurrentBet ≤ p.CurrentBankroll
      ∧ p.placeBet.CurrentBet ≤ nextBet p := by
    rw [hb]
    simp only [min_def]
    split_ifs <;> omega
  obtain ⟨b1, b3, b4⟩ := hbnd
  refine ⟨hb, b1, b3, b4, ?_⟩
  rw [hr]
  apply i64_of_fits
  unfold fits64
  constructor <;> omega

theorem Player.round_money (p : Player) (game : Option Venture.BaccaratGame)
    (res playerGuess : Int) (hinv : BetInv p)
    (hguard : ¬ p.CurrentBankroll < p.MinimumBet) :
    BetInv ({ p.placeBet with BaccaratGame := game }.resolve res playerGuess)
      ∧ ({ p.placeBet with BaccaratGame := game }.resolve res playerGuess).CurrentBankroll
          = (if res = playerGuess then
               (if p.CurrentBankroll + p.placeBet.CurrentBet < 2 ^ 63
                then p.CurrentBankroll + p.placeBet.CurrentBet
                else p.CurrentBankroll + p.placeBet.CurrentBet - 2 ^ 64)
             else if res = Tie then p.CurrentBankroll
             else p.CurrentBankroll - p.placeBet.CurrentBet)
      ∧ ({ p.placeBet with BaccaratGame := game }.resolve res playerGuess).Stats.MaxBet
          = max p.Stats.MaxBet p.placeBet.CurrentBet
      ∧ ({ p.placeBet with BaccaratGame := game }.resolve res playerGuess).CurrentBet
          = p.placeBet.CurrentBet
      ∧ ({ p.placeBet with BaccaratGame := game }.resolve res playerGuess).MinimumBet
          = p.MinimumBet
      ∧ ({ p.placeBet with BaccaratGame := game }.resolve res playerGuess).MaxBet
          = p.MaxBet
      ∧ ({ p.placeBet with BaccaratGame := game }.resolve res playerGuess).WonLastHand
          = decide (res = playerGuess)
      ∧ ({ p.placeBet with BaccaratGame := game }.resolve res playerGuess).TiedLastHand
          = (!decide (res = playerGuess) && decide (res = Tie)) := by
  obtain ⟨b0, b1, b3, b4, b5⟩ := Player.placeBet_bounds p hinv hguard
  obtain ⟨h1, h2, h3, h4, h5, h6⟩ := hinv
  have h7 := h6 (by omega)
  obtain ⟨f1, f2, f3⟩ := Player.placeBet_frame p
  obtain ⟨r1, r2, r3, r4, r5⟩ :=
    Player.resolve_frame { p.placeBet with BaccaratGame := game } res playerGuess
  obtain ⟨m1, m2⟩ :=
    Player.resolve_money { p.placeBet with BaccaratGame := game } res playerGuess
  have e1 : ({ p.placeBet with BaccaratGame := game } : Player).CurrentBet
      = p.placeBet.CurrentBet := rfl
  have e2 : ({ p.placeBet with BaccaratGame := game } : Player).CurrentBankroll
      = p.placeBet.CurrentBankroll := rfl
  have e3 : ({ p.placeBet with BaccaratGame := game } : Player).MinimumBet
      = p.placeBet.MinimumBet := rfl
  have e4 : ({ p.placeBet with BaccaratGame := game } : Player).MaxBet
      = p.placeBet.MaxBet := rfl
  have e5 : ({ p.placeBet with BaccaratGame := game } : Player).Stats
      = p.placeBet.Stats := rfl
  rw [e1] at r1 m1
  rw [e2] at m1
  rw [e3, f1] at r2
  rw [e4, f2] at r3
  rw [e5, Player.placeBet_maxBet] at m2
  have hwin : i64 (p.placeBet.CurrentBankroll + i64 (p.placeBet.CurrentBet * 2))
      = (if p.CurrentBankroll + p.placeBet.CurrentBet < 2 ^ 63
         then p.CurrentBankroll + p.placeBet.CurrentBet
         else p.CurrentBankroll + p.placeBet.CurrentBet - 2 ^ 64) := by
    rw [b5]
    unfold i64
    split_ifs <;> omega
  have hpush : i64 (p.placeBet.CurrentBankroll + p.placeBet.CurrentBet)
      = p.CurrentBankroll := by
    rw [b5, Int.sub_add_cancel]
    apply i64_of_fits
    unfold fits64
    constructor <;> omega
  have hBank : ({ p.placeBet with BaccaratGame := game }.resolve res
      playerGuess).CurrentBankroll
        = (if res = playerGuess then
             (if p.CurrentBankroll + p.placeBet.CurrentBet < 2 ^ 63
              then p.CurrentBankroll + p.placeBet.CurrentBet
              else p.CurrentBankroll + p.placeBet.CurrentBet - 2 ^ 64)
           else if res = Tie then p.CurrentBankroll
           else p.CurrentBankroll - p.placeBet.CurrentBet) := by
    rw [m1, hwin, hpush, b5]
  refine ⟨?_, hBank, m2, r1, r2, r3, r4, r5⟩
  unfold BetInv nextBet
  rw [hBank, r1, r2, r3, r4, r5]
  by_cases hw : res = playerGuess
  · rw [if_pos hw, decide_eq_true hw]
    simp only [if_true]
    refine ⟨h1, h2, ?_, ?_, b1, ?_⟩
    · split_ifs <;> omega
    · split_ifs <;> omega
    · intro _
      split_ifs <;> omega
  · rw [if_neg hw, decide_eq_false hw]
    by_cases ht : res = Tie
    · rw [if_pos ht, decide_eq_true ht]
      simp only [Bool.not_false, Bool.and_self, Bool.false_eq_true, if_true, if_false]
      exact ⟨h1, h2, h3, h4, b1, fun _ => by omega⟩
    · rw [if_neg ht, decide_eq_false ht]
      simp only [Bool.not_false, Bool.and_false, Bool.false_eq_true, if_false]
      exact ⟨h1, h2, by omega, by omega, b1, fun _ => by omega⟩

/-! ## The record of the rounds played by the loop -/

theorem largestBet_snoc (hist : List Int) (b : Int) :
    largestBet (hist ++ [b]) = max (largestBet hist) b := by
  simp [largestBet, List.foldl_append]

theorem playerAfter_snoc (p0 : Player) (hist : List RoundRecord) (r : RoundRecord) :
    playerAfter p0 (hist ++ [r]) = r.after := by
  simp [playerAfter]

theorem Player.playTheGameLog_fst (guess : Nat → Nat) :
    ∀ (fuel i : Nat) (p : Player),
      (Player.PlayTheGameLog guess fuel i p).1 = Player.PlayTheGame guess fuel i p := by
  intro fuel
  induction fuel with
  | zero =>
    intro i p
    rfl
  | succ f ih =>
    intro i p
    unfold Player.PlayTheGameLog Player.PlayTheGame
    cases p.BaccaratGame with
    | none => rfl
    | some g =>
      simp only
      split_ifs
      · rfl
      · rfl
      · unfold Player.playRound
        cases g.PlayGame with
        | none => rfl
        | some x => exact ih (i + 1) _

theorem Player.playTheGameLog_round (guess : Nat → Nat) (i fuel : Nat) (p : Player)
    (g g1 : Venture.BaccaratGame) (r : GameResult) (hgame : p.BaccaratGame = some g)
    (hcont : g.canContinue = true) (hb : ¬ p.CurrentBankroll < p.MinimumBet)
    (hplay : g.PlayGame = some (r, g1)) :
    Player.PlayTheGameLog guess (fuel + 1) i p
      = ((Player.PlayTheGameLog guess fuel (i + 1)
            ({ p.placeBet with BaccaratGame := some g1 }.resolve r.1 (Guess (guess i)))).1,
         { before := p, result := r.1, playerGuess := Guess (guess i),
           after := { p.placeBet with BaccaratGame := some g1 }.resolve r.1
              (Guess (guess i)) }
          :: (Player.PlayTheGameLog guess fuel (i + 1)
            ({ p.placeBet with BaccaratGame := some g1 }.resolve r.1 (Guess (guess i)))).2) := by
  simp [Player.PlayTheGameLog, hgame, hcont, hb, hplay]

theorem Player.playTheGameLog_inv (guess : Nat → Nat)
    (Inv : List RoundRecord → Player → Prop)
    (hstep : ∀ (hist : List RoundRecord) (p : Player) (g1 : Venture.BaccaratGame)
      (res : Int) (raw : Nat), Inv hist p → ¬ p.CurrentBankroll < p.MinimumBet →
      Inv (hist ++ [{ before := p, result := res, playerGuess := Guess raw,
                      after := { p.placeBet with BaccaratGame := some g1 }.resolve res
                        (Guess raw) }])
        ({ p.placeBet with BaccaratGame := some g1 }.resolve res (Guess raw))) :
    ∀ (fuel i : Nat) (p : Player) (hist : List RoundRecord), Inv hist p →
      (∀ pre r post, (Player.PlayTheGameLog guess fuel i p).2 = pre ++ r :: post →
          Inv (hist ++ pre) r.before
            ∧ ¬ r.before.CurrentBankroll < r.before.MinimumBet
            ∧ ∃ (g1 : Venture.BaccaratGame) (raw : Nat), r.playerGuess = Guess raw
                ∧ r.after = { r.before.placeBet with BaccaratGame := some g1 }.resolve
                    r.result r.playerGuess)
      ∧ (∀ pf, (Player.PlayTheGameLog guess fuel i p).1 = LoopResult.done pf →
          Inv (hist ++ (Player.PlayTheGameLog guess fuel i p).2) pf) := by
  intro fuel
  induction fuel with
  | zero =>
    intro i p hist _
    refine ⟨fun pre r post h => ?_, fun pf h => ?_⟩
    · simp [Player.PlayTheGameLog] at h
    · simp [Player.PlayTheGameLog] at h
  | succ f ih =>
    intro i p hist hinv
    have hnil : ∀ res : LoopResult,
        Player.PlayTheGameLog guess (f + 1) i p = (res, []) →
        (∀ pf, res = LoopResult.done pf → pf = p) →
        (∀ pre r post, (Player.PlayTheGameLog guess (f + 1) i p).2 = pre ++ r :: post →
            Inv (hist ++ pre) r.before
              ∧ ¬ r.before.CurrentBankroll < r.before.MinimumBet
              ∧ ∃ (g1 : Venture.BaccaratGame) (raw : Nat), r.playerGuess = Guess raw
                  ∧ r.after = { r.before.placeBet with BaccaratGame := some g1 }.resolve
                      r.result r.playerGuess)
        ∧ (∀ pf, (Player.PlayTheGameLog guess (f + 1) i p).1 = LoopResult.done pf →
            Inv (hist ++ (Player.PlayTheGameLog guess (f + 1) i p).2) pf) := by
      intro res hx hfin
      rw [hx]
      refine ⟨fun pre r post h => ?_, fun pf h => ?_⟩
      · simp at h
      · have := hfin pf h
        subst this
        simpa using hinv
    cases hgame : p.BaccaratGame with
    | none =>
      exact hnil LoopResult.panicked (by simp [Player.PlayTheGameLog, hgame])
        (fun pf h => by simp at h)
    | some g =>
      by_cases hcont : g.canContinue = true
      · by_cases hb : p.CurrentBankroll < p.MinimumBet
        · exact hnil (LoopResult.done p)
            (by simp [Player.PlayTheGameLog, hgame, hcont, hb])
            (fun pf h => (LoopResult.done.inj h).symm)
        · cases hplay : g.PlayGame with
          | none =>
            exact hnil LoopResult.panicked
              (by simp [Player.PlayTheGameLog, hgame, hcont, hb, hplay])
              (fun pf h => by simp at h)
          | some rg =>
            obtain ⟨r, g1⟩ := rg
            have hx := Player.playTheGameLog_round guess i f p g g1 r hgame hcont hb hplay
            rw [hx]
            have hinv1 := hstep hist p g1 r.1 (guess i) hinv hb
            obtain ⟨i1, i2⟩ := ih (i + 1) _ _ hinv1
            refine ⟨?_, ?_⟩
            · intro pre r0 post h
              cases pre with
              | nil =>
                simp only [List.nil_append, List.cons.injEq] at h
                obtain ⟨h1, -⟩ := h
                subst h1
                refine ⟨by simpa using hinv, hb, g1, guess i, rfl, rfl⟩
              | cons a pre1 =>
                simp only [List.cons_append, List.cons.injEq] at h
                obtain ⟨h1, h2⟩ := h
                subst h1
                obtain ⟨j1, j2, j3⟩ := i1 pre1 r0 post h2
                refine ⟨?_, j2, j3⟩
                simpa [List.append_assoc] using j1
            · intro pf h
              have := i2 pf h
              simpa [List.append_assoc] using this
      · exact hnil (LoopResult.done p)
          (by simp [Player.PlayTheGameLog, hgame, hcont])
          (fun pf h => (LoopResult.done.inj h).symm)

theorem Player.nextBet_ge (p : Player) (hinv : BetInv p)
    (hcb : p.MinimumBet ≤ p.CurrentBet) : p.MinimumBet ≤ nextBet p := by
  obtain ⟨h1, h2, h3, h4, h5, h6⟩ := hinv
  unfold nextBet
  split_ifs <;> omega

theorem newPlayer_betInv (game : Option BaccaratGame)
    (initialInvestment minimumBet maxBet : Int) (hmn : 0 ≤ minimumBet) (hmx : 0 ≤ maxBet)
    (hfit : fits64 initialInvestment) :
    BetInv (NewPlayer game initialInvestment minimumBet maxBet) := by
  unfold fits64 at hfit
  unfold BetInv nextBet NewPlayer
  simp only [if_true]
  exact ⟨hmn, hmx, hfit.1, hfit.2, hmn, fun _ => by omega⟩

theorem Player.playTheGameLog_rounds (game : Option Venture.BaccaratGame)
    (initialInvestment mn mx : Int) (guess : Nat → Nat) (fuel : Nat)
    (hmn : 0 ≤ mn) (hmx : 0 ≤ mx) (hfit : fits64 initialInvestment) :
    (∀ pre r post,
        (Player.PlayTheGameLog guess fuel 0 (NewPlayer game initialInvestment mn mx)).2
          = pre ++ r :: post →
        r.before = playerAfter (NewPlayer game initialInvestment mn mx) pre
          ∧ BetInv r.before ∧ r.before.MinimumBet = mn ∧ r.before.MaxBet = mx
          ∧ r.before.Stats.MaxBet = largestBet (pre.map RoundRecord.bet)
          ∧ (mn ≤ mx → mn ≤ r.before.CurrentBet ∧ r.before.CurrentBet ≤ mx)
          ∧ ¬ r.before.CurrentBankroll < r.before.MinimumBet
          ∧ ∃ (g1 : Venture.BaccaratGame) (raw : Nat), r.playerGuess = Guess raw
              ∧ r.after = { r.before.placeBet with BaccaratGame := some g1 }.resolve
                  r.result r.playerGuess)
    ∧ (∀ pf,
        (Player.PlayTheGameLog guess fuel 0 (NewPlayer game initialInvestment mn mx)).1
          = LoopResult.done pf →
        pf = playerAfter (NewPlayer game initialInvestment mn mx)
              (Player.PlayTheGameLog guess fuel 0
                (NewPlayer game initialInvestment mn mx)).2
          ∧ pf.Stats.MaxBet = largestBet
              ((Player.PlayTheGameLog guess fuel 0
                (NewPlayer game initialInvestment mn mx)).2.map RoundRecord.bet)) := by
  have hmain := Player.playTheGameLog_inv guess
    (fun hist p => p = playerAfter (NewPlayer game initialInvestment mn mx) hist
      ∧ BetInv p ∧ p.MinimumBet = mn ∧ p.MaxBet = mx
      ∧ p.Stats.MaxBet = largestBet (hist.map RoundRecord.bet)
      ∧ (mn ≤ mx → mn ≤ p.CurrentBet ∧ p.CurrentBet ≤ mx))
    (by
      intro hist p g1 res raw hI hguard
      obtain ⟨-, hinv, hmin, hmax, hst, hlim⟩ := hI
      obtain ⟨q1, -, q3, q4, q5, q6, -, -⟩ :=
        Player.round_money p (some g1) res (Guess raw) hinv hguard
      obtain ⟨b0, b1, b3, b4, b5⟩ := Player.placeBet_bounds p hinv hguard
      refine ⟨?_, q1, q5.trans hmin, q6.trans hmax, ?_, ?_⟩
      · rw [playerAfter_snoc]
      · rw [q3, List.map_append, List.map_cons, List.map_nil, largestBet_snoc, hst]
        rfl
      · intro hle
        obtain ⟨l1, l2⟩ := hlim hle
        have hge := Player.nextBet_ge p hinv (by omega)
        rw [q4, b0]
        simp only [min_def]
        split_ifs <;> omega)
    fuel 0 (NewPlayer game initialInvestment mn mx) []
    ⟨rfl, newPlayer_betInv game initialInvestment mn mx hmn hmx hfit, rfl, rfl, rfl,
      fun h => ⟨le_refl _, h⟩⟩
  obtain ⟨m1, m2⟩ := hmain
  refine ⟨?_, ?_⟩
  · intro pre r post h
    obtain ⟨⟨a1, a2, a3, a4, a5, a6⟩, a7, a8⟩ := m1 pre r post h
    rw [List.nil_append] at a1 a5
    exact ⟨a1, a2, a3, a4, a5, a6, a7, a8⟩
  · intro pf h
    obtain ⟨a1, -, -, -, a5, -⟩ := m2 pf h
    rw [List.nil_append] at a1 a5
    exact ⟨a1, a5⟩

/-! ## Bounds on the bet and the bankroll -/

set_option maxRecDepth 100000 in
/-- C19 (as stated, refuted): a player created by `NewPlayer` with minimum bet
1, maximum bet 10 and initial bankroll `2^63 - 1` plays one round on the game
`NewBaccaratGame 2 canonicalOrder zeroRnd` with a matching guess: the bet is 1,
the winning credit overflows the 64-bit integer, and the loop stops after this
single round with the bankroll `-2^63`, which is negative. -/
theorem winning_credit_overflows_bankroll :
    ((Player.PlayTheGame matchingGuesses 20 0
        (NewPlayer (NewBaccaratGame 2 canonicalOrder zeroRnd) (2 ^ 63 - 1) 1 10)).final).map
      (fun p => (p.Stats.TotalHandsPlayed, p.CurrentBet, p.CurrentBankroll))
      = some (1, 1, -(2 ^ 63)) := by
  decide

/-- C19 (amended): for a player created by `NewPlayer` with `MinimumBet >= 1`,
`MaxBet >= MinimumBet` and an initial bankroll in `[0, 2^63)`, on any game,
for any guesses and any number of iterations, every round `r` played by the
loop of `PlayTheGame` (after the rounds `pre`, before the rounds `post`)
starts from the player the previous round ended with and has a bet `b` with
`MinimumBet <= b <= MaxBet` and `b <= bankroll before the bet`; the bankroll
is non-negative before the bet and after the bet is taken, where it is the
bankroll before minus the bet; `Stats.MaxBet`, once the bet is recorded and
at the end of the round, is the largest bet placed up to and including this
round.  At the end of the round the bankroll is non-negative unless the round
was won with `bankroll before + b >= 2^63`: then the 64-bit credit wraps to
`bankroll before + b - 2^64`, which is negative, and this round is the last
one.  The player the loop ends with is the one the last round ended with and
has the largest of all bets as `Stats.MaxBet`. -/
theorem bet_and_bankroll_bounds (game : Option BaccaratGame)
    (initialInvestment minimumBet maxBet : Int) (guess : Nat → Nat) (fuel : Nat)
    (hmin : 1 ≤ minimumBet) (hmax : minimumBet ≤ maxBet)
    (hinv0 : 0 ≤ initialInvestment) (hinv1 : initialInvestment < 2 ^ 63) :
    (Player.PlayTheGameLog guess fuel 0
        (NewPlayer game initialInvestment minimumBet maxBet)).1
      = Player.PlayTheGame guess fuel 0 (NewPlayer game initialInvestment minimumBet maxBet)
    ∧ (∀ pre r post, (Player.PlayTheGameLog guess fuel 0
          (NewPlayer game initialInvestment minimumBet maxBet)).2 = pre ++ r :: post →
        r.before = playerAfter (NewPlayer game initialInvestment minimumBet maxBet) pre
          ∧ minimumBet ≤ r.bet ∧ r.bet ≤ maxBet ∧ r.bet ≤ r.before.CurrentBankroll
          ∧ 0 ≤ r.before.CurrentBankroll
          ∧ r.before.placeBet.CurrentBankroll = r.before.CurrentBankroll - r.bet
          ∧ 0 ≤ r.before.placeBet.CurrentBankroll
          ∧ r.before.placeBet.Stats.MaxBet = largestBet ((pre ++ [r]).map RoundRecord.bet)
          ∧ r.after.Stats.MaxBet = largestBet ((pre ++ [r]).map RoundRecord.bet)
          ∧ (r.result ≠ r.playerGuess ∨ r.before.CurrentBankroll + r.bet < 2 ^ 63 →
              0 ≤ r.after.CurrentBankroll)
          ∧ (r.result = r.playerGuess → 2 ^ 63 ≤ r.before.CurrentBankroll + r.bet →
              r.after.CurrentBankroll = r.before.CurrentBankroll + r.bet - 2 ^ 64
                ∧ r.after.CurrentBankroll < 0 ∧ post = []))
    ∧ (∀ pf, Player.PlayTheGame guess fuel 0
          (NewPlayer game initialInvestment minimumBet maxBet) = LoopResult.done pf →
        pf = playerAfter (NewPlayer game initialInvestment minimumBet maxBet)
              (Player.PlayTheGameLog guess fuel 0
                (NewPlayer game initialInvestment minimumBet maxBet)).2
          ∧ pf.Stats.MaxBet = largestBet ((Player.PlayTheGameLog guess fuel 0
              (NewPlayer game initialInvestment minimumBet maxBet)).2.map
                RoundRecord.bet)) := by
  have hfit : fits64 initialInvestment := ⟨by omega, hinv1⟩
  obtain ⟨hr, hf⟩ := Player.playTheGameLog_rounds game initialInvestment minimumBet maxBet
    guess fuel (by omega) (by omega) hfit
  refine ⟨Player.playTheGameLog_fst guess fuel 0 _, ?_, ?_⟩
  · intro pre r post h
    obtain ⟨a1, a2, a3, a4, a5, a6, a7, g1, raw, -, a9⟩ := hr pre r post h
    obtain ⟨l1, l2⟩ := a6 hmax
    obtain ⟨q1, q2, q3, -, -, -, -, -⟩ :=
      Player.round_money r.before (some g1) r.result r.playerGuess a2 a7
    obtain ⟨b0, b1, b3, b4, b5⟩ := Player.placeBet_bounds r.before a2 a7
    have hge := Player.nextBet_ge r.before a2 (by omega)
    rw [← a9] at q1 q2 q3
    have hbet : r.bet = r.before.placeBet.CurrentBet := rfl
    have hlo : minimumBet ≤ r.bet ∧ r.bet ≤ maxBet := by
      rw [hbet, b0]
      simp only [min_def]
      split_ifs <;> omega
    have hmaxr : max r.before.Stats.MaxBet r.before.placeBet.CurrentBet
        = largestBet ((pre ++ [r]).map RoundRecord.bet) := by
      rw [List.map_append, List.map_cons, List.map_nil, largestBet_snoc, a5, hbet]
    refine ⟨a1, hlo.1, hlo.2, b3, by omega, b5, by omega, ?_, ?_, ?_, ?_⟩
    · rw [Player.placeBet_maxBet]
      exact hmaxr
    · rw [q3]
      exact hmaxr
    · intro hcase
      rw [hbet] at hcase
      rw [q2]
      split_ifs <;> omega
    · intro hwin hover
      have hval : r.after.CurrentBankroll
          = r.before.CurrentBankroll + r.bet - 2 ^ 64 := by
        rw [q2, hbet, if_pos hwin, if_neg (by rw [hbet] at hover; omega)]
      have hneg : r.after.CurrentBankroll < 0 := by
        rw [hval]
        have := a2.2.2.2.1
        omega
      refine ⟨hval, hneg, ?_⟩
      cases post with
      | nil => rfl
      | cons r2 post2 =>
        have h2 : (Player.PlayTheGameLog guess fuel 0
            (NewPlayer game initialInvestment minimumBet maxBet)).2
              = (pre ++ [r]) ++ r2 :: post2 := by
          rw [h]
          simp
        obtain ⟨c1, -, c3, -, -, -, c7, -⟩ := hr (pre ++ [r]) r2 post2 h2
        rw [playerAfter_snoc] at c1
        rw [c1] at c3 c7
        omega
  · intro pf h
    rw [← Player.playTheGameLog_fst] at h
    exact hf pf h

set_option maxRecDepth 100000 in
theorem bet_and_bankroll_bounds_witness :
    ((Player.PlayTheGameLog alwaysPlayer 20 0
        (NewPlayer (NewBaccaratGame 2 canonicalOrder zeroRnd) 500000 10 5000000)).2.map
          RoundRecord.bet) = [10, 20, 40, 10, 20, 40, 10, 10, 20, 10, 10, 10, 10]
    ∧ ∀ pf, Player.PlayTheGame alwaysPlayer 20 0
          (NewPlayer (NewBaccaratGame 2 canonicalOrder zeroRnd) 500000 10 5000000)
            = LoopResult.done pf →
        pf = playerAfter (NewPlayer (NewBaccaratGame 2 canonicalOrder zeroRnd) 500000 10 5000000)
              (Player.PlayTheGameLog alwaysPlayer 20 0
                (NewPlayer (NewBaccaratGame 2 canonicalOrder zeroRnd) 500000 10 5000000)).2
          ∧ pf.Stats.MaxBet = largestBet ((Player.PlayTheGameLog alwaysPlayer 20 0
              (NewPlayer (NewBaccaratGame 2 canonicalOrder zeroRnd) 500000 10 5000000)).2.map
                RoundRecord.bet) :=
  ⟨by decide,
    (bet_and_bankroll_bounds (NewBaccaratGame 2 canonicalOrder zeroRnd) 500000 10 5000000
      alwaysPlayer 20 (by decide) (by decide) (by decide) (by decide)).2.2⟩

/-! ## Bet sizing over the rounds of the loop -/

set_option maxRecDepth 100000 in
/-- C8 (as stated, refuted): with a negative minimum bet or a negative maximum
bet the doubling wraps.  A player created by
`NewPlayer(g, 0, -2^62 - 1, 2^63 - 1)` bets `-2^62 - 1` in the first round and
loses; the doubled bet `-2^63 - 2` wraps to `2^63 - 2` and the second bet is
the bankroll `2^62 + 1`, while `min(2 * previous bet, MaxBet, bankroll)` is
`-2^63 - 2`.  With `NewPlayer(g, 0, 0, -2^62 - 1)` the first bet is the
maximum bet `-2^62 - 1`, and after the loss the second bet is `-2^62 - 1`
again instead of `-2^63 - 2`. -/
theorem doubling_wraps_for_negative_limits :
    ((Player.PlayTheGameLog alwaysPlayer 2 0
        (NewPlayer (NewBaccaratGame 2 canonicalOrder zeroRnd) 0 (-(2 ^ 62) - 1)
          (2 ^ 63 - 1))).2.map
        (fun r => (r.result, r.playerGuess, r.before.CurrentBankroll, r.bet)))
      = [(1, 0, 0, -(2 ^ 62) - 1), (1, 0, 2 ^ 62 + 1, 2 ^ 62 + 1)]
    ∧ min (min (2 * (-(2 ^ 62) - 1)) (2 ^ 63 - 1)) (2 ^ 62 + 1) = (-(2 ^ 63) - 2 : Int)
    ∧ ((Player.PlayTheGameLog alwaysPlayer 2 0
        (NewPlayer (NewBaccaratGame 2 canonicalOrder zeroRnd) 0 0 (-(2 ^ 62) - 1))).2.map
        (fun r => (r.result, r.playerGuess, r.before.CurrentBankroll, r.bet)))
      = [(1, 0, 0, -(2 ^ 62) - 1), (1, 0, 2 ^ 62 + 1, -(2 ^ 62) - 1)]
    ∧ min (min (2 * (-(2 ^ 62) - 1)) (-(2 ^ 62) - 1)) (2 ^ 62 + 1) = (-(2 ^ 63) - 2 : Int) := by
  refine ⟨by decide, by decide, by decide, by decide⟩

/-- C8 (amended): the bet placed in a round equals
`min (min B MaxBet) bankroll`, where the bankroll is the one before the bet
and `B` is `MinimumBet` after a won round, the previous bet after a tied
round, and after a lost round the 64-bit product of the previous bet and 2,
which is twice the previous bet exactly when that fits in 64 bits; the clamps
come after the choice of `B`.  For a player created by `NewPlayer` with
`MinimumBet >= 0`, `MaxBet >= 0` and a 64-bit initial bankroll, on any game,
for any guesses and any number of iterations, the doubling fits in every
round the loop of `PlayTheGame` plays: the first round bets
`min (min MinimumBet MaxBet) bankroll`, and every later round `r`, which
starts from the player the round `r0` before it ended with, bets
`min (min B MaxBet) bankroll` with `B` exactly `MinimumBet`, the bet of `r0`
or twice the bet of `r0` after a win, a tie or a loss in `r0`. -/
theorem bet_sizing (q : Player) (res playerGuess : Int) (game : Option BaccaratGame)
    (initialInvestment minimumBet maxBet : Int) (guess : Nat → Nat) (fuel : Nat) :
    (q.resolve res playerGuess).placeBet.CurrentBet
        = min (min (if res = playerGuess then q.MinimumBet
                    else if res = Tie then q.CurrentBet
                    else i64 (q.CurrentBet * 2)) q.MaxBet)
              (q.resolve res playerGuess).CurrentBankroll
    ∧ (i64 (q.CurrentBet * 2) = q.CurrentBet * 2 ↔ fits64 (q.CurrentBet * 2))
    ∧ (0 ≤ minimumBet → 0 ≤ maxBet → fits64 initialInvestment →
        (Player.PlayTheGameLog guess fuel 0
            (NewPlayer game initialInvestment minimumBet maxBet)).1
          = Player.PlayTheGame guess fuel 0
              (NewPlayer game initialInvestment minimumBet maxBet)
        ∧ (∀ r post, (Player.PlayTheGameLog guess fuel 0
              (NewPlayer game initialInvestment minimumBet maxBet)).2 = r :: post →
            r.before = NewPlayer game initialInvestment minimumBet maxBet
              ∧ r.bet = min (min minimumBet maxBet) initialInvestment)
        ∧ (∀ pre r0 r post, (Player.PlayTheGameLog guess fuel 0
              (NewPlayer game initialInvestment minimumBet maxBet)).2
                = pre ++ r0 :: r :: post →
            r.before = r0.after
              ∧ r.bet = min (min (if r0.result = r0.playerGuess then minimumBet
                                  else if r0.result = Tie then r0.bet
                                  else r0.bet * 2) maxBet) r.before.CurrentBankroll
              ∧ (r0.result ≠ r0.playerGuess → r0.result ≠ Tie →
                  fits64 (r0.bet * 2)))) := by
  refine ⟨?_, i64_eq_iff _, ?_⟩
  · obtain ⟨h1, h2, h3, h4, h5⟩ := Player.resolve_frame q res playerGuess
    rw [Player.placeBet_currentBet, h1, h2, h3, h4, h5]
    by_cases hw : res = playerGuess
    · simp [hw]
    · by_cases ht : res = Tie
      · subst ht
        simp [hw]
      · simp [hw, ht]
  · intro hmn hmx hfit
    obtain ⟨hr, -⟩ := Player.playTheGameLog_rounds game initialInvestment minimumBet maxBet
      guess fuel hmn hmx hfit
    refine ⟨Player.playTheGameLog_fst guess fuel 0 _, ?_, ?_⟩
    · intro r post h
      obtain ⟨a1, -, -, -, -, -, -, -⟩ := hr [] r post (by rw [h]; rfl)
      have hb : r.before = NewPlayer game initialInvestment minimumBet maxBet := a1
      refine ⟨hb, ?_⟩
      unfold RoundRecord.bet
      rw [hb, Player.placeBet_currentBet]
      simp [NewPlayer]
    · intro pre r0 r post h
      obtain ⟨-, a2, a3, a4, -, -, a7, g1, raw, -, a9⟩ := hr pre r0 (r :: post) h
      have h2 : (Player.PlayTheGameLog guess fuel 0
          (NewPlayer game initialInvestment minimumBet maxBet)).2
            = (pre ++ [r0]) ++ r :: post := by
        rw [h]
        simp
      obtain ⟨c1, c2, c3, c4, -, -, c7, -⟩ := hr (pre ++ [r0]) r post h2
      rw [playerAfter_snoc] at c1
      obtain ⟨-, -, -, q4, -, -, q7, q8⟩ :=
        Player.round_money r0.before (some g1) r0.result r0.playerGuess a2 a7
      rw [← a9] at q4 q7 q8
      obtain ⟨b0, -, -, -, -⟩ := Player.placeBet_bounds r.before c2 c7
      obtain ⟨-, e2⟩ := Player.nextBet_exact r.before c2 c7
      have hnext : nextBet r.before
          = (if r0.result = r0.playerGuess then minimumBet
             else if r0.result = Tie then r0.bet
             else r0.bet * 2) := by
        have hmin0 : r0.after.MinimumBet = minimumBet := by rw [← c1]; exact c3
        unfold nextBet RoundRecord.bet
        rw [c1, q7, q8, q4, hmin0]
        by_cases hw : r0.result = r0.playerGuess
        · rw [decide_eq_true hw, if_pos hw]
          simp
        · rw [decide_eq_false hw, if_neg hw]
          by_cases ht : r0.result = Tie
          · rw [decide_eq_true ht, if_pos ht]
            simp
          · rw [decide_eq_false ht, if_neg ht]
            simp
      refine ⟨c1, ?_, ?_⟩
      · have hbet : r.bet = r.before.placeBet.CurrentBet := rfl
        rw [hbet, b0, hnext, c4]
      · intro hw ht
        rw [hnext, if_neg hw, if_neg ht] at e2
        have hk := c2.2.2.2.2.2 (by omega)
        rw [hnext, if_neg hw, if_neg ht] at hk
        have := c2.2.2.2.1
        unfold fits64
        constructor <;> omega

set_option maxRecDepth 100000 in
theorem bet_sizing_witness :
    ((Player.PlayTheGameLog alwaysPlayer 20 0
        (NewPlayer (NewBaccaratGame 2 canonicalOrder zeroRnd) 500000 10 5000000)).2.map
        (fun r => (r.result, r.bet)))
      = [(1, 10), (1, 20), (0, 40), (1, 10), (1, 20), (0, 40), (2, 10), (1, 10), (0, 20),
          (0, 10), (0, 10), (0, 10), (0, 10)]
    ∧ ∀ pre r0 r post, (Player.PlayTheGameLog alwaysPlayer 20 0
          (NewPlayer (NewBaccaratGame 2 canonicalOrder zeroRnd) 500000 10 5000000)).2
            = pre ++ r0 :: r :: post →
        r.before = r0.after
          ∧ r.bet = min (min (if r0.result = r0.playerGuess then 10
                              else if r0.result = Tie then r0.bet
                              else r0.bet * 2) 5000000) r.before.CurrentBankroll
          ∧ (r0.result ≠ r0.playerGuess → r0.result ≠ Tie → fits64 (r0.bet * 2)) :=
  ⟨by decide,
    ((bet_sizing (NewPlayer none 500000 10 5000000) 1 0
      (NewBaccaratGame 2 canonicalOrder zeroRnd) 500000 10 5000000 alwaysPlayer 20).2.2
        (by decide) (by decide) (by decide)).2.2⟩

/-! ## Bet resolution over the rounds of the loop -/

theorem Player.round_resolution (p : Player) (game : Option Venture.BaccaratGame)
    (res : Int) (raw : Nat) (hR : fits64 p.CurrentBankroll) :
    (res = Guess raw →
        ({ p.placeBet with BaccaratGame := game }.resolve res (Guess raw)).CurrentBankroll
            = i64 (p.CurrentBankroll + p.placeBet.CurrentBet)
        ∧ ({ p.placeBet with BaccaratGame := game }.resolve res (Guess raw)).WonLastHand = true
        ∧ ({ p.placeBet with BaccaratGame := game }.resolve res (Guess raw)).TiedLastHand = false
        ∧ ({ p.placeBet with BaccaratGame := game }.resolve res (Guess raw)).Stats.WinCount
            = p.Stats.WinCount + 1)
    ∧ (res = Tie →
        ({ p.placeBet with BaccaratGame := game }.resolve res (Guess raw)).CurrentBankroll
            = p.CurrentBankroll
        ∧ ({ p.placeBet with BaccaratGame := game }.resolve res (Guess raw)).WonLastHand = false
        ∧ ({ p.placeBet with BaccaratGame := game }.resolve res (Guess raw)).TiedLastHand = true
        ∧ ({ p.placeBet with BaccaratGame := game }.resolve res (Guess raw)).Stats.TieCount
            = p.Stats.TieCount + 1)
    ∧ (res ≠ Guess raw → res ≠ Tie →
        ({ p.placeBet with BaccaratGame := game }.resolve res (Guess raw)).CurrentBankroll
            = i64 (p.CurrentBankroll - p.placeBet.CurrentBet)
        ∧ ({ p.placeBet with BaccaratGame := game }.resolve res (Guess raw)).WonLastHand = false
        ∧ ({ p.placeBet with BaccaratGame := game }.resolve res (Guess raw)).TiedLastHand = false
        ∧ ({ p.placeBet with BaccaratGame := game }.resolve res (Guess raw)).Stats.LossCount
            = p.Stats.LossCount + 1) := by
  have hg := guess_range raw
  have hb := Player.placeBet_bankroll p
  obtain ⟨hcw, hcl, hct⟩ := Player.placeBet_counts p
  refine ⟨?_, ?_, ?_⟩
  · intro hw
    refine ⟨?_, ?_, ?_, ?_⟩
    · simp only [Player.resolve, hw, if_true]
      rw [hb, i64_credit_win]
    · simp [Player.resolve, hw]
    · simp [Player.resolve, hw]
    · simp only [Player.resolve, hw, if_true]
      split_ifs <;> exact congrArg (fun x => x + 1) hcw
  · intro ht
    have hne : res ≠ Guess raw := by
      rw [ht]
      rcases hg with h | h <;> rw [h] <;> decide
    subst ht
    refine ⟨?_, ?_, ?_, ?_⟩
    · simp only [Player.resolve, hne, if_true, if_false]
      rw [hb, i64_credit_push, i64_of_fits hR]
    · simp [Player.resolve, hne]
    · simp [Player.resolve, hne]
    · simp only [Player.resolve, hne, if_true, if_false]
      split_ifs <;> exact congrArg (fun x => x + 1) hct
  · intro hne ht
    refine ⟨?_, ?_, ?_, ?_⟩
    · simp only [Player.resolve, hne, ht, if_false]
      exact hb
    · simp [Player.resolve, hne, ht]
    · simp [Player.resolve, hne, ht]
    · simp only [Player.resolve, hne, ht, if_false]
      split_ifs <;> exact congrArg (fun x => x + 1) hcl

set_option maxRecDepth 100000 in
/-- C9 (as stated, refuted): a player created by `NewPlayer` with bankroll
`2^63 - 1`, minimum bet 10 and maximum bet 5000000 bets 10 in the first round
on `NewBaccaratGame 2 canonicalOrder zeroRnd` and guesses the winning side
(Banker); the bankroll after the round is `-2^63 + 9`, not
`R + b = 2^63 + 9`, and the round is marked won. -/
theorem winning_credit_is_wrapped :
    ((Player.PlayTheGameLog matchingGuesses 20 0
        (NewPlayer (NewBaccaratGame 2 canonicalOrder zeroRnd) (2 ^ 63 - 1) 10 5000000)).2.map
        (fun r => (r.result, r.playerGuess, r.before.CurrentBankroll, r.bet)))
      = [(1, 1, 2 ^ 63 - 1, 10)]
    ∧ ((Player.PlayTheGameLog matchingGuesses 20 0
        (NewPlayer (NewBaccaratGame 2 canonicalOrder zeroRnd) (2 ^ 63 - 1) 10 5000000)).2.map
        (fun r => (r.after.CurrentBankroll, r.after.WonLastHand)))
      = [(-(2 ^ 63) + 9, true)]
    ∧ ¬ (-(2 ^ 63) + 9 : Int) = (2 ^ 63 - 1) + 10 := by
  refine ⟨by decide, by decide, by decide⟩

/-- C9 (amended): in a round with bankroll `R` before the bet (a 64-bit value)
and bet `b`, the guess is 0 or 1.  If the result equals the guess, the
bankroll after the round is the 64-bit sum of `R` and `b`, which is `R + b`
exactly when `R + b` fits in 64 bits, and the round is marked and counted
won; if the result is `Tie` the bankroll is exactly `R` and the round is
marked and counted tied, not won; otherwise the bankroll is the 64-bit
difference of `R` and `b`, which is `R - b` exactly when that fits, and the
round is counted lost and marked neither won nor tied.  `playRound` is this
resolution applied to the result of `PlayGame`.  For a player created by
`NewPlayer` with `MinimumBet >= 0`, `MaxBet >= 0` and a 64-bit initial
bankroll, every round played by the loop of `PlayTheGame` has
`0 <= b <= R < 2^63`, so that a lost round ends with exactly `R - b`, a tied
round with exactly `R`, and a won round with `R + b` when `R + b < 2^63` and
with `R + b - 2^64` otherwise. -/
theorem bet_resolution (p : Player) (game : Option BaccaratGame) (res : Int) (raw : Nat)
    (game0 : Option BaccaratGame) (initialInvestment minimumBet maxBet : Int)
    (guess : Nat → Nat) (fuel : Nat)
    (hR : fits64 p.CurrentBankroll) :
    (Guess raw = 0 ∨ Guess raw = 1)
    ∧ (res = Guess raw →
        ({ p.placeBet with BaccaratGame := game }.resolve res (Guess raw)).CurrentBankroll
            = i64 (p.CurrentBankroll + p.placeBet.CurrentBet)
        ∧ ({ p.placeBet with BaccaratGame := game }.resolve res (Guess raw)).WonLastHand = true
        ∧ ({ p.placeBet with BaccaratGame := game }.resolve res (Guess raw)).TiedLastHand = false
        ∧ ({ p.placeBet with BaccaratGame := game }.resolve res (Guess raw)).Stats.WinCount
            = p.Stats.WinCount + 1)
    ∧ (res = Tie →
        ({ p.placeBet with BaccaratGame := game }.resolve res (Guess raw)).CurrentBankroll
            = p.CurrentBankroll
        ∧ ({ p.placeBet with BaccaratGame := game }.resolve res (Guess raw)).WonLastHand = false
        ∧ ({ p.placeBet with BaccaratGame := game }.resolve res (Guess raw)).TiedLastHand = true
        ∧ ({ p.placeBet with BaccaratGame := game }.resolve res (Guess raw)).Stats.TieCount
            = p.Stats.TieCount + 1)
    ∧ (res ≠ Guess raw → res ≠ Tie →
        ({ p.placeBet with BaccaratGame := game }.resolve res (Guess raw)).CurrentBankroll
            = i64 (p.CurrentBankroll - p.placeBet.CurrentBet)
        ∧ ({ p.placeBet with BaccaratGame := game }.resolve res (Guess raw)).WonLastHand = false
        ∧ ({ p.placeBet with BaccaratGame := game }.resolve res (Guess raw)).TiedLastHand = false
        ∧ ({ p.placeBet with BaccaratGame := game }.resolve res (Guess raw)).Stats.LossCount
            = p.Stats.LossCount + 1)
    ∧ (i64 (p.CurrentBankroll + p.placeBet.CurrentBet)
          = p.CurrentBankroll + p.placeBet.CurrentBet
        ↔ fits64 (p.CurrentBankroll + p.placeBet.CurrentBet))
    ∧ (i64 (p.CurrentBankroll - p.placeBet.CurrentBet)
          = p.CurrentBankroll - p.placeBet.CurrentBet
        ↔ fits64 (p.CurrentBankroll - p.placeBet.CurrentBet))
    ∧ (∀ (g : BaccaratGame) (r : GameResult) (g1 : BaccaratGame),
        g.PlayGame = some (r, g1) →
        p.playRound g raw
          = some ({ p.placeBet with BaccaratGame := some g1 }.resolve r.1 (Guess raw)))
    ∧ (0 ≤ minimumBet → 0 ≤ maxBet → fits64 initialInvestment →
        (Player.PlayTheGameLog guess fuel 0
            (NewPlayer game0 initialInvestment minimumBet maxBet)).1
          = Player.PlayTheGame guess fuel 0
              (NewPlayer game0 initialInvestment minimumBet maxBet)
        ∧ ∀ r ∈ (Player.PlayTheGameLog guess fuel 0
            (NewPlayer game0 initialInvestment minimumBet maxBet)).2,
          0 ≤ r.bet ∧ r.bet ≤ r.before.CurrentBankroll ∧ r.before.CurrentBankroll < 2 ^ 63
          ∧ (r.playerGuess = 0 ∨ r.playerGuess = 1)
          ∧ (r.result = r.playerGuess →
              r.after.CurrentBankroll
                  = (if r.before.CurrentBankroll + r.bet < 2 ^ 63
                     then r.before.CurrentBankroll + r.bet
                     else r.before.CurrentBankroll + r.bet - 2 ^ 64)
              ∧ r.after.WonLastHand = true ∧ r.after.TiedLastHand = false
              ∧ r.after.Stats.WinCount = r.before.Stats.WinCount + 1)
          ∧ (r.result = Tie →
              r.after.CurrentBankroll = r.before.CurrentBankroll
              ∧ r.after.WonLastHand = false ∧ r.after.TiedLastHand = true
              ∧ r.after.Stats.TieCount = r.before.Stats.TieCount + 1)
          ∧ (r.result ≠ r.playerGuess → r.result ≠ Tie →
              r.after.CurrentBankroll = r.before.CurrentBankroll - r.bet
              ∧ r.after.WonLastHand = false ∧ r.after.TiedLastHand = false
              ∧ r.after.Stats.LossCount = r.before.Stats.LossCount + 1)) := by
  obtain ⟨s1, s2, s3⟩ := Player.round_resolution p game res raw hR
  refine ⟨guess_range raw, s1, s2, s3, i64_eq_iff _, i64_eq_iff _, ?_, ?_⟩
  · intro g r g1 h
    simp [Player.playRound, h]
  · intro hmn hmx hfit
    obtain ⟨hr, -⟩ := Player.playTheGameLog_rounds game0 initialInvestment minimumBet maxBet
      guess fuel hmn hmx hfit
    refine ⟨Player.playTheGameLog_fst guess fuel 0 _, ?_⟩
    intro r hmem
    obtain ⟨pre, post, hsplit⟩ := List.append_of_mem hmem
    obtain ⟨-, a2, -, -, -, -, a7, g1, raw1, a8, a9⟩ := hr pre r post hsplit
    have hfitR : fits64 r.before.CurrentBankroll := ⟨a2.2.2.1, a2.2.2.2.1⟩
    obtain ⟨-, q2, -, -, -, -, -, -⟩ :=
      Player.round_money r.before (some g1) r.result r.playerGuess a2 a7
    obtain ⟨-, b1, b3, -, -⟩ := Player.placeBet_bounds r.before a2 a7
    obtain ⟨t1, t2, t3⟩ := Player.round_resolution r.before (some g1) r.result raw1 hfitR
    rw [← a8, ← a9] at t1 t2 t3
    rw [← a9] at q2
    have hbet : r.bet = r.before.placeBet.CurrentBet := rfl
    have hgr : r.playerGuess = 0 ∨ r.playerGuess = 1 := by
      rw [a8]
      exact guess_range raw1
    refine ⟨b1, b3, a2.2.2.2.1, hgr, ?_, ?_, ?_⟩
    · intro hw
      obtain ⟨-, w2, w3, w4⟩ := t1 hw
      refine ⟨?_, w2, w3, w4⟩
      rw [q2, if_pos hw, hbet]
    · intro ht
      obtain ⟨w1, w2, w3, w4⟩ := t2 ht
      exact ⟨w1, w2, w3, w4⟩
    · intro hw ht
      obtain ⟨-, w2, w3, w4⟩ := t3 hw ht
      refine ⟨?_, w2, w3, w4⟩
      rw [q2, if_neg hw, if_neg ht, hbet]

set_option maxRecDepth 100000 in
theorem bet_resolution_witness :
    fits64 (NewPlayer none 500000 10 5000000).CurrentBankroll
    ∧ ((Player.PlayTheGameLog alwaysPlayer 20 0
        (NewPlayer (NewBaccaratGame 2 canonicalOrder zeroRnd) 500000 10 5000000)).2.map
        (fun r => (r.result, r.bet, r.after.CurrentBankroll)))
      = [(1, 10, 499990), (1, 20, 499970), (0, 40, 500010), (1, 10, 500000),
          (1, 20, 499980), (0, 40, 500020), (2, 10, 500020), (1, 10, 500010),
          (0, 20, 500030), (0, 10, 500040), (0, 10, 500050), (0, 10, 500060),
          (0, 10, 500070)]
    ∧ ∀ r ∈ (Player.PlayTheGameLog alwaysPlayer 20 0
          (NewPlayer (NewBaccaratGame 2 canonicalOrder zeroRnd) 500000 10 5000000)).2,
        r.result = Tie →
          r.after.CurrentBankroll = r.before.CurrentBankroll
            ∧ r.after.WonLastHand = false ∧ r.after.TiedLastHand = true
            ∧ r.after.Stats.TieCount = r.before.Stats.TieCount + 1 :=
  ⟨by decide, by decide,
    fun r hr => (((bet_resolution (NewPlayer none 500000 10 5000000) none 1 1
      (NewBaccaratGame 2 canonicalOrder zeroRnd) 500000 10 5000000 alwaysPlayer 20
        (by decide)).2.2.2.2.2.2.2 (by decide) (by decide) (by decide)).2 r hr).2.2.2.2.2.1⟩

/-! ## Settlement on the hands of a played round -/

theorem Shoe.draw_valid {s s1 : Shoe} {c : Card} (h : s.Draw = some (c, s1))
    (hv : ∀ x ∈ s.cards, ValidCard x) : ValidCard c ∧ ∀ x ∈ s1.cards, ValidCard x := by
  rw [Shoe.draw_cards h] at hv
  exact ⟨hv c (List.mem_cons_self _ _), fun x hx => hv x (List.mem_cons_of_mem _ hx)⟩

theorem BaccaratGame.dealHands_valid {g g1 : BaccaratGame} (h : g.DealHands = some g1)
    (hv : AllValid g) : AllValid g1 := by
  obtain ⟨hs, hp, hb⟩ := hv
  unfold BaccaratGame.DealHands at h
  split_ifs at h with hlen
  · simp only [Option.some.injEq] at h
    rw [← h]
    exact ⟨hs, hp, hb⟩
  · cases h1 : g.Shoe.Draw with
    | none => simp [h1] at h
    | some x1 =>
      simp only [h1] at h
      cases h2 : x1.2.Draw with
      | none => simp [h2] at h
      | some x2 =>
        simp only [h2] at h
        cases h3 : x2.2.Draw with
        | none => simp [h3] at h
        | some x3 =>
          simp only [h3] at h
          cases h4 : x3.2.Draw with
          | none => simp [h4] at h
          | some x4 =>
            simp only [h4, Option.some.injEq] at h
            obtain ⟨v1, w1⟩ := @Shoe.draw_valid _ x1.2 x1.1 h1 hs
            obtain ⟨v2, w2⟩ := @Shoe.draw_valid _ x2.2 x2.1 h2 w1
            obtain ⟨v3, w3⟩ := @Shoe.draw_valid _ x3.2 x3.1 h3 w2
            obtain ⟨v4, w4⟩ := @Shoe.draw_valid _ x4.2 x4.1 h4 w3
            rw [← h]
            refine ⟨w4, ?_, ?_⟩
            · intro c hc
              simp only [List.mem_append, List.mem_singleton] at hc
              rcases hc with (hc | hc) | hc
              · exact hp c hc
              · rw [hc]; exact v1
              · rw [hc]; exact v3
            · intro c hc
              simp only [List.mem_append, List.mem_singleton] at hc
              rcases hc with (hc | hc) | hc
              · exact hb c hc
              · rw [hc]; exact v2
              · rw [hc]; exact v4

theorem BaccaratGame.playerDrawStep_valid {g g2 : BaccaratGame} {playerScore : Int}
    {pd : Bool} {pv : Int} (h : g.playerDrawStep playerScore = some (g2, pd, pv))
    (hv : AllValid g) : AllValid g2 := by
  obtain ⟨hs, hp, hb⟩ := hv
  unfold BaccaratGame.playerDrawStep at h
  split_ifs at h
  · cases h1 : g.Shoe.Draw with
    | none => simp [h1] at h
    | some x1 =>
      simp only [h1, List.getLast?_concat, Option.some.injEq, Prod.mk.injEq] at h
      obtain ⟨v1, w1⟩ := @Shoe.draw_valid _ x1.2 x1.1 h1 hs
      rw [← h.1]
      refine ⟨w1, ?_, hb⟩
      intro c hc
      simp only [List.mem_append, List.mem_singleton] at hc
      rcases hc with hc | hc
      · exact hp c hc
      · rw [hc]; exact v1
  · simp only [Option.some.injEq, Prod.mk.injEq] at h
    rw [← h.1]
    exact ⟨hs, hp, hb⟩

theorem BaccaratGame.bankerDrawStep_valid {g g2 : BaccaratGame} {bankerScore : Int}
    {pd : Bool} {pv : Int} (h : g.bankerDrawStep bankerScore pd pv = some g2)
    (hv : AllValid g) : AllValid g2 := by
  obtain ⟨hs, hp, hb⟩ := hv
  unfold BaccaratGame.bankerDrawStep at h
  split_ifs at h
  · cases h1 : g.Shoe.Draw with
    | none => simp [h1] at h
    | some x1 =>
      simp only [h1, Option.some.injEq] at h
      obtain ⟨v1, w1⟩ := @Shoe.draw_valid _ x1.2 x1.1 h1 hs
      rw [← h]
      refine ⟨w1, hp, ?_⟩
      intro c hc
      simp only [List.mem_append, List.mem_singleton] at hc
      rcases hc with hc | hc
      · exact hb c hc
      · rw [hc]; exact v1
  · simp only [Option.some.injEq] at h
    rw [← h]
    exact ⟨hs, hp, hb⟩

theorem BaccaratGame.evaluateGameResults_valid (g : BaccaratGame) (hv : AllValid g) :
    AllValid g.EvaluateGameResults.2 := by
  obtain ⟨f1, f2, f3, -⟩ := BaccaratGame.evaluateGameResults_frame g
  unfold AllValid
  rw [f1, f2, f3]
  exact hv

theorem BaccaratGame.playDealt_valid {g1 g2 : BaccaratGame} {r : GameResult}
    (h : g1.playDealt = some (r, g2)) (hv : AllValid g1) : AllValid g2 := by
  unfold BaccaratGame.playDealt at h
  simp only at h
  split_ifs at h with hnat
  · simp only [Option.some.injEq, Prod.mk.injEq] at h
    rw [← h.2]
    exact BaccaratGame.evaluateGameResults_valid g1 hv
  · cases hps : g1.playerDrawStep (EvaluateHand g1.Player) with
    | none => simp [hps] at h
    | some x =>
      obtain ⟨g2a, pd, pv⟩ := x
      simp only [hps] at h
      cases hbs : g2a.bankerDrawStep (EvaluateHand g1.Banker) pd pv with
      | none => simp [hbs] at h
      | some g3 =>
        simp only [hbs, Option.some.injEq, Prod.mk.injEq] at h
        rw [← h.2]
        exact BaccaratGame.evaluateGameResults_valid g3
          (BaccaratGame.bankerDrawStep_valid hbs (BaccaratGame.playerDrawStep_valid hps hv))

theorem BaccaratGame.playGame_valid {g g2 : BaccaratGame} {r : GameResult}
    (hcont : g.canContinue = true) (h : g.PlayGame = some (r, g2)) (hv : AllValid g) :
    AllValid g2 ∧ r.2.2 = none ∧ 0 ≤ r.2.1 ∧ r.2.1 ≤ 9 := by
  have hv2 : AllValid g2 := by
    have h0 := h
    rw [BaccaratGame.playGame_eq g hcont] at h0
    obtain ⟨g1, hd, hp⟩ := Option.bind_eq_some.1 h0
    exact BaccaratGame.playDealt_valid hp (BaccaratGame.dealHands_valid hd hv)
  obtain ⟨g3, e1, e2, e3, -, -⟩ := BaccaratGame.playGame_returns_settlement hcont h
  obtain ⟨hP, hB, hT⟩ := BaccaratGame.evaluateGameResults_result g3
  have hrP := evaluateHand_range g3.Player
    (fun c hc => le_trans (by decide) (hv2.2.1 c (by rw [← e1]; exact hc)).1)
  have hrB := evaluateHand_range g3.Banker
    (fun c hc => le_trans (by decide) (hv2.2.2 c (by rw [← e2]; exact hc)).1)
  refine ⟨hv2, by rw [e3], ?_, ?_⟩
  · rw [e3]
    rcases lt_trichotomy (EvaluateHand g3.Player) (EvaluateHand g3.Banker) with h | h | h
    · rw [hB h]; exact hrB.1
    · rw [hT h]; exact hrP.1
    · rw [hP h]; exact hrP.1
  · rw [e3]
    rcases lt_trichotomy (EvaluateHand g3.Player) (EvaluateHand g3.Banker) with h | h | h
    · rw [hB h]; exact hrB.2
    · rw [hT h]; exact hrP.2
    · rw [hP h]; exact hrP.2

theorem BaccaratGame.playGames_valid :
    ∀ (k : Nat) (g g2 : BaccaratGame) (rs : List GameResult), AllValid g →
      g.playGames k = some (rs, g2) →
      AllValid g2 ∧ ∀ r ∈ rs, r.2.2 = none → 0 ≤ r.2.1 ∧ r.2.1 ≤ 9 := by
  intro k
  induction k with
  | zero =>
    intro g g2 rs hv h
    simp only [BaccaratGame.playGames, Option.some.injEq, Prod.mk.injEq] at h
    rw [← h.1, ← h.2]
    exact ⟨hv, fun r hr => by simp at hr⟩
  | succ n ih =>
    intro g g2 rs hv h
    unfold BaccaratGame.playGames at h
    cases hp : g.PlayGame with
    | none => simp [hp] at h
    | some x =>
      obtain ⟨r, g1⟩ := x
      simp only [hp] at h
      cases hrest : BaccaratGame.playGames n g1 with
      | none => simp [hrest] at h
      | some y =>
        obtain ⟨rs1, g3⟩ := y
        simp only [hrest, Option.some.injEq, Prod.mk.injEq] at h
        by_cases hcont : g.canContinue = true
        · obtain ⟨hv1, -, s1, s2⟩ := BaccaratGame.playGame_valid hcont hp hv
          obtain ⟨hv3, hall⟩ := ih g1 g3 rs1 hv1 hrest
          rw [← h.1, ← h.2]
          refine ⟨hv3, ?_⟩
          intro r0 hr0 hnone
          rcases List.mem_cons.1 hr0 with h0 | h0
          · rw [h0]; exact ⟨s1, s2⟩
          · exact hall r0 h0 hnone
        · have hp0 := hp
          simp only [BaccaratGame.PlayGame, hcont, Bool.not_false, if_true,
            Option.some.injEq, Prod.mk.injEq] at hp0
          obtain ⟨hv3, hall⟩ := ih g1 g3 rs1 (by rw [← hp0.2]; exact hv) hrest
          rw [← h.1, ← h.2]
          refine ⟨hv3, ?_⟩
          intro r0 hr0 hnone
          rcases List.mem_cons.1 hr0 with h0 | h0
          · rw [h0, ← hp0.1] at hnone
            simp at hnone
          · exact hall r0 h0 hnone

theorem newBaccaratGame_valid (N : Nat) (hN : 1 ≤ N)
    (iter : Nat → Nat → List (String × Int)) (hiter : ∀ i k, MapOrder (iter i k))
    (rnd : Nat → Nat) :
    ∃ g, NewBaccaratGame (N : Int) iter rnd = some g ∧ SafeGame g ∧ AllValid g := by
  obtain ⟨g, hnew, hcont, hne, htf, h41, hpl, hbk, -⟩ :=
    newBaccaratGame_spec N hN iter hiter rnd
  obtain ⟨-, -, topCard, rest, g0, -, -, -, hnew0, hcards, -⟩ :=
    newBaccaratGame_burn N hN iter hiter rnd
  rw [hnew] at hnew0
  have hg : g = g0 := Option.some.inj hnew0
  subst hg
  have hfull := (Shoe.shuffle_full (NewShoe (N : Int) iter) rnd
    (newShoe_full N iter hiter).1).1
  have hvalid := Shoe.cards_valid_of_full _ hfull
  refine ⟨g, hnew, fun _ => ⟨hne, htf, by omega⟩, ?_, ?_, ?_⟩
  · intro c hc
    rw [hcards] at hc
    exact hvalid c (List.mem_of_mem_drop hc)
  · intro c hc
    rw [hpl] at hc
    simp at hc
  · intro c hc
    rw [hbk] at hc
    simp at hc

/-- C4: settlement.  For final hands of cards with pip values in 1..10,
`EvaluateGameResults` returns `PlayerWins` with the Player's score when it is
strictly higher, `BankerWins` with the Banker's score when that is strictly
higher, `Tie` with the common score when they are equal, and the returned
score lies in 0..9.  Whatever `PlayGame` returns without error is this result
for the final hands of the round; a round played on a game whose cards all
have pip values in 1..10 keeps them so and returns, without error, a score in
0..9; and for every `N >= 1`, every map order and every shuffle, after any
number of `PlayGame` calls on the game created by `NewBaccaratGame(N)` the
hands hold only cards with pip values in 1..10 and every result returned
without error has a score in 0..9. -/
theorem settlement_result (g g0 : BaccaratGame)
    (hval : ∀ c ∈ g.Player ++ g.Banker, ValidCard c) :
    (EvaluateHand g.Player > EvaluateHand g.Banker →
        g.EvaluateGameResults.1 = (PlayerWins, EvaluateHand g.Player))
    ∧ (EvaluateHand g.Banker > EvaluateHand g.Player →
        g.EvaluateGameResults.1 = (BankerWins, EvaluateHand g.Banker))
    ∧ (EvaluateHand g.Player = EvaluateHand g.Banker →
        g.EvaluateGameResults.1 = (Tie, EvaluateHand g.Player))
    ∧ 0 ≤ g.EvaluateGameResults.1.2 ∧ g.EvaluateGameResults.1.2 ≤ 9
    ∧ (∀ r g1, g0.canContinue = true → g0.PlayGame = some (r, g1) →
        ∃ g3 : BaccaratGame, g3.Player = g1.Player ∧ g3.Banker = g1.Banker
          ∧ r = (g3.EvaluateGameResults.1.1, g3.EvaluateGameResults.1.2, none))
    ∧ (∀ r g1, AllValid g0 → g0.canContinue = true → g0.PlayGame = some (r, g1) →
        AllValid g1 ∧ r.2.2 = none ∧ 0 ≤ r.2.1 ∧ r.2.1 ≤ 9)
    ∧ (∀ (N : Nat) (iter : Nat → Nat → List (String × Int)) (rnd : Nat → Nat) (k : Nat),
        1 ≤ N → (∀ i j, MapOrder (iter i j)) →
        ∃ gN rs g2, NewBaccaratGame (N : Int) iter rnd = some gN
          ∧ gN.playGames k = some (rs, g2) ∧ rs.length = k
          ∧ (∀ c ∈ g2.Player ++ g2.Banker, ValidCard c)
          ∧ ∀ r ∈ rs, r.2.2 = none → 0 ≤ r.2.1 ∧ r.2.1 ≤ 9) := by
  obtain ⟨hP, hB, hT⟩ := BaccaratGame.evaluateGameResults_result g
  have hrP := evaluateHand_range g.Player
    (fun c hc => le_trans (by decide) (hval c (by simp [hc])).1)
  have hrB := evaluateHand_range g.Banker
    (fun c hc => le_trans (by decide) (hval c (by simp [hc])).1)
  refine ⟨hP, hB, hT, ?_, ?_, ?_, ?_, ?_⟩
  · rcases lt_trichotomy (EvaluateHand g.Player) (EvaluateHand g.Banker) with h | h | h
    · rw [hB h]; exact hrB.1
    · rw [hT h]; exact hrP.1
    · rw [hP h]; exact hrP.1
  · rcases lt_trichotomy (EvaluateHand g.Player) (EvaluateHand g.Banker) with h | h | h
    · rw [hB h]; exact hrB.2
    · rw [hT h]; exact hrP.2
    · rw [hP h]; exact hrP.2
  · intro r g1 hcont hplay
    obtain ⟨g3, h1, h2, h3, -, -⟩ := BaccaratGame.playGame_returns_settlement hcont hplay
    exact ⟨g3, h1, h2, h3⟩
  · intro r g1 hv hcont hplay
    exact BaccaratGame.playGame_valid hcont hplay hv
  · intro N iter rnd k hN hiter
    obtain ⟨gN, hnew, hsafe, hv⟩ := newBaccaratGame_valid N hN iter hiter rnd
    obtain ⟨rs, g2, hplay, hlen, -⟩ := BaccaratGame.playGames_total k gN hsafe
    obtain ⟨hv2, hall⟩ := BaccaratGame.playGames_valid k gN g2 rs hv hplay
    refine ⟨gN, rs, g2, hnew, hplay, hlen, ?_, hall⟩
    intro c hc
    rcases List.mem_append.1 hc with h | h
    · exact hv2.2.1 c h
    · exact hv2.2.2 c h

theorem settlement_result_witness :
    (∀ c ∈ settledGame.Player ++ settledGame.Banker, ValidCard c)
      ∧ EvaluateHand settledGame.Player > EvaluateHand settledGame.Banker
      ∧ settledGame.EvaluateGameResults.1 = (PlayerWins, 8) :=
  ⟨by decide, by decide, (settlement_result settledGame drawingGame (by decide)).1 (by decide)⟩

end Venture
